import Mathlib

/-!
# Verification development for INET: MAC address table, polygon geometry, materials

Shallow embedding of `src/linklayer/ethernet/switch/MACAddressTable.cc`,
`src/common/geometry/Polygon.cc` and `src/environment/Material.cc`. The notes below are
on the MAC address table; the geometry and the materials have their own further down.

* `std::map` is a list of key/value pairs kept in ascending key order; `find`
  returns the first pair with the key, `operator[]` assignment inserts at the
  ordered position or overwrites, `erase(iterator)` drops the pair found.
  The functions assume but do not require ordered, duplicate-free lists;
  `MACAddressTable.WF` states that invariant and separate lemmas show it is
  kept.
* `simtime_t` is an integer number of clock ticks (`Int`); `simTime()` is the
  explicit argument `now` of every operation that reads the clock. Sums of times
  are exact: the tick count is taken to stay inside the 64-bit range of the
  simulation kernel's time type, which is not part of these sources.
* `int portno` and `unsigned int vid` are only stored and compared, never
  computed with; they are `Int` and `Nat`.
* The member `addressTable` and `vlanAddressTable[0]` point to one and the same
  object; the state keeps the objects by value inside `vlanAddressTable`, and
  `addressTable` reads the object stored under key `0`.
-/

namespace Inet

/-! ## Ordered maps (`std::map`) -/

/-- Lookup `m.find(k)`: the value of the first pair with key `k`, `none` for `end()`. -/
def mapFind {β : Type} (k : Nat) : List (Nat × β) → Option β
  | [] => none
  | (k', v) :: rest => if k' = k then some v else mapFind k rest

/-- Assignment `m[k] = v`: overwrite the pair with key `k`, or insert one at its ordered place. -/
def mapAssign {β : Type} (k : Nat) (v : β) : List (Nat × β) → List (Nat × β)
  | [] => [(k, v)]
  | (k', v') :: rest =>
    if k < k' then (k, v) :: (k', v') :: rest
    else if k = k' then (k, v) :: rest
    else (k', v') :: mapAssign k v rest

/-- Write through the iterator `it = m.find(k)`: `it->second = f(it->second)`; nothing at `end()`. -/
def mapModify {β : Type} (k : Nat) (f : β → β) : List (Nat × β) → List (Nat × β)
  | [] => []
  | (k', v) :: rest => if k' = k then (k', f v) :: rest else (k', v) :: mapModify k f rest

/-- Removal `m.erase(m.find(k))`: drop the pair found by `find`. -/
def mapErase {β : Type} (k : Nat) : List (Nat × β) → List (Nat × β)
  | [] => []
  | (k', v) :: rest => if k' = k then rest else (k', v) :: mapErase k rest

/-- Keys in strictly ascending order: the representation invariant of `std::map`. -/
def mapSorted {β : Type} (m : List (Nat × β)) : Prop :=
  List.Pairwise (fun x y => x.1 < y.1) m

instance {β : Type} (m : List (Nat × β)) : Decidable (mapSorted m) := by
  unfold mapSorted; infer_instance

/-! ## Data model -/

/-- Modelled from the spec: `MACAddress.h` is not among the sources. An address is its
48-bit value; the map comparator `MAC_compare` orders addresses by that value. -/
abbrev MACAddress := Nat

/-- Modelled from the spec: the broadcast address `ff:ff:ff:ff:ff:ff`. -/
def MACAddress.isBroadcast (a : MACAddress) : Bool := a == 0xFFFFFFFFFFFF

/-- The record `AddressEntry(vid, portno, insertionTime)`. -/
structure AddressEntry where
  vid : Nat
  portno : Int
  insertionTime : Int
  deriving DecidableEq, Repr

/-- The type `AddressTable`: `std::map<MACAddress, AddressEntry, MAC_compare>`. -/
abbrev AddressTable := List (MACAddress × AddressEntry)

/-- The module state: `agingTime` and `vlanAddressTable` (VLAN id to table). -/
structure MACAddressTable where
  agingTime : Int
  vlanAddressTable : List (Nat × AddressTable)
  deriving DecidableEq, Repr

namespace MACAddressTable

/-- Constructor: a fresh table is created and registered for VLAN id 0. -/
def construct : MACAddressTable :=
  { agingTime := 0, vlanAddressTable := mapAssign 0 [] [] }

/-- Module start-up (the method run before any event): `agingTime = par("agingTime")`. -/
def initModule (s : MACAddressTable) (par : Int) : MACAddressTable :=
  { s with agingTime := par }

/-- The member `addressTable`: the table object registered under VLAN id 0. -/
def addressTable (s : MACAddressTable) : Option AddressTable :=
  mapFind 0 s.vlanAddressTable

/-- Function `getTableForVid`: the table of `vid`, or `none` for `NULL`. -/
def getTableForVid (s : MACAddressTable) (vid : Nat) : Option AddressTable :=
  if vid = 0 then s.addressTable
  else mapFind vid s.vlanAddressTable

/-- Function `getPortForAddress` at time `now`: the returned port (`-1` when absent)
and the state afterwards. -/
def getPortForAddress (s : MACAddressTable) (now : Int) (address : MACAddress) (vid : Nat) :
    Int × MACAddressTable :=
  match s.getTableForVid vid with
  | none => (-1, s)
  | some table =>
    match mapFind address table with
    | none => (-1, s)
    | some entry =>
      if entry.insertionTime + s.agingTime ≤ now then
        (-1, { s with vlanAddressTable := mapModify vid (mapErase address) s.vlanAddressTable })
      else (entry.portno, s)

/-- Function `updateTableWithAddress` at time `now`: the returned flag and the state afterwards. -/
def updateTableWithAddress (s : MACAddressTable) (now : Int) (portno : Int)
    (address : MACAddress) (vid : Nat) : Bool × MACAddressTable :=
  if address.isBroadcast then (false, s)
  else
    match s.getTableForVid vid with
    | none =>
      (false,
        { s with vlanAddressTable :=
            (mapAssign vid (mapAssign address (AddressEntry.mk vid portno now) [])
              s.vlanAddressTable) })
    | some table =>
      match mapFind address table with
      | none =>
        (false,
          { s with vlanAddressTable :=
              (mapModify vid (mapAssign address (AddressEntry.mk vid portno now))
                s.vlanAddressTable) })
      | some _ =>
        (true,
          { s with vlanAddressTable :=
              (mapModify vid
                (mapModify address
                  (fun entry => { entry with insertionTime := now, portno := portno }))
                s.vlanAddressTable) })

/-- Inner loop of `flush` over one table: `cur = j++`, then `cur` is erased when the
entry `j` now points to has port `portno`. At the last entry `j` is `end()`; the value
read through it is not determined by the program and is the argument `endPortno`. -/
def flushTable (endPortno : Int) (portno : Int) : AddressTable → AddressTable
  | [] => []
  | [cur] => if endPortno = portno then [] else [cur]
  | cur :: next :: rest =>
    if next.2.portno = portno then flushTable endPortno portno (next :: rest)
    else cur :: flushTable endPortno portno (next :: rest)

/-- Function `flush`: the loop of `flushTable` over every VLAN's table; `endPortno vid`
is the value read through the past-the-end iterator of the table of `vid`. -/
def flush (endPortno : Nat → Int) (s : MACAddressTable) (portno : Int) : MACAddressTable :=
  { s with vlanAddressTable :=
      s.vlanAddressTable.map (fun i => (i.1, flushTable (endPortno i.1) portno i.2)) }

/-- Inner loop of `copyTable` over one table. -/
def copyTableLoop (portA portB : Int) : AddressTable → AddressTable
  | [] => []
  | j :: rest =>
    (if j.2.portno = portA then (j.1, { j.2 with portno := portB }) else j)
      :: copyTableLoop portA portB rest

/-- Function `copyTable`. -/
def copyTable (s : MACAddressTable) (portA portB : Int) : MACAddressTable :=
  { s with vlanAddressTable :=
      s.vlanAddressTable.map (fun i => (i.1, copyTableLoop portA portB i.2)) }

/-- The erase loop shared by `removeAgedEntriesFromVlan` and `removeAgedEntriesFromAllVlans`. -/
def removeAgedLoop (agingTime now : Int) : AddressTable → AddressTable
  | [] => []
  | cur :: rest =>
    if cur.2.insertionTime + agingTime ≤ now then removeAgedLoop agingTime now rest
    else cur :: removeAgedLoop agingTime now rest

/-- Function `removeAgedEntriesFromVlan` at time `now`. -/
def removeAgedEntriesFromVlan (s : MACAddressTable) (now : Int) (vid : Nat) : MACAddressTable :=
  match s.getTableForVid vid with
  | none => s
  | some _ =>
    { s with vlanAddressTable :=
        mapModify vid (removeAgedLoop s.agingTime now) s.vlanAddressTable }

/-- Function `removeAgedEntriesFromAllVlans` at time `now`. -/
def removeAgedEntriesFromAllVlans (s : MACAddressTable) (now : Int) : MACAddressTable :=
  { s with vlanAddressTable :=
      s.vlanAddressTable.map (fun i => (i.1, removeAgedLoop s.agingTime now i.2)) }

/-- The entry stored for `address` in the table of `vid`, if both exist. -/
def entry (s : MACAddressTable) (vid : Nat) (address : MACAddress) : Option AddressEntry :=
  (s.getTableForVid vid).bind (mapFind address)

/-- Well-formedness: every map has strictly ascending keys and VLAN id 0 has a table. -/
def WF (s : MACAddressTable) : Prop :=
  mapSorted s.vlanAddressTable ∧ (∀ i ∈ s.vlanAddressTable, mapSorted i.2) ∧
    s.addressTable ≠ none

instance (s : MACAddressTable) : Decidable s.WF := by
  unfold WF; infer_instance

/-- No table holds an entry keyed by a broadcast address. -/
def NoBroadcast (s : MACAddressTable) : Prop :=
  ∀ i ∈ s.vlanAddressTable, ∀ j ∈ i.2, MACAddress.isBroadcast j.1 = false

/-- States reachable from the constructor through the public operations, each called
at an arbitrary time. -/
inductive Reachable : MACAddressTable → Prop
  | construct : Reachable construct
  | initModule (s : MACAddressTable) (par : Int) : Reachable s → Reachable (s.initModule par)
  | getPortForAddress (s : MACAddressTable) (now : Int) (address : MACAddress) (vid : Nat) :
      Reachable s → Reachable (s.getPortForAddress now address vid).2
  | updateTableWithAddress (s : MACAddressTable) (now : Int) (portno : Int)
      (address : MACAddress) (vid : Nat) :
      Reachable s → Reachable (s.updateTableWithAddress now portno address vid).2
  | flush (endPortno : Nat → Int) (s : MACAddressTable) (portno : Int) :
      Reachable s → Reachable (flush endPortno s portno)
  | copyTable (s : MACAddressTable) (portA portB : Int) :
      Reachable s → Reachable (s.copyTable portA portB)
  | removeAgedEntriesFromVlan (s : MACAddressTable) (now : Int) (vid : Nat) :
      Reachable s → Reachable (s.removeAgedEntriesFromVlan now vid)
  | removeAgedEntriesFromAllVlans (s : MACAddressTable) (now : Int) :
      Reachable s → Reachable (s.removeAgedEntriesFromAllVlans now)

/-- A reachable state with `agingTime` = 1000: VLAN 0 has learned address 1 on port 1,
address 2 on port 2 and address 3 on port 3, all at time 0. -/
def threePorts : MACAddressTable :=
  ((((construct.initModule 1000).updateTableWithAddress 0 1 1 0).2.updateTableWithAddress
    0 2 2 0).2.updateTableWithAddress 0 3 3 0).2

/-- A reachable state with `agingTime` = 1000: VLAN 0 has learned address 1 on port 1 and
address 2 on port 2, both at time 0. -/
def twoPorts : MACAddressTable :=
  (((construct.initModule 1000).updateTableWithAddress 0 1 1 0).2.updateTableWithAddress
    0 2 2 0).2

/-- A reachable state with `agingTime` = 10: VLAN 0 has learned address 1 on port 1 at
time 0 and VLAN 1 has learned address 2 on port 2 at time 5. -/
def twoVlans : MACAddressTable :=
  (((construct.initModule 10).updateTableWithAddress 0 1 1 0).2.updateTableWithAddress
    5 2 2 1).2

end MACAddressTable

/-! ## Geometry (`src/common/geometry/Polygon.cc`)

`double` is a type `K` with the arithmetic operations and the comparison the functions
use, and `std::sqrt` is the argument `sqrt`: `K` is an ordered field (the real numbers in
the theorems that say so) where a property is stated in exact arithmetic, and `Binary64`
where it is about the rounding of a `double`. In an ordered field a `double` that is not a
real number is `none`: the only one these functions produce from real inputs is the
quotient `0 / 0` of `getNormalUnitVector`, and a comparison with it is false, as for NaN. -/

/-- Modelled from the spec: `Coord.h` is not among the sources. A 3-D vector with
componentwise addition, subtraction, minimum and maximum, multiplication and division by
a scalar, dot product and length. -/
structure Coord (K : Type) where
  x : K
  y : K
  z : K
  deriving DecidableEq

namespace Coord

variable {K : Type} [Zero K] [Add K] [Sub K] [Mul K] [Div K] [Min K] [Max K]

/-- The vector `Coord(0,0,0)`, also the default `Coord()`. -/
def zero : Coord K := ⟨0, 0, 0⟩

/-- Sum `a + b`. -/
def add (a b : Coord K) : Coord K := ⟨a.x + b.x, a.y + b.y, a.z + b.z⟩

/-- Difference `a - b`. -/
def sub (a b : Coord K) : Coord K := ⟨a.x - b.x, a.y - b.y, a.z - b.z⟩

/-- Product `a * f` with a scalar. -/
def scale (a : Coord K) (f : K) : Coord K := ⟨a.x * f, a.y * f, a.z * f⟩

/-- Quotient `a / f` by a scalar. -/
def divide (a : Coord K) (f : K) : Coord K := ⟨a.x / f, a.y / f, a.z / f⟩

/-- Dot product `a * b`. -/
def dot (a b : Coord K) : K := a.x * b.x + a.y * b.y + a.z * b.z

/-- Length `a.length()`. -/
def length (sqrt : K → K) (a : Coord K) : K := sqrt (a.x * a.x + a.y * a.y + a.z * a.z)

/-- Componentwise minimum `a.min(b)`. -/
def min (a b : Coord K) : Coord K := ⟨Min.min a.x b.x, Min.min a.y b.y, Min.min a.z b.z⟩

/-- Componentwise maximum `a.max(b)`. -/
def max (a b : Coord K) : Coord K := ⟨Max.max a.x b.x, Max.max a.y b.y, Max.max a.z b.z⟩

end Coord

/-- Modelled from the spec: `LineSegment.h` is not among the sources. An ordered pair of
end points, read by `getPoint1()` and `getPoint2()`. -/
structure LineSegment (K : Type) where
  point1 : Coord K
  point2 : Coord K

/-- The class `Polygon`: its member `points`. -/
structure Polygon (K : Type) where
  points : List (Coord K)

/-- The values `computeIntersection` hands back: its return value and the four
reference arguments after the call. -/
structure Intersection (K : Type) where
  result : Bool
  intersection1 : Coord K
  intersection2 : Coord K
  normal1 : Coord K
  normal2 : Coord K

/-- The variables the loop of `computeIntersection` updates. -/
structure ClipState (K : Type) where
  tE : K
  tL : K
  normal1 : Coord K
  normal2 : Coord K

namespace Polygon

variable {K : Type} [Zero K] [One K] [Add K] [Sub K] [Mul K] [Div K] [LT K] [DecidableEq K]
  [∀ a b : K, Decidable (a < b)]

/-- Constructor `Polygon(points)`: an error for fewer than three points. -/
def construct (points : List (Coord K)) : Except String (Polygon K) :=
  if points.length < 3 then
    Except.error "A Euclidean polygon has at least three points"
  else Except.ok { points := points }

/-- Element `points[i]`; the index is in range wherever the code reads it on a polygon
made by the constructor. -/
def point (p : Polygon K) (i : Nat) : Coord K := p.points.getD i Coord.zero

/-- Function `getNormalUnitVector`; `none` when `vectorC.length()` is zero. -/
def getNormalUnitVector (sqrt : K → K) (p : Polygon K) : Option (Coord K) :=
  let point1 := p.point 0
  let point2 := p.point 1
  let point3 := p.point 2
  let vectorA := point2.sub point1
  let vectorB := point3.sub point1
  let vectorC : Coord K :=
    ⟨vectorA.y * vectorB.z - vectorA.z * vectorB.y,
     vectorA.z * vectorB.x - vectorA.x * vectorB.z,
     vectorA.x * vectorB.y - vectorA.y * vectorB.x⟩
  if vectorC.length sqrt = 0 then none else some (vectorC.divide (vectorC.length sqrt))

/-- Function `getEdgeOutwardNormalVector`. -/
def getEdgeOutwardNormalVector (sqrt : K → K) (p : Polygon K) (edgeP1 edgeP2 : Coord K) :
    Option (Coord K) :=
  match p.getNormalUnitVector sqrt with
  | none => none
  | some polygonNormal =>
    let vectorA := edgeP1.sub polygonNormal
    let vectorB := edgeP2.sub polygonNormal
    let vectorC : Coord K :=
      ⟨vectorA.y * vectorB.z - vectorA.z * vectorB.y,
       vectorA.z * vectorB.x - vectorA.x * vectorB.z,
       vectorA.x * vectorB.y - vectorA.y * vectorB.x⟩
    some (vectorC.sub (polygonNormal.scale (vectorC.dot polygonNormal)))

/-- The value `normalVec` of iteration `i` of the loop of `computeIntersection`. -/
def edgeNormal (sqrt : K → K) (p : Polygon K) (i : Nat) : Option (Coord K) :=
  p.getEdgeOutwardNormalVector sqrt (p.point i) (p.point ((i + 1) % p.points.length))

/-- One pass through the loop body of `computeIntersection` with `normalVec`, `N` and `D`
computed: the flag is false when the body executes `return false`. -/
def clipStep (normalVec : Coord K) (N D : K) (st : ClipState K) : Bool × ClipState K :=
  if D < 0 then
    let t := N / D
    if t > st.tE then
      if t > st.tL then (false, { st with tE := t, normal1 := normalVec })
      else (true, { st with tE := t, normal1 := normalVec })
    else (true, st)
  else if D > 0 then
    let t := N / D
    if t < st.tL then
      if t < st.tE then (false, { st with tL := t, normal2 := normalVec })
      else (true, { st with tL := t, normal2 := normalVec })
    else (true, st)
  else
    if N < 0 then (false, st) else (true, st)

/-- Iteration `i` of the loop of `computeIntersection`; when `normalVec` is not a real
vector no comparison of the body holds and the iteration changes nothing. -/
def clipEdge (sqrt : K → K) (p : Polygon K) (p0 segmentDirection : Coord K) (i : Nat)
    (st : ClipState K) : Bool × ClipState K :=
  match p.edgeNormal sqrt i with
  | none => (true, st)
  | some normalVec =>
    clipStep normalVec (normalVec.dot ((p.point i).sub p0)) (normalVec.dot segmentDirection) st

/-- The loop of `computeIntersection` from index `i` on, for `count` more iterations. -/
def clipLoop (sqrt : K → K) (p : Polygon K) (p0 segmentDirection : Coord K) :
    Nat → Nat → ClipState K → Bool × ClipState K
  | 0, _, st => (true, st)
  | count + 1, i, st =>
    match clipEdge sqrt p p0 segmentDirection i st with
    | (false, st1) => (false, st1)
    | (true, st1) => clipLoop sqrt p p0 segmentDirection count (i + 1) st1

/-- The whole loop of `computeIntersection`, started with `tE = 0`, `tL = 1` and the
values the caller's `normal1` and `normal2` hold. -/
def clip (sqrt : K → K) (p : Polygon K) (lineSegment : LineSegment K)
    (normal1 normal2 : Coord K) : Bool × ClipState K :=
  clipLoop sqrt p lineSegment.point1 (lineSegment.point2.sub lineSegment.point1)
    p.points.length 0 { tE := 0, tL := 1, normal1 := normal1, normal2 := normal2 }

/-- Function `computeIntersection`; the last four arguments are the values the reference
arguments hold before the call. -/
def computeIntersection (sqrt : K → K) (p : Polygon K) (lineSegment : LineSegment K)
    (intersection1 intersection2 normal1 normal2 : Coord K) : Intersection K :=
  let p0 := lineSegment.point1
  let p1 := lineSegment.point2
  let segmentDirection := p1.sub p0
  match p.clip sqrt lineSegment normal1 normal2 with
  | (false, st) =>
    { result := false, intersection1 := intersection1, intersection2 := intersection2,
      normal1 := st.normal1, normal2 := st.normal2 }
  | (true, st) =>
    { result := true,
      intersection1 := p0.add (segmentDirection.scale st.tE),
      intersection2 := p0.add (segmentDirection.scale st.tL),
      normal1 := if st.tE = 0 then Coord.zero else st.normal1,
      normal2 := if st.tL = 1 then Coord.zero else st.normal2 }

end Polygon

/-! ### Notions used to state the properties of the geometry functions -/

namespace Coord

variable {K : Type} [Add K] [Sub K] [Mul K]

/-- Modelled from the spec: the cross product of two vectors. -/
def cross (a b : Coord K) : Coord K :=
  ⟨a.y * b.z - a.z * b.y, a.z * b.x - a.x * b.z, a.x * b.y - a.y * b.x⟩

/-- Projection of `v` onto the plane with unit normal `n`: `v - (v*n)*n`. -/
def projectOntoPlane (v n : Coord K) : Coord K := v.sub (n.scale (v.dot n))

end Coord

namespace Polygon

variable {K : Type} [LinearOrderedField K]

/-- Edge `i` is an entering edge with normal `nv` and parameter `t`: `D < 0` and `N / D = t`. -/
def IsEntering (sqrt : K → K) (p : Polygon K) (p0 d : Coord K) (i : Nat) (t : K)
    (nv : Coord K) : Prop :=
  p.edgeNormal sqrt i = some nv ∧ nv.dot d < 0 ∧ nv.dot ((p.point i).sub p0) / nv.dot d = t

/-- Edge `i` is a leaving edge with normal `nv` and parameter `t`: `D > 0` and `N / D = t`. -/
def IsLeaving (sqrt : K → K) (p : Polygon K) (p0 d : Coord K) (i : Nat) (t : K)
    (nv : Coord K) : Prop :=
  p.edgeNormal sqrt i = some nv ∧ 0 < nv.dot d ∧ nv.dot ((p.point i).sub p0) / nv.dot d = t

/-- What holds of the loop variables of `computeIntersection` before iteration `i`. -/
def ClipInv (sqrt : K → K) (p : Polygon K) (p0 d : Coord K) (i : Nat) (st : ClipState K) :
    Prop :=
  0 ≤ st.tE ∧ st.tE ≤ st.tL ∧ st.tL ≤ 1 ∧
  (st.tE ≠ 0 → ∃ j, j < i ∧ p.IsEntering sqrt p0 d j st.tE st.normal1 ∧
    ∀ j0, j0 < j → ∀ nv, ¬ p.IsEntering sqrt p0 d j0 st.tE nv) ∧
  (∀ j, j < i → ∀ t nv, p.IsEntering sqrt p0 d j t nv → t ≤ st.tE) ∧
  (st.tL ≠ 1 → ∃ j, j < i ∧ p.IsLeaving sqrt p0 d j st.tL st.normal2 ∧
    ∀ j0, j0 < j → ∀ nv, ¬ p.IsLeaving sqrt p0 d j0 st.tL nv) ∧
  (∀ j, j < i → ∀ t nv, p.IsLeaving sqrt p0 d j t nv → st.tL ≤ t) ∧
  (∀ j, j < i → ∀ nv, p.edgeNormal sqrt j = some nv → nv.dot d = 0 →
    0 ≤ nv.dot ((p.point j).sub p0))

/-- The point `x` is in the half-space of every edge: `N_i . (x - points[i]) <= 0` for the
edge normal `N_i` of every edge `i`. -/
def InHalfSpaces (sqrt : K → K) (p : Polygon K) (x : Coord K) : Prop :=
  ∀ i, i < p.points.length → ∀ nv, p.edgeNormal sqrt i = some nv →
    nv.dot (x.sub (p.point i)) ≤ 0

/-- The square `[(0,0,0),(4,0,0),(4,4,0),(0,4,0)]` in the plane `z = 0`. -/
def square : Polygon K :=
  { points := [⟨0, 0, 0⟩, ⟨4, 0, 0⟩, ⟨4, 4, 0⟩, ⟨0, 4, 0⟩] }

/-- The square `[(0,0,1),(4,0,1),(4,4,1),(0,4,1)]` in the plane `z = 1`. -/
def raisedSquare : Polygon K :=
  { points := [⟨0, 0, 1⟩, ⟨4, 0, 1⟩, ⟨4, 4, 1⟩, ⟨0, 4, 1⟩] }

end Polygon

/-- The segment from `(5,1,0)` to `(6,3,0)`, outside the square beyond its edge `x = 4`. -/
def LineSegment.outside {K : Type} [LinearOrderedField K] : LineSegment K :=
  { point1 := ⟨5, 1, 0⟩, point2 := ⟨6, 3, 0⟩ }

/-- The segment from `(2,2,0)` to `(6,2,0)`. -/
def LineSegment.crossing {K : Type} [LinearOrderedField K] : LineSegment K :=
  { point1 := ⟨2, 2, 0⟩, point2 := ⟨6, 2, 0⟩ }

/-! ## Materials (`src/environment/Material.cc`)

As in the geometry, `double` is an ordered field `K` and a `double` that is not a real
number (the `sNaN` of the catalog, the root of a negative number, a quotient by zero) is
`none`. Units (`Ohmm`, `mps`) are not tracked. -/

/-- Modelled from the spec: the constant `SPEED_OF_LIGHT` of `INETMath.h` (not among the
sources), 299 792 458 m/s. -/
def SPEED_OF_LIGHT {K : Type} [LinearOrderedField K] : K := 299792458

/-- The class `Material`: its name and its three fields. -/
structure Material (K : Type) where
  name : String
  resistivity : Option K
  relativePermittivity : Option K
  relativePermeability : Option K

namespace Material

variable {K : Type} [LinearOrderedField K]

/-- Constant `Material::vacuum`. -/
def vacuum : Material K := ⟨"vacuum", none, some 1, some 1⟩

/-- Constant `Material::air`. -/
def air : Material K := ⟨"air", none, some 1.00058986, some 1.00000037⟩

/-- Constant `Material::copper`. -/
def copper : Material K := ⟨"copper", some 1.68, none, none⟩

/-- Constant `Material::aluminium`. -/
def aluminium : Material K := ⟨"aluminium", some 2.65, none, none⟩

/-- Constant `Material::wood`. -/
def wood : Material K := ⟨"wood", some 1E+15, some 5, some 1.00000043⟩

/-- Constant `Material::brick`. -/
def brick : Material K := ⟨"brick", some 3E+3, some 4.5, some 1⟩

/-- Constant `Material::concrete`. -/
def concrete : Material K := ⟨"concrete", some 1E+2, some 4.5, some 1⟩

/-- Constant `Material::glass`. -/
def glass : Material K := ⟨"glass", some 1E+12, some 7, some 1⟩

/-- Function `getRefractiveIndex`. -/
def getRefractiveIndex (sqrt : K → K) (m : Material K) : Option K :=
  match m.relativePermittivity, m.relativePermeability with
  | some e, some u => if e * u < 0 then none else some (sqrt (e * u))
  | _, _ => none

/-- Function `getPropagationSpeed`. -/
def getPropagationSpeed (sqrt : K → K) (m : Material K) : Option K :=
  match m.getRefractiveIndex sqrt with
  | none => none
  | some n => if n = 0 then none else some (SPEED_OF_LIGHT / n)

end Material

namespace Material

variable {K : Type} [LinearOrderedField K]

/-- Function `getDielectricLossTangent`. The constants `M_PI` and `e0` (the permittivity
of vacuum, from `Units.h`) are not among the sources and are the arguments `pi` and `e0`. -/
def getDielectricLossTangent (pi e0 : K) (m : Material K) (frequency : K) : Option K :=
  match m.resistivity, m.relativePermittivity with
  | some resistivity, some relativePermittivity =>
    if 2 * pi * frequency * resistivity * relativePermittivity * e0 = 0 then none
    else some (1 / (2 * pi * frequency * resistivity * relativePermittivity * e0))
  | _, _ => none

end Material

/-! ## Radio medium (`src/physicallayer/common/RadioMedium.h`)

The header declares the state of the medium and its functions; the bodies of
`isInterferingTransmission` and `removeNonInterferingTransmissions` are not among the
sources and are modelled from the specification. Times are clock ticks, as for the MAC
address table. -/

/-- Modelled from the spec: a transmission `ITransmission` (its interface is not among the
sources), reduced to its id and the start and end of the interval it occupies. -/
structure Transmission where
  id : Int
  startTime : Int
  endTime : Int
  deriving DecidableEq, Repr

/-- Modelled from the spec: the time window of a listening `IListening`. -/
structure Listening where
  startTime : Int
  endTime : Int
  deriving DecidableEq, Repr

/-- Modelled from the spec: a reception `IReception`, the time window in which the
receiver gets the transmission it belongs to. -/
structure Reception where
  transmission : Transmission
  startTime : Int
  endTime : Int
  deriving DecidableEq, Repr

/-- The class `ReceptionCacheEntry`: each slot is the id of a cached object or `none`
for `NULL`. -/
structure ReceptionCacheEntry where
  frame : Option Nat
  arrival : Option Nat
  listening : Option Nat
  reception : Option Nat
  interference : Option Nat
  synchronizationDecision : Option Nat
  receptionDecision : Option Nat
  deriving DecidableEq, Repr

/-- The class `TransmissionCacheEntry`: one row of the cache. -/
structure TransmissionCacheEntry where
  interferenceEndTime : Int
  frame : Option Nat
  receptionCacheEntries : List ReceptionCacheEntry
  deriving DecidableEq, Repr

/-- The members of `RadioMedium` the two functions read and write. -/
structure RadioMedium where
  minInterferenceTime : Int
  maxInterferenceWindow : Int
  transmissions : List Transmission
  baseTransmissionId : Int
  cache : List TransmissionCacheEntry
  deriving DecidableEq, Repr

namespace RadioMedium

/-- Modelled from the spec: `isInterferingTransmission(transmission, listening)`, whose body
is not among the sources: the overlap of the transmission, extended by
`minInterferenceTime`, with the window is at least `minInterferenceTime`. -/
def isInterferingTransmissionListening (m : RadioMedium) (transmission : Transmission)
    (listening : Listening) : Bool :=
  decide (m.minInterferenceTime ≤
    min (transmission.endTime + m.minInterferenceTime) listening.endTime -
      max transmission.startTime listening.startTime)

/-- Modelled from the spec: `isInterferingTransmission(transmission, reception)`, whose body
is not among the sources: as for a listening, and the transmission is not the one the
reception belongs to. -/
def isInterferingTransmissionReception (m : RadioMedium) (transmission : Transmission)
    (reception : Reception) : Bool :=
  decide (m.minInterferenceTime ≤
    min (transmission.endTime + m.minInterferenceTime) reception.endTime -
      max transmission.startTime reception.startTime) &&
  decide (transmission ≠ reception.transmission)

/-- Modelled from the spec: the search of `removeNonInterferingTransmissions` (body not
among the sources) for the prefix to drop: the number of leading transmissions with
`endTime + maxInterferenceWindow <= now`. -/
def countNonInterfering (maxInterferenceWindow now : Int) : List Transmission → Nat
  | [] => 0
  | t :: rest =>
    if t.endTime + maxInterferenceWindow ≤ now then
      countNonInterfering maxInterferenceWindow now rest + 1
    else 0

/-- Modelled from the spec: `removeNonInterferingTransmissions` at time `now` (body not
among the sources): the prefix found is dropped from `transmissions`, its cache rows are
freed and `baseTransmissionId` is advanced past it. -/
def removeNonInterferingTransmissions (m : RadioMedium) (now : Int) : RadioMedium :=
  { m with
    transmissions :=
      m.transmissions.drop (countNonInterfering m.maxInterferenceWindow now m.transmissions)
    cache := m.cache.drop (countNonInterfering m.maxInterferenceWindow now m.transmissions)
    baseTransmissionId :=
      m.baseTransmissionId + countNonInterfering m.maxInterferenceWindow now m.transmissions }

/-- The eviction scenario (ticks of 0.1 s): transmissions 7 over `[0,1]` and 8 over `[2,3]`,
`maxInterferenceWindow` = 0.5 s, two cache rows, `baseTransmissionId` = 7. -/
def evictionScenario : RadioMedium :=
  { minInterferenceTime := 0
    maxInterferenceWindow := 5
    transmissions := [⟨7, 0, 10⟩, ⟨8, 20, 30⟩]
    baseTransmissionId := 7
    cache := [⟨15, some 1, []⟩, ⟨35, some 2, []⟩] }

end RadioMedium

/-! ## Convolutional coder (`src/physicallayer/common/ConvolutionalCoder.h`)

The header declares the parameters of the coder and the functions `encode` and `decode`;
their bodies are not among the sources and are modelled from the specification. A bit is
a `Bool`; `BitVector` and `ShortBitVector` are lists of bits; an input symbol is the list
of its `k` bits and an output symbol the list of its `n` bits; a state is the number whose
binary digits are the contents of the shift registers. -/

/-- The class `BitVector` (its header is not among the sources): a sequence of bits. -/
abbrev BitVector := List Bool

/-- The class `ShortBitVector` (its header is not among the sources): a short sequence of
bits. -/
abbrev ShortBitVector := List Bool

/-- The parameters of the class `ConvolutionalCoder`, under the names of its members. -/
structure ConvolutionalCoder where
  codeRateParamaterK : Nat
  codeRateParamaterN : Nat
  codeRatePuncturingK : Nat
  codeRatePuncturingN : Nat
  constraintLengths : List Nat
  transferFunctionMatrix : List (List ShortBitVector)
  puncturingMatrix : List BitVector

/-- The trellis tables of a coder, computed once from its parameters. -/
structure Trellis where
  numberOfStates : Nat
  decimalToInputSymbol : List ShortBitVector
  stateTransitions : Nat → ShortBitVector → Nat
  outputSymbols : Nat → ShortBitVector → ShortBitVector

/-- The class `TrellisGraphNode` as the specification describes a cell of `bestPaths`: the
input symbol emitted on the best branch into the state, the state that branch comes from,
and the cumulative Hamming distance. -/
structure TrellisGraphNode where
  symbol : ShortBitVector
  prevState : Nat
  comulativeHammingDistance : Nat
  deriving DecidableEq, Repr

namespace ConvolutionalCoder

/-- Modelled from the spec: the `width` low binary digits of `value`, lowest first. -/
def toBits : Nat → Nat → List Bool
  | 0, _ => []
  | width + 1, value => decide (value % 2 = 1) :: toBits width (value / 2)

/-- Modelled from the spec: the number with the given binary digits, lowest first. -/
def ofBits : List Bool → Nat
  | [] => 0
  | b :: rest => (if b then 1 else 0) + 2 * ofBits rest

/-- Modelled from the spec: the value of a number whose decimal digits are read as octal
digits (`133` is 91); `fuel` bounds the number of digits. -/
def octalValue : Nat → Nat → Nat
  | 0, _ => 0
  | fuel + 1, octalNum => if octalNum = 0 then 0 else octalNum % 10 + 8 * octalValue fuel (octalNum / 10)

/-- Modelled from the spec: `octalToBinary(octalNum, fixedSize)` (body not among the
sources), the generator polynomial as `fixedSize` bits, highest first. -/
def octalToBinary (octalNum fixedSize : Nat) : ShortBitVector :=
  (toBits fixedSize (octalValue 11 octalNum)).reverse

/-- Modelled from the spec: the member `memorySizes`, `constraintLengths[i] - 1`. -/
def memorySizes (c : ConvolutionalCoder) : List Nat := c.constraintLengths.map (fun l => l - 1)

/-- Modelled from the spec: the member `memorySizeSum`. -/
def memorySizeSum (c : ConvolutionalCoder) : Nat := c.memorySizes.sum

/-- Modelled from the spec: the member `numberOfStates`, 2 to the `memorySizeSum`. -/
def numberOfStates (c : ConvolutionalCoder) : Nat := 2 ^ c.memorySizeSum

/-- Modelled from the spec: the member `numberOfInputSymbols`, 2 to the `k`. -/
def numberOfInputSymbols (c : ConvolutionalCoder) : Nat := 2 ^ c.codeRateParamaterK

/-- Modelled from the spec: the contents of the shift registers of a state, one list of
`memorySizes[i]` bits for each input stream, newest bit first. -/
def registers : List Nat → List Bool → List (List Bool)
  | [], _ => []
  | m :: rest, bits => bits.take m :: registers rest (bits.drop m)

/-- Modelled from the spec: exclusive or of all bits of a list. -/
def xorReduce : List Bool → Bool
  | [] => false
  | b :: rest => xor b (xorReduce rest)

/-- Modelled from the spec: `modulo2Adder` (body not among the sources), the
XOR-reduction of the bitwise AND of the shift register with a generator polynomial. -/
def modulo2Adder (shiftRegisters generatorPolynomial : ShortBitVector) : Bool :=
  xorReduce (List.zipWith and shiftRegisters generatorPolynomial)

/-- Modelled from the spec: the next state, each input bit shifted into its register. -/
def nextState (c : ConvolutionalCoder) (state : Nat) (inputSymbol : ShortBitVector) : Nat :=
  ofBits (List.zipWith (fun u reg => (u :: reg).take reg.length) inputSymbol
    (registers c.memorySizes (toBits c.memorySizeSum state))).flatten

/-- Modelled from the spec: `inputSymbolToOutputSymbol` (body not among the sources):
output bit `j` is the exclusive or, over the input streams `i`, of the `modulo2Adder` of
the input bit followed by register `i` with the polynomial `T[i][j]`. -/
def inputSymbolToOutputSymbol (c : ConvolutionalCoder) (state : Nat)
    (inputSymbol : ShortBitVector) : ShortBitVector :=
  (List.range c.codeRateParamaterN).map (fun j =>
    xorReduce (List.zipWith (fun ur row => modulo2Adder ur (row.getD j []))
      (List.zipWith (fun u reg => u :: reg) inputSymbol
        (registers c.memorySizes (toBits c.memorySizeSum state)))
      c.transferFunctionMatrix))

/-- Modelled from the spec: the trellis tables computed at initialization. -/
def trellis (c : ConvolutionalCoder) : Trellis :=
  { numberOfStates := c.numberOfStates
    decimalToInputSymbol :=
      (List.range c.numberOfInputSymbols).map (toBits c.codeRateParamaterK)
    stateTransitions := c.nextState
    outputSymbols := c.inputSymbolToOutputSymbol }

/-- Modelled from the spec: a bit stream cut into symbols of `size` bits; bits left over
at the end that do not fill a symbol are not used. -/
def splitSymbols (size : Nat) : Nat → List Bool → List (List Bool)
  | 0, _ => []
  | fuel + 1, bits =>
    if size = 0 ∨ bits.length < size then []
    else bits.take size :: splitSymbols size fuel (bits.drop size)

/-- Modelled from the spec: the encoder loop, the output symbols of the input symbols fed
from a state on. -/
def encodeSymbols (t : Trellis) : Nat → List ShortBitVector → List ShortBitVector
  | _, [] => []
  | state, u :: rest =>
    t.outputSymbols state u :: encodeSymbols t (t.stateTransitions state u) rest

/-- Modelled from the spec: position `j` of the encoder output is kept by the puncturing
matrix: `P[j mod n][(j / n) mod period]` is not 0. -/
def isKept (c : ConvolutionalCoder) (j : Nat) : Bool :=
  (c.puncturingMatrix.getD (j % c.codeRateParamaterN) []).getD
    ((j / c.codeRateParamaterN) % (c.puncturingMatrix.getD (j % c.codeRateParamaterN) []).length)
    true

/-- Modelled from the spec: the walk of `puncturing` from position `j` on. -/
def puncturingFrom (c : ConvolutionalCoder) : Nat → List Bool → List Bool
  | _, [] => []
  | j, b :: rest =>
    if c.isKept j then b :: puncturingFrom c (j + 1) rest else puncturingFrom c (j + 1) rest

/-- Modelled from the spec: `puncturing` (body not among the sources). -/
def puncturing (c : ConvolutionalCoder) (informationBits : BitVector) : BitVector :=
  c.puncturingFrom 0 informationBits

/-- Modelled from the spec: the walk of `depuncturing` from position `j` on: a kept
position takes the next received bit, a punctured one gets a placeholder and is marked in
the mask; the walk ends when a kept position finds no bit left. -/
def depuncturingFrom (c : ConvolutionalCoder) : Nat → Nat → List Bool → List Bool × List Bool
  | 0, _, _ => ([], [])
  | fuel + 1, j, bits =>
    if c.isKept j then
      match bits with
      | [] => ([], [])
      | b :: rest =>
        (b :: (depuncturingFrom c fuel (j + 1) rest).1,
          false :: (depuncturingFrom c fuel (j + 1) rest).2)
    else
      (false :: (depuncturingFrom c fuel (j + 1) bits).1,
        true :: (depuncturingFrom c fuel (j + 1) bits).2)

/-- Modelled from the spec: `depuncturing` (body not among the sources): the stream with
placeholders and the mask `isPunctured`. -/
def depuncturing (c : ConvolutionalCoder) (decodedBits : BitVector) : BitVector × BitVector :=
  c.depuncturingFrom
    ((decodedBits.length + 1) * (c.codeRateParamaterN + 1) *
      ((c.puncturingMatrix.map List.length).sum + 1))
    0 decodedBits

/-- Modelled from the spec: `encode` (body not among the sources). -/
def encode (c : ConvolutionalCoder) (informationBits : BitVector) (endInAllZeros : Bool) :
    BitVector :=
  c.puncturing
    (encodeSymbols c.trellis 0
      (splitSymbols c.codeRateParamaterK
        (informationBits ++
          if endInAllZeros then List.replicate c.memorySizeSum false else []).length
        (informationBits ++
          if endInAllZeros then List.replicate c.memorySizeSum false else []))).flatten

/-- Modelled from the spec: `computeHammingDistance` (body not among the sources): the
number of positions, not excluded, where `u` and `w` differ. -/
def computeHammingDistance : List Bool → List Bool → List Bool → Nat
  | u :: us, e :: es, w :: ws =>
    (if e = false ∧ u ≠ w then 1 else 0) + computeHammingDistance us es ws
  | _, _, _ => 0

/-- Modelled from the spec: the update of `bestPaths` for one state `s` and one input
symbol `u`: the branch replaces the cell of its target state when that cell is empty or
holds a larger cumulative distance. -/
def relax (t : Trellis) (prev : List (Option TrellisGraphNode))
    (outputSymbol excludedFromHammingDistance : ShortBitVector)
    (col : List (Option TrellisGraphNode)) (su : Nat × ShortBitVector) :
    List (Option TrellisGraphNode) :=
  match prev.getD su.1 none with
  | none => col
  | some pn =>
    match col.getD (t.stateTransitions su.1 su.2) none with
    | none =>
      col.set (t.stateTransitions su.1 su.2)
        (some ⟨su.2, su.1, pn.comulativeHammingDistance +
          computeHammingDistance outputSymbol excludedFromHammingDistance
            (t.outputSymbols su.1 su.2)⟩)
    | some old =>
      if pn.comulativeHammingDistance +
          computeHammingDistance outputSymbol excludedFromHammingDistance
            (t.outputSymbols su.1 su.2) < old.comulativeHammingDistance then
        col.set (t.stateTransitions su.1 su.2)
          (some ⟨su.2, su.1, pn.comulativeHammingDistance +
            computeHammingDistance outputSymbol excludedFromHammingDistance
              (t.outputSymbols su.1 su.2)⟩)
      else col

/-- Modelled from the spec: the pairs (state, input symbol) in the order the decoder
visits them: states ascending, and for each state the input symbols ascending. -/
def branches (t : Trellis) : List (Nat × ShortBitVector) :=
  ((List.range t.numberOfStates).map
    (fun s => t.decimalToInputSymbol.map (fun u => (s, u)))).flatten

/-- Modelled from the spec: `computeBestPath` (body not among the sources): the column of
`bestPaths` at the next depth, from the column `prev` and the observed output symbol. -/
def computeBestPath (t : Trellis) (prev : List (Option TrellisGraphNode))
    (outputSymbol excludedFromHammingDistance : ShortBitVector) :
    List (Option TrellisGraphNode) :=
  (branches t).foldl (relax t prev outputSymbol excludedFromHammingDistance)
    (List.replicate t.numberOfStates none)

/-- Modelled from the spec: the column of depth 0: only the all-zeros state is reached. -/
def initialColumn (t : Trellis) : List (Option TrellisGraphNode) :=
  (List.replicate t.numberOfStates none).set 0 (some ⟨[], 0, 0⟩)

/-- Modelled from the spec: the columns of `bestPaths` of depth 1, 2, ... for the observed
symbols, each paired with its mask. -/
def computeBestPaths (t : Trellis) :
    List (Option TrellisGraphNode) → List (ShortBitVector × ShortBitVector) →
      List (List (Option TrellisGraphNode))
  | _, [] => []
  | col, o :: rest =>
    computeBestPath t col o.1 o.2 :: computeBestPaths t (computeBestPath t col o.1 o.2) rest

/-- Modelled from the spec: `traversePath` (body not among the sources): the traceback
from a state through the columns, deepest first; the input symbols met, last first, and
the state the path starts in; `none` when a cell on the way is empty. -/
def traversePath : List (List (Option TrellisGraphNode)) → Nat →
    Option (List ShortBitVector × Nat)
  | [], state => some ([], state)
  | col :: rest, state =>
    match col.getD state none with
    | none => none
    | some node =>
      match traversePath rest node.prevState with
      | none => none
      | some r => some (node.symbol :: r.1, r.2)

/-- Modelled from the spec: the state of a column with the least cumulative distance, the
lowest-numbered one among equals, searched from state `s` on. -/
def bestState : List (Option TrellisGraphNode) → Nat → Option (Nat × Nat)
  | [], _ => none
  | cell :: rest, s =>
    match cell, bestState rest (s + 1) with
    | none, r => r
    | some node, none => some (s, node.comulativeHammingDistance)
    | some node, some r =>
      if r.2 < node.comulativeHammingDistance then some r
      else some (s, node.comulativeHammingDistance)

/-- Modelled from the spec: `decode` (body not among the sources). -/
def decode (c : ConvolutionalCoder) (encodedBits : BitVector) (decodingMode : String) :
    Except String BitVector :=
  if c.codeRateParamaterN = 0 ∨
      (c.depuncturing encodedBits).1.length % c.codeRateParamaterN ≠ 0 then
    Except.error "invalid input length"
  else
    let paths := computeBestPaths c.trellis (initialColumn c.trellis)
      (List.zip
        (splitSymbols c.codeRateParamaterN (c.depuncturing encodedBits).1.length
          (c.depuncturing encodedBits).1)
        (splitSymbols c.codeRateParamaterN (c.depuncturing encodedBits).2.length
          (c.depuncturing encodedBits).2))
    if decodingMode = "terminated" then
      match traversePath paths.reverse 0 with
      | none => Except.error "no path ends in the all-zeros state"
      | some r =>
        Except.ok (r.1.reverse.flatten.take (r.1.reverse.flatten.length - c.memorySizeSum))
    else if decodingMode = "truncated" then
      match bestState (paths.getLastD (initialColumn c.trellis)) 0 with
      | none => Except.error "no path"
      | some b =>
        match traversePath paths.reverse b.1 with
        | none => Except.error "no path"
        | some r => Except.ok r.1.reverse.flatten
    else Except.error "unknown decoding mode"

/-- A coder whose generator polynomials are both zero: `k = 1`, `n = 2`, constraint
length 2. -/
def zeroCode : ConvolutionalCoder :=
  { codeRateParamaterK := 1
    codeRateParamaterN := 2
    codeRatePuncturingK := 1
    codeRatePuncturingN := 2
    constraintLengths := [2]
    transferFunctionMatrix := [[octalToBinary 0 2, octalToBinary 0 2]]
    puncturingMatrix := [[true], [true]] }

end ConvolutionalCoder

namespace Trellis

end Trellis

/-! ### The size of a polygon (`Polygon::computeSize`) -/

namespace Polygon

variable {K : Type} [LinearOrderedField K]

/-- The loop of `computeSize`: the values of `min` and `max` after the points of the list,
from the values they hold before. -/
def computeSizeLoop (min max : Coord K) : List (Coord K) → Coord K × Coord K
  | [] => (min, max)
  | it :: rest => computeSizeLoop (min.min it) (max.max it) rest

/-- Function `computeSize`; `min` and `max` start as the default `Coord()`, the zero
vector. -/
def computeSize (p : Polygon K) : Coord K :=
  (computeSizeLoop Coord.zero Coord.zero p.points).2.sub
    (computeSizeLoop Coord.zero Coord.zero p.points).1

/-- The three coordinates of a vector. -/
def coordinates : List (Coord K → K) := [Coord.x, Coord.y, Coord.z]

/-- The number `lo` is the least value of the coordinate `c` among the points `pts`. -/
def IsLeastOf (c : Coord K → K) (pts : List (Coord K)) (lo : K) : Prop :=
  (∃ q ∈ pts, c q = lo) ∧ ∀ q ∈ pts, lo ≤ c q

/-- The number `hi` is the greatest value of the coordinate `c` among the points `pts`. -/
def IsGreatestOf (c : Coord K → K) (pts : List (Coord K)) (hi : K) : Prop :=
  (∃ q ∈ pts, c q = hi) ∧ ∀ q ∈ pts, c q ≤ hi

/-- The square `[(10,0,0),(14,0,0),(14,4,0),(10,4,0)]`, with `x` between 10 and 14. -/
def shiftedSquare : Polygon K :=
  { points := [⟨10, 0, 0⟩, ⟨14, 0, 0⟩, ⟨14, 4, 0⟩, ⟨10, 4, 0⟩] }

end Polygon

/-- The segment from `(100,100,100)` to `(200,300,400)`, far from both squares. -/
def LineSegment.far {K : Type} [LinearOrderedField K] : LineSegment K :=
  { point1 := ⟨100, 100, 100⟩, point2 := ⟨200, 300, 400⟩ }

/-! ## The type `double` as IEEE 754 binary64

The geometry functions compute with `double`. The definitions of the geometry are written
over any type `K` with the arithmetic operations, so that they can be read over an ordered
field (exact arithmetic) and over `Binary64`, the values of a `double` with the rounding of
IEEE 754: every operation returns the binary64 value nearest to its exact result, the one
with an even last digit at a tie. A finite value is held as the rational number it stands
for; the sign of zero is not told apart. At `Binary64` the branch `none` of
`getNormalUnitVector` stands for the quotient by a length that is zero, a vector of NaN
when the cross product is zero. -/

/-- The values of a `double`: a finite number, an infinity with its sign, or NaN. -/
inductive Binary64 where
  | finite (value : ℚ)
  | infinity (negative : Bool)
  | nan
  deriving DecidableEq

namespace Binary64

/-- The integer nearest to `n / d`; the even one when two are equally near. -/
def roundHalfEven (n d : Nat) : Nat :=
  if 2 * (n % d) < d then n / d
  else if d < 2 * (n % d) then n / d + 1
  else if (n / d) % 2 = 0 then n / d
  else n / d + 1

/-- The number of halvings that bring `n` below 2, at most `fuel` of them. -/
def log2Loop : Nat → Nat → Nat
  | 0, _ => 0
  | fuel + 1, n => if n < 2 then 0 else log2Loop fuel (n / 2) + 1

/-- The exponent `e` with `2^e <= n < 2^(e+1)`, for positive `n`. -/
def log2 (n : Nat) : Nat := log2Loop n n

/-- The exponent `e` with `2^e <= n / d < 2^(e+1)`, for positive `n` and `d`. -/
def exponent (n d : Nat) : Int :=
  if d * 2 ^ (log2 n - log2 d) ≤ n * 2 ^ (log2 d - log2 n) then (log2 n : Int) - (log2 d : Int)
  else (log2 n : Int) - (log2 d : Int) - 1

/-- The number `m * 2^e` with the given sign. -/
def scaled (negative : Bool) (m : Nat) (e : Int) : ℚ :=
  mkRat ((if negative then -1 else 1) * ((m : Int) * 2 ^ e.toNat)) (2 ^ (-e).toNat)

/-- The binary64 value with significand `m` and the exponent `e` of its last place:
an infinity from `2^1024` on. -/
def pack (negative : Bool) (m : Nat) (e : Int) : Binary64 :=
  if 971 < e ∨ (e = 971 ∧ 2 ^ 53 ≤ m) then infinity negative
  else finite (scaled negative m e)

/-- Rounding of a rational number to binary64: to nearest, ties to even, with 53
significant bits, the last place never below `2^-1074` (gradual underflow), and overflow
to an infinity. -/
def round (q : ℚ) : Binary64 :=
  if q = 0 then finite 0
  else
    let e := max (exponent q.num.natAbs q.den) (-1022) - 52
    pack (decide (q < 0))
      (roundHalfEven (q.num.natAbs * 2 ^ (-e).toNat) (q.den * 2 ^ e.toNat)) e

/-- Bit `k` and the bits below it of the integer square root, from the bits above. -/
def sqrtLoop (n : Nat) : Nat → Nat → Nat
  | 0, r => r
  | k + 1, r => if (r + 2 ^ k) * (r + 2 ^ k) ≤ n then sqrtLoop n k (r + 2 ^ k) else sqrtLoop n k r

/-- The integer square root: the greatest `r` with `r * r <= n`. -/
def sqrtFloor (n : Nat) : Nat := sqrtLoop n (log2 n / 2 + 1) 0

/-- Rounding of the square root of a positive rational number to binary64, to nearest,
ties to even: with `e` the exponent of the last place of the root, the root of
`q / 4^e` is rounded to an integer. -/
def roundSqrt (q : ℚ) : Binary64 :=
  let e := Int.fdiv (exponent q.num.natAbs q.den) 2 - 52
  let n := q.num.natAbs * 4 ^ (-e).toNat
  let d := q.den * 4 ^ e.toNat
  let r := sqrtFloor (n / d)
  if 4 * n < (2 * r + 1) * (2 * r + 1) * d then pack false r e
  else if (2 * r + 1) * (2 * r + 1) * d < 4 * n then pack false (r + 1) e
  else if r % 2 = 0 then pack false r e
  else pack false (r + 1) e

/-- Negation `-a`. -/
def neg : Binary64 → Binary64
  | finite a => finite (-a)
  | infinity s => infinity (!s)
  | nan => nan

/-- Sum `a + b`. -/
def add : Binary64 → Binary64 → Binary64
  | finite a, finite b => round (a + b)
  | finite _, infinity s => infinity s
  | infinity s, finite _ => infinity s
  | infinity s, infinity t => if s = t then infinity s else nan
  | _, _ => nan

/-- Difference `a - b`. -/
def sub (a b : Binary64) : Binary64 := add a (neg b)

/-- Product `a * b`. -/
def mul : Binary64 → Binary64 → Binary64
  | finite a, finite b => round (a * b)
  | finite a, infinity s => if a = 0 then nan else infinity (xor s (decide (a < 0)))
  | infinity s, finite b => if b = 0 then nan else infinity (xor s (decide (b < 0)))
  | infinity s, infinity t => infinity (xor s t)
  | _, _ => nan

/-- Quotient `a / b`; a non-zero number divided by zero is the infinity with the sign of
the number, as for the zero `+0`. -/
def div : Binary64 → Binary64 → Binary64
  | finite a, finite b =>
    if b = 0 then (if a = 0 then nan else infinity (decide (a < 0))) else round (a / b)
  | finite _, infinity _ => finite 0
  | infinity s, finite b => infinity (xor s (decide (b < 0)))
  | _, _ => nan

/-- Function `std::sqrt`. -/
def sqrt : Binary64 → Binary64
  | finite a => if a = 0 then finite 0 else if a < 0 then nan else roundSqrt a
  | infinity s => if s then nan else infinity false
  | nan => nan

/-- Comparison `a < b`; false when either is NaN. -/
def lt : Binary64 → Binary64 → Bool
  | finite a, finite b => decide (a < b)
  | finite _, infinity s => !s
  | infinity s, finite _ => s
  | infinity s, infinity t => s && !t
  | _, _ => false

instance : Zero Binary64 := ⟨finite 0⟩

instance : One Binary64 := ⟨finite 1⟩

instance : Add Binary64 := ⟨add⟩

instance : Sub Binary64 := ⟨sub⟩

instance : Mul Binary64 := ⟨mul⟩

instance : Div Binary64 := ⟨div⟩

instance : LT Binary64 := ⟨fun a b => lt a b = true⟩

instance (a b : Binary64) : Decidable (a < b) := by
  show Decidable (lt a b = true)
  infer_instance

end Binary64

/-! ### Polygons and a segment with `double` coordinates -/

namespace Polygon

/-- The triangle `[(0,0,0),(1,0,0),(0,1,1)]` with `double` coordinates. -/
def tiltedTriangle : Polygon Binary64 :=
  { points := [⟨.finite 0, .finite 0, .finite 0⟩, ⟨.finite 1, .finite 0, .finite 0⟩,
      ⟨.finite 0, .finite 1, .finite 1⟩] }

/-- The triangle `[(0,0,0),(1e200,0,0),(1e200,1e200,0)]` with `double` coordinates; `1e200`
is the double nearest to `10^200`. -/
def hugeTriangle : Polygon Binary64 :=
  { points := [⟨.finite 0, .finite 0, .finite 0⟩,
      ⟨Binary64.round (10 ^ 200), .finite 0, .finite 0⟩,
      ⟨Binary64.round (10 ^ 200), Binary64.round (10 ^ 200), .finite 0⟩] }

/-- The triangle `[(-3,0,3),(-1,-1,3),(-3,3,0)]` with `double` coordinates, in the plane
`x + 2y + 2z = 3`. -/
def offsetTriangle : Polygon Binary64 :=
  { points := [⟨.finite (-3), .finite 0, .finite 3⟩, ⟨.finite (-1), .finite (-1), .finite 3⟩,
      ⟨.finite (-3), .finite 3, .finite 0⟩] }

end Polygon

/-- The segment from `(100,100,100)` to `(200,300,400)` with `double` coordinates. -/
def LineSegment.farBinary64 : LineSegment Binary64 :=
  { point1 := ⟨.finite 100, .finite 100, .finite 100⟩,
    point2 := ⟨.finite 200, .finite 300, .finite 400⟩ }

/-! ## Lemmas on ordered maps -/

theorem mapFind_mapAssign_self {β : Type} (k : Nat) (v : β) (m : List (Nat × β)) :
    mapFind k (mapAssign k v m) = some v := by
  induction m with
  | nil => simp [mapAssign, mapFind]
  | cons x rest ih =>
    obtain ⟨k', v'⟩ := x
    unfold mapAssign
    split_ifs with h1 h2
    · simp [mapFind]
    · simp [mapFind]
    · simp only [mapFind]
      rw [if_neg (fun h => h2 h.symm)]
      exact ih

theorem mapFind_mapAssign_ne {β : Type} (k k0 : Nat) (v : β) (m : List (Nat × β))
    (hne : k0 ≠ k) : mapFind k0 (mapAssign k v m) = mapFind k0 m := by
  induction m with
  | nil => simp [mapAssign, mapFind, hne.symm]
  | cons x rest ih =>
    obtain ⟨k', v'⟩ := x
    unfold mapAssign
    split_ifs with h1 h2
    · simp [mapFind, hne.symm]
    · subst h2
      simp [mapFind, hne.symm]
    · simp only [mapFind, ih]

theorem mapFind_mapModify_self {β : Type} (k : Nat) (f : β → β) (m : List (Nat × β)) :
    mapFind k (mapModify k f m) = (mapFind k m).map f := by
  induction m with
  | nil => simp [mapModify, mapFind]
  | cons x rest ih =>
    obtain ⟨k', v'⟩ := x
    by_cases h : k' = k
    · simp [mapModify, mapFind, h]
    · simp [mapModify, mapFind, h, ih]

theorem mapFind_mapModify_ne {β : Type} (k k0 : Nat) (f : β → β) (m : List (Nat × β))
    (hne : k0 ≠ k) : mapFind k0 (mapModify k f m) = mapFind k0 m := by
  induction m with
  | nil => simp [mapModify, mapFind]
  | cons x rest ih =>
    obtain ⟨k', v'⟩ := x
    by_cases h : k' = k
    · subst h
      simp [mapModify, mapFind, hne.symm]
    · simp [mapModify, mapFind, h, ih]

theorem mapFind_mapErase_ne {β : Type} (k k0 : Nat) (m : List (Nat × β))
    (hne : k0 ≠ k) : mapFind k0 (mapErase k m) = mapFind k0 m := by
  induction m with
  | nil => simp [mapErase, mapFind]
  | cons x rest ih =>
    obtain ⟨k', v'⟩ := x
    by_cases h : k' = k
    · subst h
      simp [mapErase, mapFind, hne.symm]
    · simp [mapErase, mapFind, h, ih]

theorem mapFind_eq_none_of_lt {β : Type} (k : Nat) (m : List (Nat × β))
    (h : ∀ x ∈ m, k < x.1) : mapFind k m = none := by
  induction m with
  | nil => rfl
  | cons x rest ih =>
    obtain ⟨k', v'⟩ := x
    have hk : k < k' := h (k', v') (List.mem_cons_self _ _)
    simp only [mapFind]
    rw [if_neg (by omega)]
    exact ih (fun y hy => h y (List.mem_cons_of_mem _ hy))

theorem mapFind_mapErase_self {β : Type} (k : Nat) (m : List (Nat × β))
    (hs : mapSorted m) : mapFind k (mapErase k m) = none := by
  induction m with
  | nil => rfl
  | cons x rest ih =>
    obtain ⟨k', v'⟩ := x
    have hs2 := List.pairwise_cons.mp hs
    by_cases h : k' = k
    · subst h
      simp only [mapErase, if_true]
      exact mapFind_eq_none_of_lt _ _ (fun y hy => hs2.1 y hy)
    · simp only [mapErase, if_neg h, mapFind]
      exact ih hs2.2

theorem mapFind_mem {β : Type} (k : Nat) (v : β) (m : List (Nat × β))
    (h : mapFind k m = some v) : (k, v) ∈ m := by
  induction m with
  | nil => simp [mapFind] at h
  | cons x rest ih =>
    obtain ⟨k', v'⟩ := x
    by_cases hk : k' = k
    · subst hk
      simp [mapFind] at h
      subst h
      exact List.mem_cons_self _ _
    · simp only [mapFind, if_neg hk] at h
      exact List.mem_cons_of_mem _ (ih h)

theorem mem_mapAssign {β : Type} (k : Nat) (v : β) (m : List (Nat × β)) (x : Nat × β)
    (h : x ∈ mapAssign k v m) : x = (k, v) ∨ x ∈ m := by
  induction m with
  | nil => simpa [mapAssign] using h
  | cons y rest ih =>
    obtain ⟨k', v'⟩ := y
    unfold mapAssign at h
    split_ifs at h with h1 h2
    · rcases List.mem_cons.mp h with h | h
      · exact Or.inl h
      · exact Or.inr h
    · rcases List.mem_cons.mp h with h | h
      · exact Or.inl h
      · exact Or.inr (List.mem_cons_of_mem _ h)
    · rcases List.mem_cons.mp h with h | h
      · exact Or.inr (h ▸ List.mem_cons_self _ _)
      · rcases ih h with h | h
        · exact Or.inl h
        · exact Or.inr (List.mem_cons_of_mem _ h)

theorem mem_mapModify {β : Type} (k : Nat) (f : β → β) (m : List (Nat × β)) (x : Nat × β)
    (h : x ∈ mapModify k f m) : x ∈ m ∨ ∃ v0, (k, v0) ∈ m ∧ x = (k, f v0) := by
  induction m with
  | nil => simp [mapModify] at h
  | cons y rest ih =>
    obtain ⟨k', v'⟩ := y
    by_cases hk : k' = k
    · subst hk
      simp only [mapModify, if_true] at h
      rcases List.mem_cons.mp h with h | h
      · exact Or.inr ⟨v', List.mem_cons_self _ _, h⟩
      · exact Or.inl (List.mem_cons_of_mem _ h)
    · simp only [mapModify, if_neg hk] at h
      rcases List.mem_cons.mp h with h | h
      · exact Or.inl (h ▸ List.mem_cons_self _ _)
      · rcases ih h with h | ⟨v0, hv0, hx⟩
        · exact Or.inl (List.mem_cons_of_mem _ h)
        · exact Or.inr ⟨v0, List.mem_cons_of_mem _ hv0, hx⟩

theorem mem_mapErase {β : Type} (k : Nat) (m : List (Nat × β)) (x : Nat × β)
    (h : x ∈ mapErase k m) : x ∈ m := by
  induction m with
  | nil => simp [mapErase] at h
  | cons y rest ih =>
    obtain ⟨k', v'⟩ := y
    by_cases hk : k' = k
    · simp only [mapErase, if_pos hk] at h
      exact List.mem_cons_of_mem _ h
    · simp only [mapErase, if_neg hk] at h
      rcases List.mem_cons.mp h with h | h
      · exact h ▸ List.mem_cons_self _ _
      · exact List.mem_cons_of_mem _ (ih h)

namespace MACAddressTable

theorem getTableForVid_eq (s : MACAddressTable) (vid : Nat) :
    s.getTableForVid vid = mapFind vid s.vlanAddressTable := by
  unfold getTableForVid addressTable
  split_ifs with h
  · rw [h]
  · rfl

/-! ## Lookup -/

/-- C1: `getPortForAddress(a, v)` returns the port stored in the entry of `a` when `v`
has a table, the table has an entry for `a` and `insertionTime + agingTime > now`; it
returns `-1` when `v` has no table, when the table has no entry for `a`, and when the
entry has `insertionTime + agingTime <= now`. -/
theorem getPortForAddress_result (s : MACAddressTable) (now : Int) (a : MACAddress) (v : Nat) :
    (∀ t e, s.getTableForVid v = some t → mapFind a t = some e →
        now < e.insertionTime + s.agingTime → (s.getPortForAddress now a v).1 = e.portno) ∧
    (s.getTableForVid v = none → (s.getPortForAddress now a v).1 = -1) ∧
    (∀ t, s.getTableForVid v = some t → mapFind a t = none →
        (s.getPortForAddress now a v).1 = -1) ∧
    (∀ t e, s.getTableForVid v = some t → mapFind a t = some e →
        e.insertionTime + s.agingTime ≤ now → (s.getPortForAddress now a v).1 = -1) := by
  refine ⟨?_, ?_, ?_, ?_⟩
  · intro t e ht he hlt
    simp only [getPortForAddress, ht, he]
    rw [if_neg (by omega)]
  · intro ht
    simp only [getPortForAddress, ht]
  · intro t ht he
    simp only [getPortForAddress, ht, he]
  · intro t e ht he hle
    simp only [getPortForAddress, ht, he]
    rw [if_pos hle]

/-! ## Broadcast addresses are never stored -/

theorem mem_flushTable (endPortno portno : Int) (t : AddressTable) (x : MACAddress × AddressEntry)
    (h : x ∈ flushTable endPortno portno t) : x ∈ t := by
  induction t with
  | nil => simp [flushTable] at h
  | cons cur rest ih =>
    cases rest with
    | nil =>
      unfold flushTable at h
      split_ifs at h
      · simp at h
      · exact h
    | cons nxt rest2 =>
      unfold flushTable at h
      split_ifs at h
      · exact List.mem_cons_of_mem _ (ih h)
      · rcases List.mem_cons.mp h with h | h
        · exact h ▸ List.mem_cons_self _ _
        · exact List.mem_cons_of_mem _ (ih h)

theorem mem_removeAgedLoop (agingTime now : Int) (t : AddressTable)
    (x : MACAddress × AddressEntry) :
    x ∈ removeAgedLoop agingTime now t ↔ x ∈ t ∧ now < x.2.insertionTime + agingTime := by
  induction t with
  | nil => simp [removeAgedLoop]
  | cons cur rest ih =>
    unfold removeAgedLoop
    split_ifs with hc
    · rw [ih, List.mem_cons]
      constructor
      · rintro ⟨h1, h2⟩
        exact ⟨Or.inr h1, h2⟩
      · rintro ⟨h1 | h1, h2⟩
        · subst h1
          omega
        · exact ⟨h1, h2⟩
    · rw [List.mem_cons, ih, List.mem_cons]
      constructor
      · rintro (h1 | ⟨h1, h2⟩)
        · subst h1
          exact ⟨Or.inl rfl, by omega⟩
        · exact ⟨Or.inr h1, h2⟩
      · rintro ⟨h1 | h1, h2⟩
        · exact Or.inl h1
        · exact Or.inr ⟨h1, h2⟩

theorem mem_copyTableLoop (portA portB : Int) (t : AddressTable)
    (x : MACAddress × AddressEntry) (h : x ∈ copyTableLoop portA portB t) :
    ∃ y ∈ t, y.1 = x.1 := by
  induction t with
  | nil => simp [copyTableLoop] at h
  | cons cur rest ih =>
    unfold copyTableLoop at h
    rcases List.mem_cons.mp h with h | h
    · refine ⟨cur, List.mem_cons_self _ _, ?_⟩
      split_ifs at h
      · rw [h]
      · rw [h]
    · obtain ⟨y, hy, hyx⟩ := ih h
      exact ⟨y, List.mem_cons_of_mem _ hy, hyx⟩

theorem noBroadcast_modify (s : MACAddressTable) (vid : Nat) (f : AddressTable → AddressTable)
    (hs : s.NoBroadcast)
    (hf : ∀ t, (∀ j ∈ t, MACAddress.isBroadcast j.1 = false) →
      ∀ j ∈ f t, MACAddress.isBroadcast j.1 = false) :
    NoBroadcast { s with vlanAddressTable := mapModify vid f s.vlanAddressTable } := by
  intro i hi j hj
  rcases mem_mapModify _ _ _ _ hi with hi | ⟨t0, ht0, rfl⟩
  · exact hs i hi j hj
  · exact hf t0 (hs _ ht0) j hj

theorem noBroadcast_map (s : MACAddressTable) (f : Nat → AddressTable → AddressTable)
    (hs : s.NoBroadcast)
    (hf : ∀ v t, (∀ j ∈ t, MACAddress.isBroadcast j.1 = false) →
      ∀ j ∈ f v t, MACAddress.isBroadcast j.1 = false) :
    NoBroadcast { s with vlanAddressTable := s.vlanAddressTable.map (fun i => (i.1, f i.1 i.2)) } := by
  intro i hi j hj
  obtain ⟨i0, hi0, rfl⟩ := List.mem_map.mp hi
  exact hf i0.1 i0.2 (hs i0 hi0) j hj

theorem noBroadcast_getPortForAddress (s : MACAddressTable) (now : Int) (a : MACAddress)
    (v : Nat) (hs : s.NoBroadcast) : (s.getPortForAddress now a v).2.NoBroadcast := by
  unfold getPortForAddress
  split
  · exact hs
  · split
    · exact hs
    · split_ifs
      · exact noBroadcast_modify s v _ hs (fun t ht j hj => ht j (mem_mapErase _ _ _ hj))
      · exact hs

theorem noBroadcast_updateTableWithAddress (s : MACAddressTable) (now : Int) (p : Int)
    (a : MACAddress) (v : Nat) (hs : s.NoBroadcast) :
    (s.updateTableWithAddress now p a v).2.NoBroadcast := by
  unfold updateTableWithAddress
  split_ifs with hb
  · exact hs
  · have ha : MACAddress.isBroadcast a = false := by simpa using hb
    split
    · intro i hi j hj
      rcases mem_mapAssign _ _ _ _ hi with rfl | hi
      · rcases mem_mapAssign _ _ _ _ hj with rfl | hj
        · exact ha
        · simp at hj
      · exact hs i hi j hj
    · split
      · refine noBroadcast_modify s v _ hs (fun t ht j hj => ?_)
        rcases mem_mapAssign _ _ _ _ hj with rfl | hj
        · exact ha
        · exact ht j hj
      · refine noBroadcast_modify s v _ hs (fun t ht j hj => ?_)
        rcases mem_mapModify _ _ _ _ hj with hj | ⟨e0, he0, rfl⟩
        · exact ht j hj
        · exact ht (a, e0) he0

theorem reachable_noBroadcast (s : MACAddressTable) (h : s.Reachable) : s.NoBroadcast := by
  induction h with
  | construct =>
    intro i hi j hj
    simp [construct, mapAssign] at hi
    subst hi
    simp at hj
  | initModule s par _ ih => exact ih
  | getPortForAddress s now a v _ ih => exact noBroadcast_getPortForAddress s now a v ih
  | updateTableWithAddress s now p a v _ ih =>
    exact noBroadcast_updateTableWithAddress s now p a v ih
  | flush e s p _ ih =>
    exact noBroadcast_map s (fun v t => flushTable (e v) p t) ih
      (fun v t ht j hj => ht j (mem_flushTable _ _ _ _ hj))
  | copyTable s pa pb _ ih =>
    refine noBroadcast_map s (fun _ t => copyTableLoop pa pb t) ih (fun v t ht j hj => ?_)
    obtain ⟨y, hy, hyj⟩ := mem_copyTableLoop _ _ _ _ hj
    rw [← hyj]
    exact ht y hy
  | removeAgedEntriesFromVlan s now v _ ih =>
    unfold removeAgedEntriesFromVlan
    split
    · exact ih
    · exact noBroadcast_modify s v _ ih
        (fun t ht j hj => ht j ((mem_removeAgedLoop _ _ _ _).mp hj).1)
  | removeAgedEntriesFromAllVlans s now _ ih =>
    exact noBroadcast_map s (fun _ t => removeAgedLoop s.agingTime now t) ih
      (fun v t ht j hj => ht j ((mem_removeAgedLoop _ _ _ _).mp hj).1)

/-! ## Learning -/

/-- C2: in every state reachable from the constructor, `updateTableWithAddress(port, a, v)`
returns true if and only if the table of `v` held an entry for `a` before the call,
whatever its age; in particular it returns false when `v` had no table, when the table
had no entry for `a`, and when `a` is the broadcast address. -/
theorem updateTableWithAddress_result (s : MACAddressTable) (hs : s.Reachable) (now : Int)
    (port : Int) (a : MACAddress) (v : Nat) :
    ((s.updateTableWithAddress now port a v).1 = true ↔
        ∃ t e, s.getTableForVid v = some t ∧ mapFind a t = some e) ∧
    (s.getTableForVid v = none → (s.updateTableWithAddress now port a v).1 = false) ∧
    (∀ t, s.getTableForVid v = some t → mapFind a t = none →
        (s.updateTableWithAddress now port a v).1 = false) ∧
    (MACAddress.isBroadcast a = true → (s.updateTableWithAddress now port a v).1 = false) := by
  have hnb := reachable_noBroadcast s hs
  have key : (s.updateTableWithAddress now port a v).1 = true ↔
      ∃ t e, s.getTableForVid v = some t ∧ mapFind a t = some e := by
    unfold updateTableWithAddress
    split_ifs with hb
    · constructor
      · intro h
        simp at h
      · rintro ⟨t, e, ht, he⟩
        exfalso
        rw [getTableForVid_eq] at ht
        have h1 := hnb _ (mapFind_mem _ _ _ ht) _ (mapFind_mem _ _ _ he)
        simp at h1
        rw [h1] at hb
        simp at hb
    · cases ht : s.getTableForVid v with
      | none => simp
      | some t =>
        cases he : mapFind a t with
        | none => simp [he]
        | some e => simp [he]
  refine ⟨key, ?_, ?_, ?_⟩
  · intro ht
    cases hr : (s.updateTableWithAddress now port a v).1 with
    | false => rfl
    | true =>
      obtain ⟨t, e, ht2, _⟩ := key.mp hr
      rw [ht] at ht2
      simp at ht2
  · intro t ht he
    cases hr : (s.updateTableWithAddress now port a v).1 with
    | false => rfl
    | true =>
      obtain ⟨t2, e, ht2, he2⟩ := key.mp hr
      rw [ht] at ht2
      cases ht2
      rw [he] at he2
      simp at he2
  · intro hb
    simp [updateTableWithAddress, hb]

/-- Witness for C2: in the state reached by learning address 5 on port 3 in VLAN 1, learning
it again returns true, and the entry was there before. -/
theorem updateTableWithAddress_result_witness :
    Reachable (construct.updateTableWithAddress 0 3 5 1).2 ∧
    (((construct.updateTableWithAddress 0 3 5 1).2.updateTableWithAddress 7 4 5 1).1 = true ↔
      ∃ t e, (construct.updateTableWithAddress 0 3 5 1).2.getTableForVid 1 = some t ∧
        mapFind 5 t = some e) ∧
    ((construct.updateTableWithAddress 0 3 5 1).2.updateTableWithAddress 7 4 5 1).1 = true :=
  ⟨Reachable.updateTableWithAddress _ 0 3 5 1 Reachable.construct,
    (updateTableWithAddress_result _
      (Reachable.updateTableWithAddress _ 0 3 5 1 Reachable.construct) 7 4 5 1).1,
    by decide⟩

theorem entry_eq (s : MACAddressTable) (v : Nat) (a : MACAddress) :
    s.entry v a = (mapFind v s.vlanAddressTable).bind (mapFind a) := by
  unfold entry
  rw [getTableForVid_eq]

/-! ### The branches of `updateTableWithAddress` and `getPortForAddress` -/

theorem updateTableWithAddress_broadcast (s : MACAddressTable) (now : Int) (port : Int)
    (a : MACAddress) (v : Nat) (hb : MACAddress.isBroadcast a = true) :
    s.updateTableWithAddress now port a v = (false, s) := by
  simp [updateTableWithAddress, hb]

theorem updateTableWithAddress_noTable (s : MACAddressTable) (now : Int) (port : Int)
    (a : MACAddress) (v : Nat) (hb : MACAddress.isBroadcast a = false)
    (ht : s.getTableForVid v = none) :
    s.updateTableWithAddress now port a v =
      (false, { s with vlanAddressTable :=
        (mapAssign v (mapAssign a (AddressEntry.mk v port now) []) s.vlanAddressTable) }) := by
  simp [updateTableWithAddress, hb, ht]

theorem updateTableWithAddress_newEntry (s : MACAddressTable) (now : Int) (port : Int)
    (a : MACAddress) (v : Nat) (t : AddressTable) (hb : MACAddress.isBroadcast a = false)
    (ht : s.getTableForVid v = some t) (he : mapFind a t = none) :
    s.updateTableWithAddress now port a v =
      (false, { s with vlanAddressTable :=
        (mapModify v (mapAssign a (AddressEntry.mk v port now)) s.vlanAddressTable) }) := by
  simp [updateTableWithAddress, hb, ht, he]

theorem updateTableWithAddress_refresh (s : MACAddressTable) (now : Int) (port : Int)
    (a : MACAddress) (v : Nat) (t : AddressTable) (e0 : AddressEntry)
    (hb : MACAddress.isBroadcast a = false)
    (ht : s.getTableForVid v = some t) (he : mapFind a t = some e0) :
    s.updateTableWithAddress now port a v =
      (true, { s with vlanAddressTable :=
        (mapModify v
          (mapModify a (fun entry => { entry with insertionTime := now, portno := port }))
          s.vlanAddressTable) }) := by
  simp [updateTableWithAddress, hb, ht, he]

theorem getPortForAddress_noTable (s : MACAddressTable) (now : Int) (a : MACAddress) (v : Nat)
    (ht : s.getTableForVid v = none) : s.getPortForAddress now a v = (-1, s) := by
  simp [getPortForAddress, ht]

theorem getPortForAddress_noEntry (s : MACAddressTable) (now : Int) (a : MACAddress) (v : Nat)
    (t : AddressTable) (ht : s.getTableForVid v = some t) (he : mapFind a t = none) :
    s.getPortForAddress now a v = (-1, s) := by
  simp [getPortForAddress, ht, he]

theorem getPortForAddress_aged (s : MACAddressTable) (now : Int) (a : MACAddress) (v : Nat)
    (t : AddressTable) (e : AddressEntry) (ht : s.getTableForVid v = some t)
    (he : mapFind a t = some e) (hage : e.insertionTime + s.agingTime ≤ now) :
    s.getPortForAddress now a v =
      (-1, { s with vlanAddressTable := mapModify v (mapErase a) s.vlanAddressTable }) := by
  simp [getPortForAddress, ht, he, hage]

theorem getPortForAddress_fresh (s : MACAddressTable) (now : Int) (a : MACAddress) (v : Nat)
    (t : AddressTable) (e : AddressEntry) (ht : s.getTableForVid v = some t)
    (he : mapFind a t = some e) (hage : now < e.insertionTime + s.agingTime) :
    s.getPortForAddress now a v = (e.portno, s) := by
  have h : ¬ e.insertionTime + s.agingTime ≤ now := by omega
  simp [getPortForAddress, ht, he, h]

/-- The entry of `a` in VLAN `v` after a non-broadcast `updateTableWithAddress`. -/
theorem entry_updateTableWithAddress_self (s : MACAddressTable) (now : Int) (port : Int)
    (a : MACAddress) (v : Nat) (hb : MACAddress.isBroadcast a = false) :
    ∃ e, (s.updateTableWithAddress now port a v).2.entry v a = some e ∧
      e.portno = port ∧ e.insertionTime = now := by
  cases ht : s.getTableForVid v with
  | none =>
    rw [updateTableWithAddress_noTable s now port a v hb ht]
    refine ⟨AddressEntry.mk v port now, ?_, rfl, rfl⟩
    rw [entry_eq]
    simp only [mapFind_mapAssign_self, Option.some_bind]
  | some t =>
    have ht2 := ht
    rw [getTableForVid_eq] at ht2
    cases he : mapFind a t with
    | none =>
      rw [updateTableWithAddress_newEntry s now port a v t hb ht he]
      refine ⟨AddressEntry.mk v port now, ?_, rfl, rfl⟩
      rw [entry_eq]
      simp only [mapFind_mapModify_self, ht2, Option.map_some', Option.some_bind,
        mapFind_mapAssign_self]
    | some e0 =>
      rw [updateTableWithAddress_refresh s now port a v t e0 hb ht he]
      refine ⟨{ e0 with insertionTime := now, portno := port }, ?_, rfl, rfl⟩
      rw [entry_eq]
      simp only [mapFind_mapModify_self, ht2, Option.map_some', Option.some_bind, he]

/-- Entries under other addresses of VLAN `v` are not touched by `updateTableWithAddress`. -/
theorem entry_updateTableWithAddress_other (s : MACAddressTable) (now : Int) (port : Int)
    (a a0 : MACAddress) (v : Nat) (hne : a0 ≠ a) :
    (s.updateTableWithAddress now port a v).2.entry v a0 = s.entry v a0 := by
  cases hb : MACAddress.isBroadcast a with
  | true => rw [updateTableWithAddress_broadcast s now port a v hb]
  | false =>
    cases ht : s.getTableForVid v with
    | none =>
      rw [updateTableWithAddress_noTable s now port a v hb ht]
      rw [getTableForVid_eq] at ht
      rw [entry_eq, entry_eq]
      simp only [mapFind_mapAssign_self, Option.some_bind, ht, Option.none_bind]
      rw [mapFind_mapAssign_ne _ _ _ _ hne]
      rfl
    | some t =>
      have ht2 := ht
      rw [getTableForVid_eq] at ht2
      cases he : mapFind a t with
      | none =>
        rw [updateTableWithAddress_newEntry s now port a v t hb ht he]
        rw [entry_eq, entry_eq]
        simp only [mapFind_mapModify_self, ht2, Option.map_some', Option.some_bind]
        exact mapFind_mapAssign_ne _ _ _ _ hne
      | some e0 =>
        rw [updateTableWithAddress_refresh s now port a v t e0 hb ht he]
        rw [entry_eq, entry_eq]
        simp only [mapFind_mapModify_self, ht2, Option.map_some', Option.some_bind]
        exact mapFind_mapModify_ne _ _ _ _ hne

/-- Tables of other VLANs are not touched by `updateTableWithAddress`. -/
theorem getTableForVid_updateTableWithAddress_other (s : MACAddressTable) (now : Int)
    (port : Int) (a : MACAddress) (v v0 : Nat) (hne : v0 ≠ v) :
    (s.updateTableWithAddress now port a v).2.getTableForVid v0 = s.getTableForVid v0 := by
  cases hb : MACAddress.isBroadcast a with
  | true => rw [updateTableWithAddress_broadcast s now port a v hb]
  | false =>
    cases ht : s.getTableForVid v with
    | none =>
      rw [updateTableWithAddress_noTable s now port a v hb ht]
      simp only [getTableForVid_eq]
      exact mapFind_mapAssign_ne _ _ _ _ hne
    | some t =>
      cases he : mapFind a t with
      | none =>
        rw [updateTableWithAddress_newEntry s now port a v t hb ht he]
        simp only [getTableForVid_eq]
        exact mapFind_mapModify_ne _ _ _ _ hne
      | some e0 =>
        rw [updateTableWithAddress_refresh s now port a v t e0 hb ht he]
        simp only [getTableForVid_eq]
        exact mapFind_mapModify_ne _ _ _ _ hne

/-- The value returned by `getPortForAddress`, read off the entry it looks up. -/
theorem getPortForAddress_fst (s : MACAddressTable) (now : Int) (a : MACAddress) (v : Nat)
    (e : AddressEntry) (he : s.entry v a = some e) :
    (s.getPortForAddress now a v).1 =
      if e.insertionTime + s.agingTime ≤ now then -1 else e.portno := by
  unfold entry at he
  cases ht : s.getTableForVid v with
  | none =>
    rw [ht] at he
    simp at he
  | some t =>
    rw [ht] at he
    simp only [Option.some_bind] at he
    split_ifs with hage
    · rw [getPortForAddress_aged s now a v t e ht he hage]
    · rw [getPortForAddress_fresh s now a v t e ht he (by omega)]

theorem agingTime_updateTableWithAddress (s : MACAddressTable) (now : Int) (port : Int)
    (a : MACAddress) (v : Nat) :
    (s.updateTableWithAddress now port a v).2.agingTime = s.agingTime := by
  cases hb : MACAddress.isBroadcast a with
  | true => rw [updateTableWithAddress_broadcast s now port a v hb]
  | false =>
    cases ht : s.getTableForVid v with
    | none => rw [updateTableWithAddress_noTable s now port a v hb ht]
    | some t =>
      cases he : mapFind a t with
      | none => rw [updateTableWithAddress_newEntry s now port a v t hb ht he]
      | some e0 => rw [updateTableWithAddress_refresh s now port a v t e0 hb ht he]

/-- C3: after `updateTableWithAddress(port, a, v)` at time `now` with `a` not broadcast,
the table of `v` exists and maps `a` to an entry with `portno = port` and
`insertionTime = now`; every other entry of the table of `v` and the table of every other
VLAN are as before. -/
theorem updateTableWithAddress_effect (s : MACAddressTable) (now : Int) (port : Int)
    (a : MACAddress) (v : Nat) (hb : MACAddress.isBroadcast a = false) :
    (∃ t e, (s.updateTableWithAddress now port a v).2.getTableForVid v = some t ∧
        mapFind a t = some e ∧ e.portno = port ∧ e.insertionTime = now) ∧
    (∀ a0, a0 ≠ a → (s.updateTableWithAddress now port a v).2.entry v a0 = s.entry v a0) ∧
    (∀ v0, v0 ≠ v →
        (s.updateTableWithAddress now port a v).2.getTableForVid v0 = s.getTableForVid v0) := by
  refine ⟨?_, ?_, ?_⟩
  · obtain ⟨e, he, hp, hi⟩ := entry_updateTableWithAddress_self s now port a v hb
    unfold entry at he
    cases ht : (s.updateTableWithAddress now port a v).2.getTableForVid v with
    | none =>
      rw [ht] at he
      simp at he
    | some t =>
      rw [ht] at he
      exact ⟨t, e, rfl, he, hp, hi⟩
  · intro a0 hne
    exact entry_updateTableWithAddress_other s now port a a0 v hne
  · intro v0 hne
    exact getTableForVid_updateTableWithAddress_other s now port a v v0 hne

/-- Witness for C3: learning address 5 on port 3 in the not yet existing VLAN 1 at time 7. -/
theorem updateTableWithAddress_effect_witness :
    MACAddress.isBroadcast 5 = false ∧
    (∃ t e, (construct.updateTableWithAddress 7 3 5 1).2.getTableForVid 1 = some t ∧
        mapFind 5 t = some e ∧ e.portno = 3 ∧ e.insertionTime = 7) ∧
    (construct.updateTableWithAddress 7 3 5 1).2.getTableForVid 0 = construct.getTableForVid 0 :=
  ⟨by decide, (updateTableWithAddress_effect construct 7 3 5 1 (by decide)).1,
    (updateTableWithAddress_effect construct 7 3 5 1 (by decide)).2.2 0 (by decide)⟩

/-- C4: learn-then-lookup round trip. After `updateTableWithAddress(p, a, v)` at time `t0`
with `a` not broadcast and `agingTime > 0`, `getPortForAddress(a, v)` at any time `t` with
`t0 <= t < t0 + agingTime` returns `p`. -/
theorem learn_then_lookup (s : MACAddressTable) (t0 t : Int) (p : Int) (a : MACAddress)
    (v : Nat) (hb : MACAddress.isBroadcast a = false) (_hpos : 0 < s.agingTime)
    (_hge : t0 ≤ t) (hlt : t < t0 + s.agingTime) :
    ((s.updateTableWithAddress t0 p a v).2.getPortForAddress t a v).1 = p := by
  obtain ⟨e, he, hp, hi⟩ := entry_updateTableWithAddress_self s t0 p a v hb
  rw [getPortForAddress_fst _ t a v e he, agingTime_updateTableWithAddress]
  rw [if_neg (by omega), hp]

/-- Witness for C4 (clock ticks of 1 ps): `agingTime` = 1 s, address 10 learned on port 3
in VLAN 1 at time 0, looked up at 0.5 s. -/
theorem learn_then_lookup_witness :
    (((construct.initModule 1000000000000).updateTableWithAddress 0 3 10 1).2.getPortForAddress
      500000000000 10 1).1 = 3 :=
  learn_then_lookup (construct.initModule 1000000000000) 0 500000000000 3 10 1
    (by decide) (by decide) (by decide) (by decide)

end MACAddressTable

/-! ## Well-formedness is kept by every operation -/

theorem mapSorted_mapAssign {β : Type} (k : Nat) (v : β) (m : List (Nat × β))
    (hs : mapSorted m) : mapSorted (mapAssign k v m) := by
  induction m with
  | nil => simp [mapAssign, mapSorted]
  | cons x rest ih =>
    obtain ⟨k', v'⟩ := x
    have hs2 := List.pairwise_cons.mp hs
    unfold mapAssign
    split_ifs with h1 h2
    · refine List.pairwise_cons.mpr ⟨?_, hs⟩
      intro y hy
      rcases List.mem_cons.mp hy with rfl | hy
      · exact h1
      · exact lt_trans h1 (hs2.1 y hy)
    · subst h2
      exact List.pairwise_cons.mpr ⟨fun y hy => hs2.1 y hy, hs2.2⟩
    · refine List.pairwise_cons.mpr ⟨?_, ih hs2.2⟩
      intro y hy
      rcases mem_mapAssign _ _ _ _ hy with rfl | hy
      · show k' < k
        omega
      · exact hs2.1 y hy

theorem mapSorted_mapModify {β : Type} (k : Nat) (f : β → β) (m : List (Nat × β))
    (hs : mapSorted m) : mapSorted (mapModify k f m) := by
  induction m with
  | nil => simp [mapModify, mapSorted]
  | cons x rest ih =>
    obtain ⟨k', v'⟩ := x
    have hs2 := List.pairwise_cons.mp hs
    by_cases hk : k' = k
    · simp only [mapModify, if_pos hk]
      exact List.pairwise_cons.mpr ⟨fun y hy => hs2.1 y hy, hs2.2⟩
    · simp only [mapModify, if_neg hk]
      refine List.pairwise_cons.mpr ⟨?_, ih hs2.2⟩
      intro y hy
      rcases mem_mapModify _ _ _ _ hy with hy | ⟨v0, hv0, rfl⟩
      · exact hs2.1 y hy
      · exact hs2.1 (k, v0) hv0

theorem mapSorted_mapErase {β : Type} (k : Nat) (m : List (Nat × β))
    (hs : mapSorted m) : mapSorted (mapErase k m) := by
  induction m with
  | nil => simp [mapErase, mapSorted]
  | cons x rest ih =>
    obtain ⟨k', v'⟩ := x
    have hs2 := List.pairwise_cons.mp hs
    by_cases hk : k' = k
    · simp only [mapErase, if_pos hk]
      exact hs2.2
    · simp only [mapErase, if_neg hk]
      exact List.pairwise_cons.mpr ⟨fun y hy => hs2.1 y (mem_mapErase _ _ _ hy), ih hs2.2⟩

theorem mapSorted_mapValues {β : Type} (f : Nat → β → β) (m : List (Nat × β))
    (hs : mapSorted m) : mapSorted (m.map (fun i => (i.1, f i.1 i.2))) := by
  unfold mapSorted at *
  rw [List.pairwise_map]
  exact hs

theorem mapFind_mapValues {β : Type} (k : Nat) (f : Nat → β → β) (m : List (Nat × β)) :
    mapFind k (m.map (fun i => (i.1, f i.1 i.2))) = (mapFind k m).map (f k) := by
  induction m with
  | nil => rfl
  | cons x rest ih =>
    obtain ⟨k', v'⟩ := x
    by_cases hk : k' = k
    · subst hk
      simp [mapFind]
    · simp only [List.map_cons, mapFind, if_neg hk]
      exact ih

namespace MACAddressTable

theorem mapSorted_flushTable (endPortno portno : Int) (t : AddressTable) (hs : mapSorted t) :
    mapSorted (flushTable endPortno portno t) := by
  induction t with
  | nil => simp [flushTable, mapSorted]
  | cons cur rest ih =>
    have hs2 := List.pairwise_cons.mp hs
    cases rest with
    | nil =>
      unfold flushTable
      split_ifs
      · simp [mapSorted]
      · exact hs
    | cons nxt rest2 =>
      unfold flushTable
      split_ifs
      · exact ih hs2.2
      · exact List.pairwise_cons.mpr
          ⟨fun y hy => hs2.1 y (mem_flushTable _ _ _ _ hy), ih hs2.2⟩

theorem mapSorted_removeAgedLoop (agingTime now : Int) (t : AddressTable) (hs : mapSorted t) :
    mapSorted (removeAgedLoop agingTime now t) := by
  induction t with
  | nil => simp [removeAgedLoop, mapSorted]
  | cons cur rest ih =>
    have hs2 := List.pairwise_cons.mp hs
    unfold removeAgedLoop
    split_ifs
    · exact ih hs2.2
    · exact List.pairwise_cons.mpr
        ⟨fun y hy => hs2.1 y ((mem_removeAgedLoop _ _ _ _).mp hy).1, ih hs2.2⟩

theorem mapSorted_copyTableLoop (portA portB : Int) (t : AddressTable) (hs : mapSorted t) :
    mapSorted (copyTableLoop portA portB t) := by
  induction t with
  | nil => simp [copyTableLoop, mapSorted]
  | cons cur rest ih =>
    have hs2 := List.pairwise_cons.mp hs
    unfold copyTableLoop
    refine List.pairwise_cons.mpr ⟨?_, ih hs2.2⟩
    intro y hy
    obtain ⟨z, hz, hzy⟩ := mem_copyTableLoop _ _ _ _ hy
    have h1 := hs2.1 z hz
    rw [hzy] at h1
    split_ifs
    · exact h1
    · exact h1

theorem wf_modify (s : MACAddressTable) (vid : Nat) (f : AddressTable → AddressTable)
    (hs : s.WF) (hf : ∀ t, mapSorted t → mapSorted (f t)) :
    WF { s with vlanAddressTable := mapModify vid f s.vlanAddressTable } := by
  obtain ⟨h1, h2, h3⟩ := hs
  refine ⟨mapSorted_mapModify _ _ _ h1, ?_, ?_⟩
  · intro i hi
    rcases mem_mapModify _ _ _ _ hi with hi | ⟨t0, ht0, rfl⟩
    · exact h2 i hi
    · exact hf t0 (h2 _ ht0)
  · unfold addressTable at *
    show mapFind 0 (mapModify vid f s.vlanAddressTable) ≠ none
    by_cases hv : (0 : Nat) = vid
    · subst hv
      rw [mapFind_mapModify_self]
      cases h : mapFind 0 s.vlanAddressTable with
      | none => exact absurd h h3
      | some t => simp
    · rw [mapFind_mapModify_ne _ _ _ _ hv]
      exact h3

theorem wf_map (s : MACAddressTable) (f : Nat → AddressTable → AddressTable)
    (hs : s.WF) (hf : ∀ v t, mapSorted t → mapSorted (f v t)) :
    WF { s with vlanAddressTable := s.vlanAddressTable.map (fun i => (i.1, f i.1 i.2)) } := by
  obtain ⟨h1, h2, h3⟩ := hs
  refine ⟨mapSorted_mapValues _ _ h1, ?_, ?_⟩
  · intro i hi
    obtain ⟨i0, hi0, rfl⟩ := List.mem_map.mp hi
    exact hf i0.1 i0.2 (h2 i0 hi0)
  · unfold addressTable at *
    show mapFind 0 (s.vlanAddressTable.map (fun i => (i.1, f i.1 i.2))) ≠ none
    rw [mapFind_mapValues]
    cases h : mapFind 0 s.vlanAddressTable with
    | none => exact absurd h h3
    | some t => simp

theorem wf_getPortForAddress (s : MACAddressTable) (now : Int) (a : MACAddress) (v : Nat)
    (hs : s.WF) : (s.getPortForAddress now a v).2.WF := by
  cases ht : s.getTableForVid v with
  | none => rw [getPortForAddress_noTable s now a v ht]; exact hs
  | some t =>
    cases he : mapFind a t with
    | none => rw [getPortForAddress_noEntry s now a v t ht he]; exact hs
    | some e =>
      by_cases hage : e.insertionTime + s.agingTime ≤ now
      · rw [getPortForAddress_aged s now a v t e ht he hage]
        exact wf_modify s v _ hs (fun t0 h0 => mapSorted_mapErase _ _ h0)
      · rw [getPortForAddress_fresh s now a v t e ht he (by omega)]
        exact hs

theorem wf_updateTableWithAddress (s : MACAddressTable) (now : Int) (port : Int)
    (a : MACAddress) (v : Nat) (hs : s.WF) : (s.updateTableWithAddress now port a v).2.WF := by
  cases hb : MACAddress.isBroadcast a with
  | true => rw [updateTableWithAddress_broadcast s now port a v hb]; exact hs
  | false =>
    cases ht : s.getTableForVid v with
    | none =>
      rw [updateTableWithAddress_noTable s now port a v hb ht]
      obtain ⟨h1, h2, h3⟩ := hs
      refine ⟨mapSorted_mapAssign _ _ _ h1, ?_, ?_⟩
      · intro i hi
        rcases mem_mapAssign _ _ _ _ hi with rfl | hi
        · exact mapSorted_mapAssign _ _ _ List.Pairwise.nil
        · exact h2 i hi
      · unfold addressTable at *
        show mapFind 0 (mapAssign v _ s.vlanAddressTable) ≠ none
        by_cases hv : (0 : Nat) = v
        · subst hv
          rw [mapFind_mapAssign_self]
          simp
        · rw [mapFind_mapAssign_ne _ _ _ _ hv]
          exact h3
    | some t =>
      cases he : mapFind a t with
      | none =>
        rw [updateTableWithAddress_newEntry s now port a v t hb ht he]
        exact wf_modify s v _ hs (fun t0 h0 => mapSorted_mapAssign _ _ _ h0)
      | some e0 =>
        rw [updateTableWithAddress_refresh s now port a v t e0 hb ht he]
        exact wf_modify s v _ hs (fun t0 h0 => mapSorted_mapModify _ _ _ h0)

/-- Every state reachable from the constructor is well-formed. -/
theorem reachable_wf (s : MACAddressTable) (h : s.Reachable) : s.WF := by
  induction h with
  | construct => decide
  | initModule s par _ ih => exact ih
  | getPortForAddress s now a v _ ih => exact wf_getPortForAddress s now a v ih
  | updateTableWithAddress s now p a v _ ih => exact wf_updateTableWithAddress s now p a v ih
  | flush e s p _ ih =>
    exact wf_map s (fun v t => flushTable (e v) p t) ih
      (fun v t ht => mapSorted_flushTable _ _ _ ht)
  | copyTable s pa pb _ ih =>
    exact wf_map s (fun _ t => copyTableLoop pa pb t) ih
      (fun v t ht => mapSorted_copyTableLoop _ _ _ ht)
  | removeAgedEntriesFromVlan s now v _ ih =>
    unfold removeAgedEntriesFromVlan
    split
    · exact ih
    · exact wf_modify s v _ ih (fun t ht => mapSorted_removeAgedLoop _ _ _ ht)
  | removeAgedEntriesFromAllVlans s now _ ih =>
    exact wf_map s (fun _ t => removeAgedLoop s.agingTime now t) ih
      (fun v t ht => mapSorted_removeAgedLoop _ _ _ ht)

/-! ## Aging boundary and refused broadcast -/

/-- C5: the aging boundary is exclusive. For an entry of `a` in VLAN `v` with insertion
time `t0`, `getPortForAddress(a, v)` at `now = t0 + agingTime` returns `-1`, and after the
call the table of `v` has no entry for `a`. -/
theorem getPortForAddress_at_boundary (s : MACAddressTable) (hs : s.WF) (a : MACAddress)
    (v : Nat) (e : AddressEntry) (he : s.entry v a = some e) :
    (s.getPortForAddress (e.insertionTime + s.agingTime) a v).1 = -1 ∧
    (s.getPortForAddress (e.insertionTime + s.agingTime) a v).2.entry v a = none := by
  unfold entry at he
  cases ht : s.getTableForVid v with
  | none =>
    rw [ht] at he
    simp at he
  | some t =>
    rw [ht] at he
    simp only [Option.some_bind] at he
    rw [getPortForAddress_aged s _ a v t e ht he (le_refl _)]
    refine ⟨rfl, ?_⟩
    rw [getTableForVid_eq] at ht
    rw [entry_eq]
    simp only [mapFind_mapModify_self, ht, Option.map_some', Option.some_bind]
    exact mapFind_mapErase_self a t (hs.2.1 _ (mapFind_mem _ _ _ ht))

/-- Witness for C5 (clock ticks of 1 ps): `agingTime` = 1 s, address 10 learned on port 3
in VLAN 1 at time 0; the lookup at 1.0 s returns `-1` and the entry is gone. -/
theorem getPortForAddress_at_boundary_witness :
    (((construct.initModule 1000000000000).updateTableWithAddress 0 3 10 1).2.getPortForAddress
      (0 + 1000000000000) 10 1).1 = -1 ∧
    (((construct.initModule 1000000000000).updateTableWithAddress 0 3 10 1).2.getPortForAddress
      (0 + 1000000000000) 10 1).2.entry 1 10 = none :=
  getPortForAddress_at_boundary ((construct.initModule 1000000000000).updateTableWithAddress
    0 3 10 1).2 (by decide) 10 1 (AddressEntry.mk 1 3 0) (by decide)

/-- C6: `updateTableWithAddress` with a broadcast address returns false and leaves the
whole state as it was: no entry is inserted or modified and no table is created. -/
theorem updateTableWithAddress_broadcast_refused (s : MACAddressTable) (now : Int)
    (port : Int) (a : MACAddress) (v : Nat) (hb : MACAddress.isBroadcast a = true) :
    (s.updateTableWithAddress now port a v).1 = false ∧
    (s.updateTableWithAddress now port a v).2 = s := by
  rw [updateTableWithAddress_broadcast s now port a v hb]
  exact ⟨rfl, rfl⟩

/-- Witness for C6: the broadcast address offered for VLAN 7, which has no table. -/
theorem updateTableWithAddress_broadcast_refused_witness :
    construct.getTableForVid 7 = none ∧
    (construct.updateTableWithAddress 5 2 0xFFFFFFFFFFFF 7).1 = false ∧
    (construct.updateTableWithAddress 5 2 0xFFFFFFFFFFFF 7).2 = construct :=
  ⟨by decide, updateTableWithAddress_broadcast_refused construct 5 2 0xFFFFFFFFFFFF 7 (by decide)⟩

/-! ## Flushing a port -/

/-- C7 fails on the code: in the reachable state `threePorts`, `flush(2)` leaves the entry
of address 2, whose port is 2, in the table of VLAN 0, whatever is read through the
past-the-end iterator. The loop tests the port of the entry after `cur`, not of `cur`. -/
theorem flush_leaves_entry_of_port :
    Reachable threePorts ∧
    ∀ endPortno : Nat → Int,
      (flush endPortno threePorts 2).entry 0 2 = some (AddressEntry.mk 0 2 0) := by
  refine ⟨?_, ?_⟩
  · exact Reachable.updateTableWithAddress _ 0 3 3 0
      (Reachable.updateTableWithAddress _ 0 2 2 0
        (Reachable.updateTableWithAddress _ 0 1 1 0
          (Reachable.initModule _ 1000 Reachable.construct)))
  · intro endPortno
    have h : threePorts = MACAddressTable.mk 1000
        [(0, [(1, AddressEntry.mk 0 1 0), (2, AddressEntry.mk 0 2 0),
          (3, AddressEntry.mk 0 3 0)])] := by decide
    rw [h]
    by_cases he : endPortno 0 = 2
    · simp [flush, flushTable, entry, getTableForVid, addressTable, mapFind, he]
    · simp [flush, flushTable, entry, getTableForVid, addressTable, mapFind, he]

/-- C8 fails on the code: in the reachable state `twoPorts`, `flush(2)` removes the entry
of address 1, whose port is 1, from the table of VLAN 0, whatever is read through the
past-the-end iterator. -/
theorem flush_removes_entry_of_other_port :
    Reachable twoPorts ∧
    twoPorts.entry 0 1 = some (AddressEntry.mk 0 1 0) ∧
    ∀ endPortno : Nat → Int, (flush endPortno twoPorts 2).entry 0 1 = none := by
  refine ⟨?_, by decide, ?_⟩
  · exact Reachable.updateTableWithAddress _ 0 2 2 0
      (Reachable.updateTableWithAddress _ 0 1 1 0
        (Reachable.initModule _ 1000 Reachable.construct))
  · intro endPortno
    have h : twoPorts = MACAddressTable.mk 1000
        [(0, [(1, AddressEntry.mk 0 1 0), (2, AddressEntry.mk 0 2 0)])] := by decide
    rw [h]
    by_cases he : endPortno 0 = 2
    · simp [flush, flushTable, entry, getTableForVid, addressTable, mapFind, he]
    · simp [flush, flushTable, entry, getTableForVid, addressTable, mapFind, he]

/-! ## Remapping a port -/

theorem mapFind_copyTableLoop (portA portB : Int) (a : MACAddress) (t : AddressTable) :
    mapFind a (copyTableLoop portA portB t) =
      (mapFind a t).map (fun e => if e.portno = portA then { e with portno := portB } else e) := by
  induction t with
  | nil => rfl
  | cons cur rest ih =>
    obtain ⟨k, e⟩ := cur
    rw [copyTableLoop]
    by_cases hp : e.portno = portA
    · rw [if_pos hp]
      by_cases hk : k = a
      · simp only [mapFind, if_pos hk, Option.map_some', if_pos hp]
      · simp only [mapFind, if_neg hk]
        exact ih
    · rw [if_neg hp]
      by_cases hk : k = a
      · simp only [mapFind, if_pos hk, Option.map_some', if_neg hp]
      · simp only [mapFind, if_neg hk]
        exact ih

theorem mem_copyTableLoop_portno (portA portB : Int) (t : AddressTable)
    (x : MACAddress × AddressEntry) (h : x ∈ copyTableLoop portA portB t)
    (hne : portA ≠ portB) : x.2.portno ≠ portA := by
  induction t with
  | nil => simp [copyTableLoop] at h
  | cons cur rest ih =>
    unfold copyTableLoop at h
    rcases List.mem_cons.mp h with h | h
    · split_ifs at h with hp
      · rw [h]
        exact fun hc => hne hc.symm
      · rw [h]
        exact hp
    · exact ih h

theorem getTableForVid_copyTable (s : MACAddressTable) (portA portB : Int) (v : Nat) :
    (s.copyTable portA portB).getTableForVid v =
      (s.getTableForVid v).map (copyTableLoop portA portB) := by
  rw [getTableForVid_eq, getTableForVid_eq]
  exact mapFind_mapValues v (fun _ t => copyTableLoop portA portB t) s.vlanAddressTable

theorem entry_copyTable (s : MACAddressTable) (portA portB : Int) (v : Nat) (a : MACAddress) :
    (s.copyTable portA portB).entry v a =
      (s.entry v a).map
        (fun e => if e.portno = portA then { e with portno := portB } else e) := by
  unfold entry
  rw [getTableForVid_copyTable]
  cases s.getTableForVid v with
  | none => rfl
  | some t =>
    simp only [Option.map_some', Option.some_bind]
    exact mapFind_copyTableLoop portA portB a t

/-- C9: `copyTable(A, B)` rewrites the port of every entry with `portno = A` to `B` in
every VLAN and changes nothing else: the VLANs that have a table, the addresses that have
an entry and all insertion times stay the same, entries with another port keep it, and
afterwards no entry has port `A` unless `A = B`. -/
theorem copyTable_effect (s : MACAddressTable) (portA portB : Int) :
    (∀ v, ((s.copyTable portA portB).getTableForVid v).isSome = (s.getTableForVid v).isSome) ∧
    (∀ v a, s.entry v a = none → (s.copyTable portA portB).entry v a = none) ∧
    (∀ v a e, s.entry v a = some e → e.portno = portA →
        (s.copyTable portA portB).entry v a = some (AddressEntry.mk e.vid portB e.insertionTime)) ∧
    (∀ v a e, s.entry v a = some e → e.portno ≠ portA →
        (s.copyTable portA portB).entry v a = some e) ∧
    (portA ≠ portB → ∀ i ∈ (s.copyTable portA portB).vlanAddressTable, ∀ j ∈ i.2,
        j.2.portno ≠ portA) := by
  refine ⟨?_, ?_, ?_, ?_, ?_⟩
  · intro v
    rw [getTableForVid_copyTable]
    cases s.getTableForVid v <;> rfl
  · intro v a h
    rw [entry_copyTable, h]
    rfl
  · intro v a e h hp
    rw [entry_copyTable, h]
    simp [hp]
  · intro v a e h hp
    rw [entry_copyTable, h]
    simp [hp]
  · intro hne i hi j hj
    obtain ⟨i0, _, rfl⟩ := List.mem_map.mp hi
    exact mem_copyTableLoop_portno portA portB i0.2 j hj hne

/-! ## Expiry of one VLAN -/

theorem removeAgedLoop_eq_filter (agingTime now : Int) (t : AddressTable) :
    removeAgedLoop agingTime now t =
      t.filter (fun j => decide (now < j.2.insertionTime + agingTime)) := by
  induction t with
  | nil => rfl
  | cons cur rest ih =>
    unfold removeAgedLoop
    split_ifs with hc
    · rw [List.filter_cons_of_neg (by simpa using hc)]
      exact ih
    · rw [List.filter_cons_of_pos (by simpa using hc), ih]

/-- C10: after `removeAgedEntriesFromVlan(v)` at time `now` the table of `v` holds exactly
its former entries with `insertionTime + agingTime > now`, in their former order and
unchanged; the tables of all other VLANs are as before; when `v` has no table the state
is unchanged. -/
theorem removeAgedEntriesFromVlan_effect (s : MACAddressTable) (now : Int) (v : Nat) :
    (∀ t, s.getTableForVid v = some t →
        (s.removeAgedEntriesFromVlan now v).getTableForVid v =
          some (t.filter (fun j => decide (now < j.2.insertionTime + s.agingTime)))) ∧
    (∀ v0, v0 ≠ v →
        (s.removeAgedEntriesFromVlan now v).getTableForVid v0 = s.getTableForVid v0) ∧
    (s.getTableForVid v = none → s.removeAgedEntriesFromVlan now v = s) := by
  refine ⟨?_, ?_, ?_⟩
  · intro t ht
    simp only [removeAgedEntriesFromVlan, ht]
    rw [getTableForVid_eq] at ht
    rw [getTableForVid_eq]
    simp only [mapFind_mapModify_self, ht, Option.map_some', removeAgedLoop_eq_filter]
  · intro v0 hne
    unfold removeAgedEntriesFromVlan
    split
    · rfl
    · simp only [getTableForVid_eq]
      exact mapFind_mapModify_ne _ _ _ _ hne
  · intro ht
    simp only [removeAgedEntriesFromVlan, ht]

/-! ## Invariants of the reachable states -/

theorem noBroadcast_flush (endPortno : Nat → Int) (s : MACAddressTable) (portno : Int)
    (hs : s.NoBroadcast) : (flush endPortno s portno).NoBroadcast :=
  noBroadcast_map s (fun v t => flushTable (endPortno v) portno t) hs
    (fun _ t ht j hj => ht j (mem_flushTable _ _ t j hj))

theorem noBroadcast_copyTable (s : MACAddressTable) (portA portB : Int)
    (hs : s.NoBroadcast) : (s.copyTable portA portB).NoBroadcast := by
  refine noBroadcast_map s (fun _ t => copyTableLoop portA portB t) hs (fun v t ht j hj => ?_)
  obtain ⟨y, hy, hyj⟩ := mem_copyTableLoop _ _ _ _ hj
  rw [← hyj]
  exact ht y hy

theorem noBroadcast_removeAgedEntriesFromVlan (s : MACAddressTable) (now : Int) (v : Nat)
    (hs : s.NoBroadcast) : (s.removeAgedEntriesFromVlan now v).NoBroadcast := by
  unfold removeAgedEntriesFromVlan
  split
  · exact hs
  · exact noBroadcast_modify s v _ hs
      (fun t ht j hj => ht j ((mem_removeAgedLoop _ _ _ _).mp hj).1)

theorem noBroadcast_removeAgedEntriesFromAllVlans (s : MACAddressTable) (now : Int)
    (hs : s.NoBroadcast) : (s.removeAgedEntriesFromAllVlans now).NoBroadcast :=
  noBroadcast_map s (fun _ t => removeAgedLoop s.agingTime now t) hs
    (fun _ t ht j hj => ht j ((mem_removeAgedLoop _ _ t j).mp hj).1)

theorem noBroadcast_construct : construct.NoBroadcast := by
  intro i hi j hj
  simp [construct, mapAssign] at hi
  subst hi
  simp at hj

/-- C11: broadcast is never present. The predicate `NoBroadcast` holds after the
constructor, is preserved by every operation, and so holds in every reachable state: no
table has an entry keyed by a broadcast address, and looking one up finds no entry. -/
theorem broadcast_never_present :
    construct.NoBroadcast ∧
    (∀ s : MACAddressTable, s.NoBroadcast →
      (∀ par, (s.initModule par).NoBroadcast) ∧
      (∀ now a v, (s.getPortForAddress now a v).2.NoBroadcast) ∧
      (∀ now port a v, (s.updateTableWithAddress now port a v).2.NoBroadcast) ∧
      (∀ endPortno port, (flush endPortno s port).NoBroadcast) ∧
      (∀ portA portB, (s.copyTable portA portB).NoBroadcast) ∧
      (∀ now v, (s.removeAgedEntriesFromVlan now v).NoBroadcast) ∧
      (∀ now, (s.removeAgedEntriesFromAllVlans now).NoBroadcast)) ∧
    (∀ s : MACAddressTable, s.Reachable →
      s.NoBroadcast ∧ ∀ v a, MACAddress.isBroadcast a = true → s.entry v a = none) := by
  refine ⟨noBroadcast_construct, ?_, ?_⟩
  · intro s hs
    exact ⟨fun _ => hs, fun now a v => noBroadcast_getPortForAddress s now a v hs,
      fun now port a v => noBroadcast_updateTableWithAddress s now port a v hs,
      fun e port => noBroadcast_flush e s port hs,
      fun pa pb => noBroadcast_copyTable s pa pb hs,
      fun now v => noBroadcast_removeAgedEntriesFromVlan s now v hs,
      fun now => noBroadcast_removeAgedEntriesFromAllVlans s now hs⟩
  · intro s hr
    have hnb := reachable_noBroadcast s hr
    refine ⟨hnb, ?_⟩
    intro v a hb
    rw [entry_eq]
    cases ht : mapFind v s.vlanAddressTable with
    | none => rfl
    | some t =>
      simp only [Option.some_bind]
      cases he : mapFind a t with
      | none => rfl
      | some e =>
        have h1 := hnb _ (mapFind_mem _ _ _ ht) _ (mapFind_mem _ _ _ he)
        simp only at h1
        rw [hb] at h1
        exact absurd h1 (by decide)

end MACAddressTable

theorem mapFind_isSome_mapModify {β : Type} (k k0 : Nat) (f : β → β) (m : List (Nat × β)) :
    (mapFind k (mapModify k0 f m)).isSome = (mapFind k m).isSome := by
  by_cases h : k = k0
  · subst h
    rw [mapFind_mapModify_self]
    cases mapFind k m <;> rfl
  · rw [mapFind_mapModify_ne _ _ _ _ h]

theorem mapFind_isSome_mapAssign {β : Type} (k k0 : Nat) (v : β) (m : List (Nat × β))
    (h : (mapFind k m).isSome = true) : (mapFind k (mapAssign k0 v m)).isSome = true := by
  by_cases hk : k = k0
  · subst hk
    rw [mapFind_mapAssign_self]
    rfl
  · rw [mapFind_mapAssign_ne _ _ _ _ hk]
    exact h

theorem mapFind_isSome_mapValues {β : Type} (k : Nat) (f : Nat → β → β) (m : List (Nat × β)) :
    (mapFind k (m.map (fun i => (i.1, f i.1 i.2)))).isSome = (mapFind k m).isSome := by
  rw [mapFind_mapValues]
  cases mapFind k m <;> rfl

namespace MACAddressTable

theorem hasTable_getPortForAddress (s : MACAddressTable) (now : Int) (a : MACAddress)
    (v v0 : Nat) (h : (s.getTableForVid v0).isSome = true) :
    ((s.getPortForAddress now a v).2.getTableForVid v0).isSome = true := by
  cases ht : s.getTableForVid v with
  | none => rw [getPortForAddress_noTable s now a v ht]; exact h
  | some t =>
    cases he : mapFind a t with
    | none => rw [getPortForAddress_noEntry s now a v t ht he]; exact h
    | some e =>
      by_cases hage : e.insertionTime + s.agingTime ≤ now
      · rw [getPortForAddress_aged s now a v t e ht he hage]
        rw [getTableForVid_eq] at h ⊢
        rw [← h]
        exact mapFind_isSome_mapModify _ _ _ _
      · rw [getPortForAddress_fresh s now a v t e ht he (by omega)]
        exact h

theorem hasTable_updateTableWithAddress (s : MACAddressTable) (now : Int) (port : Int)
    (a : MACAddress) (v v0 : Nat) (h : (s.getTableForVid v0).isSome = true) :
    ((s.updateTableWithAddress now port a v).2.getTableForVid v0).isSome = true := by
  cases hb : MACAddress.isBroadcast a with
  | true => rw [updateTableWithAddress_broadcast s now port a v hb]; exact h
  | false =>
    cases ht : s.getTableForVid v with
    | none =>
      rw [updateTableWithAddress_noTable s now port a v hb ht]
      rw [getTableForVid_eq] at h ⊢
      exact mapFind_isSome_mapAssign _ _ _ _ h
    | some t =>
      cases he : mapFind a t with
      | none =>
        rw [updateTableWithAddress_newEntry s now port a v t hb ht he]
        rw [getTableForVid_eq] at h ⊢
        rw [← h]
        exact mapFind_isSome_mapModify _ _ _ _
      | some e0 =>
        rw [updateTableWithAddress_refresh s now port a v t e0 hb ht he]
        rw [getTableForVid_eq] at h ⊢
        rw [← h]
        exact mapFind_isSome_mapModify _ _ _ _

theorem hasTable_flush (endPortno : Nat → Int) (s : MACAddressTable) (port : Int) (v0 : Nat) :
    ((flush endPortno s port).getTableForVid v0).isSome = (s.getTableForVid v0).isSome := by
  rw [getTableForVid_eq, getTableForVid_eq]
  exact mapFind_isSome_mapValues v0 (fun v t => flushTable (endPortno v) port t) _

theorem hasTable_copyTable (s : MACAddressTable) (portA portB : Int) (v0 : Nat) :
    ((s.copyTable portA portB).getTableForVid v0).isSome = (s.getTableForVid v0).isSome := by
  rw [getTableForVid_eq, getTableForVid_eq]
  exact mapFind_isSome_mapValues v0 (fun _ t => copyTableLoop portA portB t) _

theorem hasTable_removeAgedEntriesFromVlan (s : MACAddressTable) (now : Int) (v v0 : Nat) :
    ((s.removeAgedEntriesFromVlan now v).getTableForVid v0).isSome =
      (s.getTableForVid v0).isSome := by
  unfold removeAgedEntriesFromVlan
  split
  · rfl
  · rw [getTableForVid_eq, getTableForVid_eq]
    exact mapFind_isSome_mapModify _ _ _ _

theorem hasTable_removeAgedEntriesFromAllVlans (s : MACAddressTable) (now : Int) (v0 : Nat) :
    ((s.removeAgedEntriesFromAllVlans now).getTableForVid v0).isSome =
      (s.getTableForVid v0).isSome := by
  rw [getTableForVid_eq, getTableForVid_eq]
  exact mapFind_isSome_mapValues v0 (fun _ t => removeAgedLoop s.agingTime now t) _

/-- C12: the table of VLAN 0 is created by the constructor and never dropped. In the
constructed state and in every reachable state `getTableForVid(0)` returns a table, so a
lookup in VLAN 0 never takes the `NULL` exit; and no operation removes the table of any
VLAN: a VLAN that has a table before an operation has one after it. -/
theorem vlan0_table_never_dropped :
    construct.getTableForVid 0 = some [] ∧
    (∀ s : MACAddressTable, s.Reachable → ∃ t, s.getTableForVid 0 = some t) ∧
    (∀ (s : MACAddressTable) (v0 : Nat), (s.getTableForVid v0).isSome = true →
      (∀ par, ((s.initModule par).getTableForVid v0).isSome = true) ∧
      (∀ now a v, ((s.getPortForAddress now a v).2.getTableForVid v0).isSome = true) ∧
      (∀ now port a v,
        ((s.updateTableWithAddress now port a v).2.getTableForVid v0).isSome = true) ∧
      (∀ endPortno port, ((flush endPortno s port).getTableForVid v0).isSome = true) ∧
      (∀ portA portB, ((s.copyTable portA portB).getTableForVid v0).isSome = true) ∧
      (∀ now v, ((s.removeAgedEntriesFromVlan now v).getTableForVid v0).isSome = true) ∧
      (∀ now, ((s.removeAgedEntriesFromAllVlans now).getTableForVid v0).isSome = true)) := by
  refine ⟨by decide, ?_, ?_⟩
  · intro s hr
    have h := (reachable_wf s hr).2.2
    have h0 : s.getTableForVid 0 = s.addressTable := by simp [getTableForVid]
    cases ht : s.getTableForVid 0 with
    | none =>
      rw [h0] at ht
      exact absurd ht h
    | some t => exact ⟨t, rfl⟩
  · intro s v0 h
    refine ⟨fun _ => h, fun now a v => hasTable_getPortForAddress s now a v v0 h,
      fun now port a v => hasTable_updateTableWithAddress s now port a v v0 h,
      fun e port => ?_, fun pa pb => ?_, fun now v => ?_, fun now => ?_⟩
    · rw [hasTable_flush]; exact h
    · rw [hasTable_copyTable]; exact h
    · rw [hasTable_removeAgedEntriesFromVlan]; exact h
    · rw [hasTable_removeAgedEntriesFromAllVlans]; exact h

end MACAddressTable

/-! ## Materials -/

namespace Material

/-- C19: for a material with `relativePermittivity * relativePermeability > 0`, over the
real numbers, `getRefractiveIndex()` is the non-negative square root of that product and
`getPropagationSpeed()` is the speed of light divided by it, so that
`getPropagationSpeed() * getRefractiveIndex() = c`. -/
theorem refractiveIndex_propagationSpeed (m : Material ℝ) (e u : ℝ)
    (he : m.relativePermittivity = some e) (hu : m.relativePermeability = some u)
    (hpos : 0 < e * u) :
    ∃ n v, m.getRefractiveIndex Real.sqrt = some n ∧ m.getPropagationSpeed Real.sqrt = some v ∧
      0 ≤ n ∧ n * n = e * u ∧ n = Real.sqrt (e * u) ∧ v = SPEED_OF_LIGHT / n ∧
      v * n = SPEED_OF_LIGHT := by
  have hn : m.getRefractiveIndex Real.sqrt = some (Real.sqrt (e * u)) := by
    simp only [getRefractiveIndex, he, hu]
    rw [if_neg (by linarith)]
  have hne : Real.sqrt (e * u) ≠ 0 := (Real.sqrt_pos.mpr hpos).ne'
  have hv : m.getPropagationSpeed Real.sqrt = some (SPEED_OF_LIGHT / Real.sqrt (e * u)) := by
    simp only [getPropagationSpeed, hn]
    rw [if_neg hne]
  exact ⟨_, _, hn, hv, Real.sqrt_nonneg _, Real.mul_self_sqrt hpos.le, rfl, rfl,
    div_mul_cancel₀ _ hne⟩

/-- Witness for C19: the catalog material glass, with product `7 * 1`. -/
theorem refractiveIndex_propagationSpeed_witness :
    ∃ n v, (glass : Material ℝ).getRefractiveIndex Real.sqrt = some n ∧
      (glass : Material ℝ).getPropagationSpeed Real.sqrt = some v ∧
      0 ≤ n ∧ n * n = 7 * 1 ∧ n = Real.sqrt (7 * 1) ∧ v = SPEED_OF_LIGHT / n ∧
      v * n = SPEED_OF_LIGHT :=
  refractiveIndex_propagationSpeed glass 7 1 rfl rfl (by norm_num)

/-- C20: the catalog material air has `relativePermittivity = 1.00058986` and
`relativePermeability = 1.00000037`; its refractive index is
`sqrt(1.00058986 * 1.00000037)`, which lies in `[1.0002950, 1.0002951)`. -/
theorem air_refractiveIndex :
    (air : Material ℝ).relativePermittivity = some 1.00058986 ∧
    (air : Material ℝ).relativePermeability = some 1.00000037 ∧
    (air : Material ℝ).getRefractiveIndex Real.sqrt =
      some (Real.sqrt (1.00058986 * 1.00000037)) ∧
    (1.0002950 : ℝ) ≤ Real.sqrt (1.00058986 * 1.00000037) ∧
    Real.sqrt (1.00058986 * 1.00000037) < (1.0002951 : ℝ) := by
  refine ⟨rfl, rfl, ?_, ?_, ?_⟩
  · simp only [getRefractiveIndex, air]
    rw [if_neg (by norm_num)]
  · apply Real.le_sqrt_of_sq_le
    norm_num
  · rw [Real.sqrt_lt' (by norm_num)]
    norm_num

end Material

/-! ## Polygons -/

namespace Polygon

/-- C18: constructing a polygon fails with an error if and only if the point list has
fewer than three points; for a list of three or more points it succeeds and the polygon
stores exactly those points, in the given order. -/
theorem construct_result {K : Type} (points : List (Coord K)) :
    ((∃ msg, construct points = Except.error msg) ↔ points.length < 3) ∧
    (3 ≤ points.length → ∃ p, construct points = Except.ok p ∧ p.points = points) := by
  unfold construct
  by_cases h : points.length < 3
  · rw [if_pos h]
    exact ⟨⟨fun _ => h, fun _ => ⟨_, rfl⟩⟩, fun h3 => absurd h (by omega)⟩
  · rw [if_neg h]
    refine ⟨⟨?_, fun h3 => absurd h3 h⟩, fun _ => ⟨_, rfl, rfl⟩⟩
    rintro ⟨msg, hmsg⟩
    cases hmsg

theorem getNormalUnitVector_cons {K : Type} [LinearOrderedField K] (sqrt : K → K)
    (a b c : Coord K) (rest : List (Coord K)) :
    getNormalUnitVector sqrt { points := a :: b :: c :: rest } =
      if ((b.sub a).cross (c.sub a)).length sqrt = 0 then none
      else some (((b.sub a).cross (c.sub a)).divide (((b.sub a).cross (c.sub a)).length sqrt)) :=
  rfl

theorem length_pos_of_ne_zero (v : Coord ℝ) (h : v ≠ Coord.zero) : 0 < v.length Real.sqrt := by
  unfold Coord.length
  apply Real.sqrt_pos.mpr
  by_contra hc
  apply h
  have hx := mul_self_nonneg v.x
  have hy := mul_self_nonneg v.y
  have hz := mul_self_nonneg v.z
  have h1 : v.x * v.x = 0 := by linarith
  have h2 : v.y * v.y = 0 := by linarith
  have h3 : v.z * v.z = 0 := by linarith
  obtain ⟨x, y, z⟩ := v
  simp only [mul_self_eq_zero] at h1 h2 h3
  simp only [Coord.zero, Coord.mk.injEq]
  exact ⟨h1, h2, h3⟩

/-- C17, amended: for a polygon whose first three points `a`, `b`, `c` are not collinear,
over the real numbers, `getNormalUnitVector()` is the cross product of `b - a` and `c - a`
divided by its length: it has length 1, is orthogonal to `b - a` and to `c - a`, is a
positive multiple of the cross product, and is the same whatever points follow the first
three. -/
theorem getNormalUnitVector_spec (a b c : Coord ℝ) (rest : List (Coord ℝ))
    (h : (b.sub a).cross (c.sub a) ≠ Coord.zero) :
    ∃ n, getNormalUnitVector Real.sqrt { points := a :: b :: c :: rest } = some n ∧
      n = ((b.sub a).cross (c.sub a)).divide (((b.sub a).cross (c.sub a)).length Real.sqrt) ∧
      n.length Real.sqrt = 1 ∧ n.dot (b.sub a) = 0 ∧ n.dot (c.sub a) = 0 ∧
      (∃ k, 0 < k ∧ n = ((b.sub a).cross (c.sub a)).scale k) ∧
      ∀ rest0, getNormalUnitVector Real.sqrt { points := a :: b :: c :: rest0 } = some n := by
  have hpos := length_pos_of_ne_zero _ h
  have hne := hpos.ne'
  have hget : ∀ rest0, getNormalUnitVector Real.sqrt { points := a :: b :: c :: rest0 } =
      some (((b.sub a).cross (c.sub a)).divide (((b.sub a).cross (c.sub a)).length Real.sqrt)) := by
    intro rest0
    rw [getNormalUnitVector_cons, if_neg hne]
  refine ⟨_, hget rest, rfl, ?_, ?_, ?_, ?_, hget⟩
  · generalize hC : (b.sub a).cross (c.sub a) = C at hpos hne
    have hL : C.length Real.sqrt * C.length Real.sqrt = C.x * C.x + C.y * C.y + C.z * C.z := by
      unfold Coord.length
      exact Real.mul_self_sqrt
        (add_nonneg (add_nonneg (mul_self_nonneg _) (mul_self_nonneg _)) (mul_self_nonneg _))
    generalize C.length Real.sqrt = L at hpos hne hL
    simp only [Coord.length, Coord.divide]
    have : C.x / L * (C.x / L) + C.y / L * (C.y / L) + C.z / L * (C.z / L) = 1 := by
      field_simp
      linarith
    rw [this, Real.sqrt_one]
  · generalize ((b.sub a).cross (c.sub a)).length Real.sqrt = L at hpos hne
    simp only [Coord.dot, Coord.divide, Coord.cross, Coord.sub]
    field_simp
    ring
  · generalize ((b.sub a).cross (c.sub a)).length Real.sqrt = L at hpos hne
    simp only [Coord.dot, Coord.divide, Coord.cross, Coord.sub]
    field_simp
    ring
  · refine ⟨1 / ((b.sub a).cross (c.sub a)).length Real.sqrt, by positivity, ?_⟩
    simp only [Coord.divide, Coord.scale, Coord.mk.injEq]
    refine ⟨?_, ?_, ?_⟩ <;> rw [mul_one_div]

/-- Witness for C17, amended: the first three points of the square in the plane `z = 0`,
followed by its fourth point. -/
theorem getNormalUnitVector_spec_witness :
    ∃ n, getNormalUnitVector Real.sqrt
        { points := [⟨0, 0, 0⟩, ⟨4, 0, 0⟩, ⟨4, 4, 0⟩, ⟨0, 4, 0⟩] } = some n ∧
      n.length Real.sqrt = 1 :=
  (getNormalUnitVector_spec ⟨0, 0, 0⟩ ⟨4, 0, 0⟩ ⟨4, 4, 0⟩ [⟨0, 4, 0⟩]
    (by simp [Coord.cross, Coord.sub, Coord.zero])).imp (fun _ hn => ⟨hn.1, hn.2.2.1⟩)

/-! ### The two squares, evaluated over the real numbers -/

theorem sqrt_256 : Real.sqrt 256 = 16 := by
  rw [show (256 : ℝ) = 16 ^ 2 by norm_num]
  exact Real.sqrt_sq (by norm_num)

theorem square_normal : (square : Polygon ℝ).getNormalUnitVector Real.sqrt = some ⟨0, 0, 1⟩ := by
  simp only [getNormalUnitVector, point, square, List.getD, Coord.sub, Coord.length,
    Coord.divide]
  norm_num [sqrt_256]

theorem raisedSquare_normal :
    (raisedSquare : Polygon ℝ).getNormalUnitVector Real.sqrt = some ⟨0, 0, 1⟩ := by
  simp only [getNormalUnitVector, point, raisedSquare, List.getD, Coord.sub, Coord.length,
    Coord.divide]
  norm_num [sqrt_256]

theorem square_edge0 : (square : Polygon ℝ).edgeNormal Real.sqrt 0 = some ⟨0, -4, 0⟩ := by
  simp only [edgeNormal, getEdgeOutwardNormalVector, square_normal]
  simp only [point, square, List.getD, Coord.sub, Coord.scale, Coord.dot]
  norm_num

theorem square_edge1 : (square : Polygon ℝ).edgeNormal Real.sqrt 1 = some ⟨4, 0, 0⟩ := by
  simp only [edgeNormal, getEdgeOutwardNormalVector, square_normal]
  simp only [point, square, List.getD, Coord.sub, Coord.scale, Coord.dot]
  norm_num

theorem square_edge2 : (square : Polygon ℝ).edgeNormal Real.sqrt 2 = some ⟨0, 4, 0⟩ := by
  simp only [edgeNormal, getEdgeOutwardNormalVector, square_normal]
  simp only [point, square, List.getD, Coord.sub, Coord.scale, Coord.dot]
  norm_num

theorem square_edge3 : (square : Polygon ℝ).edgeNormal Real.sqrt 3 = some ⟨-4, 0, 0⟩ := by
  simp only [edgeNormal, getEdgeOutwardNormalVector, square_normal]
  simp only [point, square, List.getD, Coord.sub, Coord.scale, Coord.dot]
  norm_num

theorem square_clip (n1 n2 : Coord ℝ) :
    (square : Polygon ℝ).clip Real.sqrt LineSegment.crossing n1 n2 =
      (true, { tE := 0, tL := 1 / 2, normal1 := n1, normal2 := ⟨4, 0, 0⟩ }) := by
  simp only [clip, clipLoop, clipEdge, zero_add, Nat.reduceAdd, square_edge0, square_edge1,
    square_edge2, square_edge3, show (square : Polygon ℝ).points.length = 4 from rfl]
  simp only [point, square, LineSegment.crossing, List.getD, Coord.sub, Coord.dot, clipStep]
  norm_num

/-- C14: for the polygon `[(0,0,0),(4,0,0),(4,4,0),(0,4,0)]` and the segment from
`(2,2,0)` to `(6,2,0)`, over the real numbers and whatever the reference arguments hold
before the call, `computeIntersection` returns true with `intersection1 = (2,2,0)`,
`intersection2 = (4,2,0)`, `normal1 = (0,0,0)` and `normal2 = (4,0,0)`, which is 4 times
`(1,0,0)`. -/
theorem computeIntersection_square (i1 i2 n1 n2 : Coord ℝ) :
    (square : Polygon ℝ).computeIntersection Real.sqrt LineSegment.crossing i1 i2 n1 n2 =
      { result := true, intersection1 := ⟨2, 2, 0⟩, intersection2 := ⟨4, 2, 0⟩,
        normal1 := ⟨0, 0, 0⟩, normal2 := ⟨4, 0, 0⟩ } ∧
    (⟨4, 0, 0⟩ : Coord ℝ) = (⟨1, 0, 0⟩ : Coord ℝ).scale 4 ∧ (0 : ℝ) < 4 := by
  refine ⟨?_, ?_, by norm_num⟩
  · simp only [computeIntersection, square_clip]
    simp only [LineSegment.crossing, Coord.add, Coord.sub, Coord.scale, Coord.zero]
    norm_num
  · simp only [Coord.scale]
    norm_num

/-- C16 fails on the code: for the square `[(0,0,1),(4,0,1),(4,4,1),(0,4,1)]`, whose first
three points are not collinear and whose unit normal is `(0,0,1)`, the edge from `(0,0,1)`
to `(4,0,1)` gets the zero vector from `getEdgeOutwardNormalVector`, while the edge vector
crossed with the plane normal and projected onto the plane is `(0,-4,0)`. -/
theorem getEdgeOutwardNormalVector_raisedSquare :
    (raisedSquare : Polygon ℝ).getNormalUnitVector Real.sqrt = some ⟨0, 0, 1⟩ ∧
    (raisedSquare : Polygon ℝ).getEdgeOutwardNormalVector Real.sqrt
      ((raisedSquare : Polygon ℝ).point 0) ((raisedSquare : Polygon ℝ).point 1) =
        some ⟨0, 0, 0⟩ ∧
    ((((raisedSquare : Polygon ℝ).point 1).sub ((raisedSquare : Polygon ℝ).point 0)).cross
      ⟨0, 0, 1⟩).projectOntoPlane ⟨0, 0, 1⟩ = ⟨0, -4, 0⟩ := by
  refine ⟨raisedSquare_normal, ?_, ?_⟩
  · simp only [getEdgeOutwardNormalVector, raisedSquare_normal]
    simp only [point, raisedSquare, List.getD, Coord.sub, Coord.scale, Coord.dot]
    norm_num
  · simp only [point, raisedSquare, List.getD, Coord.sub, Coord.scale, Coord.dot,
      Coord.cross, Coord.projectOntoPlane]
    norm_num

/-! ### The clipping loop -/

section ClipLoop

variable {K : Type} [LinearOrderedField K]

theorem clipStep_enter_update (nv : Coord K) (N D : K) (st : ClipState K) (hD : D < 0)
    (ht : st.tE < N / D) (hl : ¬ st.tL < N / D) :
    clipStep nv N D st = (true, { st with tE := N / D, normal1 := nv }) := by
  simp only [clipStep, if_pos hD, gt_iff_lt, if_pos ht, if_neg hl]

theorem clipStep_enter_reject (nv : Coord K) (N D : K) (st : ClipState K) (hD : D < 0)
    (ht : st.tE < N / D) (hl : st.tL < N / D) :
    clipStep nv N D st = (false, { st with tE := N / D, normal1 := nv }) := by
  simp only [clipStep, if_pos hD, gt_iff_lt, if_pos ht, if_pos hl]

theorem clipStep_enter_keep (nv : Coord K) (N D : K) (st : ClipState K) (hD : D < 0)
    (ht : ¬ st.tE < N / D) : clipStep nv N D st = (true, st) := by
  simp only [clipStep, if_pos hD, gt_iff_lt, if_neg ht]

theorem clipStep_leave_update (nv : Coord K) (N D : K) (st : ClipState K) (hD : 0 < D)
    (ht : N / D < st.tL) (he : ¬ N / D < st.tE) :
    clipStep nv N D st = (true, { st with tL := N / D, normal2 := nv }) := by
  simp only [clipStep, if_neg (not_lt.mpr hD.le), gt_iff_lt, if_pos hD, if_pos ht, if_neg he]

theorem clipStep_leave_reject (nv : Coord K) (N D : K) (st : ClipState K) (hD : 0 < D)
    (ht : N / D < st.tL) (he : N / D < st.tE) :
    clipStep nv N D st = (false, { st with tL := N / D, normal2 := nv }) := by
  simp only [clipStep, if_neg (not_lt.mpr hD.le), gt_iff_lt, if_pos hD, if_pos ht, if_pos he]

theorem clipStep_leave_keep (nv : Coord K) (N D : K) (st : ClipState K) (hD : 0 < D)
    (ht : ¬ N / D < st.tL) : clipStep nv N D st = (true, st) := by
  simp only [clipStep, if_neg (not_lt.mpr hD.le), gt_iff_lt, if_pos hD, if_neg ht]

theorem clipStep_parallel_reject (nv : Coord K) (N D : K) (st : ClipState K) (hD : D = 0)
    (hN : N < 0) : clipStep nv N D st = (false, st) := by
  subst hD
  simp only [clipStep, lt_irrefl, if_false, gt_iff_lt, if_pos hN]

theorem clipStep_parallel_keep (nv : Coord K) (N D : K) (st : ClipState K) (hD : D = 0)
    (hN : ¬ N < 0) : clipStep nv N D st = (true, st) := by
  subst hD
  simp only [clipStep, lt_irrefl, if_false, gt_iff_lt, if_neg hN]

theorem clipEdge_none (sqrt : K → K) (p : Polygon K) (p0 d : Coord K) (i : Nat)
    (st : ClipState K) (hn : p.edgeNormal sqrt i = none) :
    clipEdge sqrt p p0 d i st = (true, st) := by
  simp only [clipEdge, hn]

theorem clipEdge_some (sqrt : K → K) (p : Polygon K) (p0 d : Coord K) (i : Nat)
    (st : ClipState K) (nv : Coord K) (hn : p.edgeNormal sqrt i = some nv) :
    clipEdge sqrt p p0 d i st = clipStep nv (nv.dot ((p.point i).sub p0)) (nv.dot d) st := by
  simp only [clipEdge, hn]

theorem isEntering_edge (sqrt : K → K) (p : Polygon K) (p0 d : Coord K) (i : Nat) (t : K)
    (nv nv0 : Coord K) (hn : p.edgeNormal sqrt i = some nv)
    (h : p.IsEntering sqrt p0 d i t nv0) :
    nv0 = nv ∧ nv.dot d < 0 ∧ nv.dot ((p.point i).sub p0) / nv.dot d = t := by
  obtain ⟨h1, h2, h3⟩ := h
  rw [hn] at h1
  cases h1
  exact ⟨rfl, h2, h3⟩

theorem isLeaving_edge (sqrt : K → K) (p : Polygon K) (p0 d : Coord K) (i : Nat) (t : K)
    (nv nv0 : Coord K) (hn : p.edgeNormal sqrt i = some nv)
    (h : p.IsLeaving sqrt p0 d i t nv0) :
    nv0 = nv ∧ 0 < nv.dot d ∧ nv.dot ((p.point i).sub p0) / nv.dot d = t := by
  obtain ⟨h1, h2, h3⟩ := h
  rw [hn] at h1
  cases h1
  exact ⟨rfl, h2, h3⟩

/-- One iteration that does not return keeps the loop invariant. -/
theorem clipInv_clipEdge (sqrt : K → K) (p : Polygon K) (p0 d : Coord K) (i : Nat)
    (st : ClipState K) (hinv : p.ClipInv sqrt p0 d i st)
    (hok : (clipEdge sqrt p p0 d i st).1 = true) :
    p.ClipInv sqrt p0 d (i + 1) (clipEdge sqrt p p0 d i st).2 := by
  obtain ⟨h0, hEL, hL1, hE, hEmax, hL, hLmin, hpar⟩ := hinv
  have hE1 : st.tE ≠ 0 → ∃ j, j < i + 1 ∧ p.IsEntering sqrt p0 d j st.tE st.normal1 ∧
      ∀ j0, j0 < j → ∀ nv, ¬ p.IsEntering sqrt p0 d j0 st.tE nv := by
    intro h
    obtain ⟨j, hj, hr⟩ := hE h
    exact ⟨j, Nat.lt_succ_of_lt hj, hr⟩
  have hL2 : st.tL ≠ 1 → ∃ j, j < i + 1 ∧ p.IsLeaving sqrt p0 d j st.tL st.normal2 ∧
      ∀ j0, j0 < j → ∀ nv, ¬ p.IsLeaving sqrt p0 d j0 st.tL nv := by
    intro h
    obtain ⟨j, hj, hr⟩ := hL h
    exact ⟨j, Nat.lt_succ_of_lt hj, hr⟩
  cases hn : p.edgeNormal sqrt i with
  | none =>
    rw [clipEdge_none sqrt p p0 d i st hn]
    refine ⟨h0, hEL, hL1, hE1, ?_, hL2, ?_, ?_⟩
    · intro j hj t nv hent
      rcases Nat.lt_succ_iff_lt_or_eq.mp hj with hj | rfl
      · exact hEmax j hj t nv hent
      · have h1 := hent.1
        rw [hn] at h1
        cases h1
    · intro j hj t nv hlea
      rcases Nat.lt_succ_iff_lt_or_eq.mp hj with hj | rfl
      · exact hLmin j hj t nv hlea
      · have h1 := hlea.1
        rw [hn] at h1
        cases h1
    · intro j hj nv hnv hD
      rcases Nat.lt_succ_iff_lt_or_eq.mp hj with hj | rfl
      · exact hpar j hj nv hnv hD
      · rw [hn] at hnv
        cases hnv
  | some nv =>
    rw [clipEdge_some sqrt p p0 d i st nv hn] at hok ⊢
    have hentI := isEntering_edge sqrt p p0 d i
    have hleaI := isLeaving_edge sqrt p p0 d i
    rcases lt_trichotomy (nv.dot d) 0 with hD | hD | hD
    · by_cases ht : st.tE < nv.dot ((p.point i).sub p0) / nv.dot d
      · by_cases hl : st.tL < nv.dot ((p.point i).sub p0) / nv.dot d
        · rw [clipStep_enter_reject nv _ _ st hD ht hl] at hok
          cases hok
        · rw [clipStep_enter_update nv _ _ st hD ht hl]
          refine ⟨le_of_lt (lt_of_le_of_lt h0 ht), not_lt.mp hl, hL1, ?_, ?_, hL2, ?_, ?_⟩
          · intro _
            refine ⟨i, Nat.lt_succ_self i, ⟨hn, hD, rfl⟩, ?_⟩
            intro j0 hj0 nv0 hent
            exact absurd (hEmax j0 hj0 _ nv0 hent) (not_le.mpr ht)
          · intro j hj t nv0 hent
            rcases Nat.lt_succ_iff_lt_or_eq.mp hj with hj | rfl
            · exact le_trans (hEmax j hj t nv0 hent) (le_of_lt ht)
            · exact le_of_eq (hentI t nv nv0 hn hent).2.2.symm
          · intro j hj t nv0 hlea
            rcases Nat.lt_succ_iff_lt_or_eq.mp hj with hj | rfl
            · exact hLmin j hj t nv0 hlea
            · exact absurd (hleaI t nv nv0 hn hlea).2.1 (not_lt.mpr hD.le)
          · intro j hj nv0 hnv h0D
            rcases Nat.lt_succ_iff_lt_or_eq.mp hj with hj | rfl
            · exact hpar j hj nv0 hnv h0D
            · rw [hn] at hnv
              cases hnv
              exact absurd h0D hD.ne
      · rw [clipStep_enter_keep nv _ _ st hD ht]
        refine ⟨h0, hEL, hL1, hE1, ?_, hL2, ?_, ?_⟩
        · intro j hj t nv0 hent
          rcases Nat.lt_succ_iff_lt_or_eq.mp hj with hj | rfl
          · exact hEmax j hj t nv0 hent
          · rw [← (hentI t nv nv0 hn hent).2.2]
            exact not_lt.mp ht
        · intro j hj t nv0 hlea
          rcases Nat.lt_succ_iff_lt_or_eq.mp hj with hj | rfl
          · exact hLmin j hj t nv0 hlea
          · exact absurd (hleaI t nv nv0 hn hlea).2.1 (not_lt.mpr hD.le)
        · intro j hj nv0 hnv h0D
          rcases Nat.lt_succ_iff_lt_or_eq.mp hj with hj | rfl
          · exact hpar j hj nv0 hnv h0D
          · rw [hn] at hnv
            cases hnv
            exact absurd h0D hD.ne
    · by_cases hN : nv.dot ((p.point i).sub p0) < 0
      · rw [clipStep_parallel_reject nv _ _ st hD hN] at hok
        cases hok
      · rw [clipStep_parallel_keep nv _ _ st hD hN]
        refine ⟨h0, hEL, hL1, hE1, ?_, hL2, ?_, ?_⟩
        · intro j hj t nv0 hent
          rcases Nat.lt_succ_iff_lt_or_eq.mp hj with hj | rfl
          · exact hEmax j hj t nv0 hent
          · exact absurd (hentI t nv nv0 hn hent).2.1 (by rw [hD]; exact lt_irrefl 0)
        · intro j hj t nv0 hlea
          rcases Nat.lt_succ_iff_lt_or_eq.mp hj with hj | rfl
          · exact hLmin j hj t nv0 hlea
          · exact absurd (hleaI t nv nv0 hn hlea).2.1 (by rw [hD]; exact lt_irrefl 0)
        · intro j hj nv0 hnv h0D
          rcases Nat.lt_succ_iff_lt_or_eq.mp hj with hj | rfl
          · exact hpar j hj nv0 hnv h0D
          · rw [hn] at hnv
            cases hnv
            exact not_lt.mp hN
    · by_cases ht : nv.dot ((p.point i).sub p0) / nv.dot d < st.tL
      · by_cases he : nv.dot ((p.point i).sub p0) / nv.dot d < st.tE
        · rw [clipStep_leave_reject nv _ _ st hD ht he] at hok
          cases hok
        · rw [clipStep_leave_update nv _ _ st hD ht he]
          refine ⟨h0, not_lt.mp he, le_trans (le_of_lt ht) hL1, hE1, ?_, ?_, ?_, ?_⟩
          · intro j hj t nv0 hent
            rcases Nat.lt_succ_iff_lt_or_eq.mp hj with hj | rfl
            · exact hEmax j hj t nv0 hent
            · exact absurd (hentI t nv nv0 hn hent).2.1 (not_lt.mpr hD.le)
          · intro _
            refine ⟨i, Nat.lt_succ_self i, ⟨hn, hD, rfl⟩, ?_⟩
            intro j0 hj0 nv0 hlea
            exact absurd (hLmin j0 hj0 _ nv0 hlea) (not_le.mpr ht)
          · intro j hj t nv0 hlea
            rcases Nat.lt_succ_iff_lt_or_eq.mp hj with hj | rfl
            · exact le_trans (le_of_lt ht) (hLmin j hj t nv0 hlea)
            · exact le_of_eq (hleaI t nv nv0 hn hlea).2.2
          · intro j hj nv0 hnv h0D
            rcases Nat.lt_succ_iff_lt_or_eq.mp hj with hj | rfl
            · exact hpar j hj nv0 hnv h0D
            · rw [hn] at hnv
              cases hnv
              exact absurd h0D hD.ne'
      · rw [clipStep_leave_keep nv _ _ st hD ht]
        refine ⟨h0, hEL, hL1, hE1, ?_, hL2, ?_, ?_⟩
        · intro j hj t nv0 hent
          rcases Nat.lt_succ_iff_lt_or_eq.mp hj with hj | rfl
          · exact hEmax j hj t nv0 hent
          · exact absurd (hentI t nv nv0 hn hent).2.1 (not_lt.mpr hD.le)
        · intro j hj t nv0 hlea
          rcases Nat.lt_succ_iff_lt_or_eq.mp hj with hj | rfl
          · exact hLmin j hj t nv0 hlea
          · rw [← (hleaI t nv nv0 hn hlea).2.2]
            exact not_lt.mp ht
        · intro j hj nv0 hnv h0D
          rcases Nat.lt_succ_iff_lt_or_eq.mp hj with hj | rfl
          · exact hpar j hj nv0 hnv h0D
          · rw [hn] at hnv
            cases hnv
            exact absurd h0D hD.ne'

/-- A loop that runs to its end keeps the loop invariant. -/
theorem clipInv_clipLoop (sqrt : K → K) (p : Polygon K) (p0 d : Coord K) (count : Nat) :
    ∀ (i : Nat) (st : ClipState K), p.ClipInv sqrt p0 d i st →
      (clipLoop sqrt p p0 d count i st).1 = true →
      p.ClipInv sqrt p0 d (i + count) (clipLoop sqrt p p0 d count i st).2 := by
  induction count with
  | zero =>
    intro i st hinv _
    exact hinv
  | succ count ih =>
    intro i st hinv hok
    have hstep := clipInv_clipEdge sqrt p p0 d i st hinv
    rw [clipLoop] at hok ⊢
    cases hce : clipEdge sqrt p p0 d i st with
    | mk ok st1 =>
      rw [hce] at hok hstep
      cases ok with
      | false => cases hok
      | true =>
        have h2 := ih (i + 1) st1 (hstep rfl) hok
        rw [show i + (count + 1) = i + 1 + count by omega]
        exact h2

/-- The loop invariant holds before the first iteration. -/
theorem clipInv_init (sqrt : K → K) (p : Polygon K) (p0 d : Coord K) (n1 n2 : Coord K) :
    p.ClipInv sqrt p0 d 0 { tE := 0, tL := 1, normal1 := n1, normal2 := n2 } := by
  refine ⟨le_refl 0, zero_le_one, le_refl 1, fun h => absurd rfl h, ?_, fun h => absurd rfl h,
    ?_, ?_⟩
  · intro j hj
    exact absurd hj (Nat.not_lt_zero j)
  · intro j hj
    exact absurd hj (Nat.not_lt_zero j)
  · intro j hj
    exact absurd hj (Nat.not_lt_zero j)

/-- When `computeIntersection` returns true the loop ran to its end, the invariant holds
for all edges, and the outputs are computed from the final loop variables. -/
theorem clipInv_of_result (sqrt : K → K) (p : Polygon K) (seg : LineSegment K)
    (i1 i2 n1 n2 : Coord K)
    (h : (p.computeIntersection sqrt seg i1 i2 n1 n2).result = true) :
    (p.clip sqrt seg n1 n2).1 = true ∧
    p.ClipInv sqrt seg.point1 (seg.point2.sub seg.point1) p.points.length
      (p.clip sqrt seg n1 n2).2 ∧
    p.computeIntersection sqrt seg i1 i2 n1 n2 =
      { result := true,
        intersection1 :=
          seg.point1.add ((seg.point2.sub seg.point1).scale (p.clip sqrt seg n1 n2).2.tE),
        intersection2 :=
          seg.point1.add ((seg.point2.sub seg.point1).scale (p.clip sqrt seg n1 n2).2.tL),
        normal1 :=
          if (p.clip sqrt seg n1 n2).2.tE = 0 then Coord.zero
          else (p.clip sqrt seg n1 n2).2.normal1,
        normal2 :=
          if (p.clip sqrt seg n1 n2).2.tL = 1 then Coord.zero
          else (p.clip sqrt seg n1 n2).2.normal2 } := by
  cases hc : p.clip sqrt seg n1 n2 with
  | mk ok st =>
    cases ok with
    | false =>
      simp only [computeIntersection, hc] at h
      cases h
    | true =>
      refine ⟨rfl, ?_, ?_⟩
      · have h2 := clipInv_clipLoop sqrt p seg.point1 (seg.point2.sub seg.point1)
          p.points.length 0 _ (clipInv_init sqrt p _ _ n1 n2)
        unfold clip at hc
        rw [hc, Nat.zero_add] at h2
        exact h2 rfl
      · simp only [computeIntersection, hc]

/-- C13: in every ordered field, so over the real numbers, if `computeIntersection`
returns true then the clip parameters at the end of its loop satisfy
`0 <= tE <= tL <= 1`, and the outputs are `intersection1 = p0 + (p1 - p0) * tE` and
`intersection2 = p0 + (p1 - p0) * tL`: both lie on the segment. -/
theorem computeIntersection_parameters (sqrt : K → K) (p : Polygon K) (seg : LineSegment K)
    (i1 i2 n1 n2 : Coord K)
    (h : (p.computeIntersection sqrt seg i1 i2 n1 n2).result = true) :
    0 ≤ (p.clip sqrt seg n1 n2).2.tE ∧
    (p.clip sqrt seg n1 n2).2.tE ≤ (p.clip sqrt seg n1 n2).2.tL ∧
    (p.clip sqrt seg n1 n2).2.tL ≤ 1 ∧
    (p.computeIntersection sqrt seg i1 i2 n1 n2).intersection1 =
      seg.point1.add ((seg.point2.sub seg.point1).scale (p.clip sqrt seg n1 n2).2.tE) ∧
    (p.computeIntersection sqrt seg i1 i2 n1 n2).intersection2 =
      seg.point1.add ((seg.point2.sub seg.point1).scale (p.clip sqrt seg n1 n2).2.tL) := by
  obtain ⟨_, hinv, hout⟩ := clipInv_of_result sqrt p seg i1 i2 n1 n2 h
  refine ⟨hinv.1, hinv.2.1, hinv.2.2.1, ?_, ?_⟩
  · rw [hout]
  · rw [hout]

/-- Witness for C13: the square in the plane `z = 0` and the segment from `(2,2,0)` to
`(6,2,0)`, over the real numbers. -/
theorem computeIntersection_parameters_witness :
    ((square : Polygon ℝ).computeIntersection Real.sqrt LineSegment.crossing
      Coord.zero Coord.zero Coord.zero Coord.zero).result = true ∧
    (0 : ℝ) ≤ ((square : Polygon ℝ).clip Real.sqrt LineSegment.crossing
      Coord.zero Coord.zero).2.tE ∧
    ((square : Polygon ℝ).clip Real.sqrt LineSegment.crossing Coord.zero Coord.zero).2.tL ≤ 1 :=
  ⟨by simp only [computeIntersection, square_clip],
    (computeIntersection_parameters Real.sqrt square LineSegment.crossing Coord.zero Coord.zero
      Coord.zero Coord.zero (by simp only [computeIntersection, square_clip])).1,
    (computeIntersection_parameters Real.sqrt square LineSegment.crossing Coord.zero Coord.zero
      Coord.zero Coord.zero (by simp only [computeIntersection, square_clip])).2.2.1⟩

/-- C15: in every ordered field, whenever `computeIntersection` returns true, `normal1`
is the zero vector if `tE = 0`, and otherwise is the edge normal of the lowest-index edge
`i` with `D_i < 0` and `N_i / D_i = tE`; `normal2` is the zero vector if `tL = 1`, and
otherwise is the edge normal of the lowest-index edge `i` with `D_i > 0` and
`N_i / D_i = tL`. -/
theorem computeIntersection_normals (sqrt : K → K) (p : Polygon K) (seg : LineSegment K)
    (i1 i2 n1 n2 : Coord K)
    (h : (p.computeIntersection sqrt seg i1 i2 n1 n2).result = true) :
    ((p.clip sqrt seg n1 n2).2.tE = 0 →
      (p.computeIntersection sqrt seg i1 i2 n1 n2).normal1 = Coord.zero) ∧
    ((p.clip sqrt seg n1 n2).2.tE ≠ 0 →
      ∃ i, i < p.points.length ∧
        p.IsEntering sqrt seg.point1 (seg.point2.sub seg.point1) i
          (p.clip sqrt seg n1 n2).2.tE (p.computeIntersection sqrt seg i1 i2 n1 n2).normal1 ∧
        ∀ j, j < i → ∀ nv, ¬ p.IsEntering sqrt seg.point1 (seg.point2.sub seg.point1) j
          (p.clip sqrt seg n1 n2).2.tE nv) ∧
    ((p.clip sqrt seg n1 n2).2.tL = 1 →
      (p.computeIntersection sqrt seg i1 i2 n1 n2).normal2 = Coord.zero) ∧
    ((p.clip sqrt seg n1 n2).2.tL ≠ 1 →
      ∃ i, i < p.points.length ∧
        p.IsLeaving sqrt seg.point1 (seg.point2.sub seg.point1) i
          (p.clip sqrt seg n1 n2).2.tL (p.computeIntersection sqrt seg i1 i2 n1 n2).normal2 ∧
        ∀ j, j < i → ∀ nv, ¬ p.IsLeaving sqrt seg.point1 (seg.point2.sub seg.point1) j
          (p.clip sqrt seg n1 n2).2.tL nv) := by
  obtain ⟨_, hinv, hout⟩ := clipInv_of_result sqrt p seg i1 i2 n1 n2 h
  obtain ⟨_, _, _, hE, _, hL, _, _⟩ := hinv
  refine ⟨?_, ?_, ?_, ?_⟩
  · intro h0
    rw [hout]
    exact if_pos h0
  · intro h0
    rw [hout]
    simp only [if_neg h0]
    exact hE h0
  · intro h1
    rw [hout]
    exact if_pos h1
  · intro h1
    rw [hout]
    simp only [if_neg h1]
    exact hL h1

/-- Witness for C15: the square in the plane `z = 0` and the segment from `(2,2,0)` to
`(6,2,0)`, over the real numbers, where the segment starts inside (`tE = 0`, so `normal1`
is the zero vector) and leaves through an edge (`tL = 1/2`, so `normal2` is the normal of
the lowest-index leaving edge with that parameter). -/
theorem computeIntersection_normals_witness :
    ((square : Polygon ℝ).computeIntersection Real.sqrt LineSegment.crossing
      Coord.zero Coord.zero Coord.zero Coord.zero).result = true ∧
    ((square : Polygon ℝ).computeIntersection Real.sqrt LineSegment.crossing
      Coord.zero Coord.zero Coord.zero Coord.zero).normal1 = Coord.zero ∧
    ∃ i, i < (square : Polygon ℝ).points.length ∧
      (square : Polygon ℝ).IsLeaving Real.sqrt LineSegment.crossing.point1
        (LineSegment.crossing.point2.sub LineSegment.crossing.point1) i
        ((square : Polygon ℝ).clip Real.sqrt LineSegment.crossing Coord.zero Coord.zero).2.tL
        ((square : Polygon ℝ).computeIntersection Real.sqrt LineSegment.crossing
          Coord.zero Coord.zero Coord.zero Coord.zero).normal2 ∧
      ∀ j, j < i → ∀ nv, ¬ (square : Polygon ℝ).IsLeaving Real.sqrt LineSegment.crossing.point1
        (LineSegment.crossing.point2.sub LineSegment.crossing.point1) j
        ((square : Polygon ℝ).clip Real.sqrt LineSegment.crossing Coord.zero Coord.zero).2.tL nv :=
  ⟨by simp only [computeIntersection, square_clip],
    (computeIntersection_normals Real.sqrt square LineSegment.crossing Coord.zero Coord.zero
      Coord.zero Coord.zero (by simp only [computeIntersection, square_clip])).1
      (by rw [square_clip]),
    (computeIntersection_normals Real.sqrt square LineSegment.crossing Coord.zero Coord.zero
      Coord.zero Coord.zero (by simp only [computeIntersection, square_clip])).2.2.2
      (by rw [square_clip]; norm_num)⟩

end ClipLoop

end Polygon

/-! ## Materials: propagation speed of air and the loss tangent -/

namespace Material

theorem air_propagationSpeed_eq :
    (air : Material ℝ).getPropagationSpeed Real.sqrt =
      some (SPEED_OF_LIGHT / Real.sqrt (1.00058986 * 1.00000037)) := by
  have hpos : (0 : ℝ) < 1.00058986 * 1.00000037 := by norm_num
  have hn : (air : Material ℝ).getRefractiveIndex Real.sqrt =
      some (Real.sqrt (1.00058986 * 1.00000037)) := by
    simp only [getRefractiveIndex, air]
    rw [if_neg (by norm_num)]
  simp only [getPropagationSpeed, hn]
  rw [if_neg (Real.sqrt_pos.mpr hpos).ne']

theorem air_speed_bounds :
    (299704023 : ℝ) ≤ SPEED_OF_LIGHT / Real.sqrt (1.00058986 * 1.00000037) ∧
    SPEED_OF_LIGHT / Real.sqrt (1.00058986 * 1.00000037) ≤ (299704024 : ℝ) := by
  have hpos : (0 : ℝ) < 1.00058986 * 1.00000037 := by norm_num
  have hs := Real.sqrt_pos.mpr hpos
  constructor
  · rw [le_div_iff₀ hs]
    have h1 : Real.sqrt (1.00058986 * 1.00000037) ≤ SPEED_OF_LIGHT / 299704023 := by
      apply Real.sqrt_le_iff.mpr
      refine ⟨by unfold SPEED_OF_LIGHT; norm_num, ?_⟩
      unfold SPEED_OF_LIGHT
      norm_num
    calc (299704023 : ℝ) * Real.sqrt (1.00058986 * 1.00000037)
        ≤ 299704023 * (SPEED_OF_LIGHT / 299704023) :=
          mul_le_mul_of_nonneg_left h1 (by norm_num)
      _ = SPEED_OF_LIGHT := by field_simp
  · rw [div_le_iff₀ hs]
    have h1 : SPEED_OF_LIGHT / 299704024 ≤ Real.sqrt (1.00058986 * 1.00000037) := by
      apply Real.le_sqrt_of_sq_le
      unfold SPEED_OF_LIGHT
      norm_num
    calc (SPEED_OF_LIGHT : ℝ) = 299704024 * (SPEED_OF_LIGHT / 299704024) := by field_simp
      _ ≤ 299704024 * Real.sqrt (1.00058986 * 1.00000037) :=
          mul_le_mul_of_nonneg_left h1 (by norm_num)

/-- C21 as stated fails: the propagation speed of the catalog material air, over the real
numbers, is not within 1 m/s of 299 703 841 m/s. -/
theorem air_propagationSpeed_not_near_stated :
    ∃ v : ℝ, (air : Material ℝ).getPropagationSpeed Real.sqrt = some v ∧
      ¬ |v - 299703841| ≤ 1 := by
  refine ⟨_, air_propagationSpeed_eq, ?_⟩
  have h := air_speed_bounds.1
  rw [abs_le]
  intro hc
  linarith [hc.2]

/-- C21, amended: the propagation speed of the catalog material air,
`c / sqrt(1.00058986 * 1.00000037)` with `c = 299 792 458` m/s, is within 1 m/s of
299 704 024 m/s (it lies between 299 704 023 and 299 704 024). -/
theorem air_propagationSpeed :
    ∃ v : ℝ, (air : Material ℝ).getPropagationSpeed Real.sqrt = some v ∧
      v = 299792458 / Real.sqrt (1.00058986 * 1.00000037) ∧
      |v - 299704024| ≤ 1 ∧ 299704023 ≤ v ∧ v ≤ 299704024 := by
  refine ⟨_, air_propagationSpeed_eq, rfl, ?_, air_speed_bounds.1, air_speed_bounds.2⟩
  rw [abs_le]
  constructor <;> linarith [air_speed_bounds.1, air_speed_bounds.2]

/-- C22: for a material with resistivity `rho > 0` and relative permittivity `eps > 0`,
a frequency `f > 0` and a positive vacuum permittivity `e0`, over the real numbers,
`getDielectricLossTangent(f)` is `1 / (2 * pi * f * rho * eps * e0)`; it is positive, and
doubling the frequency halves it. -/
theorem dielectricLossTangent_spec (m : Material ℝ) (rho eps f e0 : ℝ)
    (hr : m.resistivity = some rho) (he : m.relativePermittivity = some eps)
    (hrho : 0 < rho) (heps : 0 < eps) (hf : 0 < f) (he0 : 0 < e0) :
    m.getDielectricLossTangent Real.pi e0 f = some (1 / (2 * Real.pi * f * rho * eps * e0)) ∧
    0 < 1 / (2 * Real.pi * f * rho * eps * e0) ∧
    m.getDielectricLossTangent Real.pi e0 (2 * f) =
      some (1 / (2 * Real.pi * f * rho * eps * e0) / 2) ∧
    (∀ c : ℝ, 0 < c → m.getDielectricLossTangent Real.pi e0 (c * f) =
      some (1 / (2 * Real.pi * f * rho * eps * e0) / c)) := by
  have hpi := Real.pi_pos
  have key : ∀ g : ℝ, 0 < g → m.getDielectricLossTangent Real.pi e0 g =
      some (1 / (2 * Real.pi * g * rho * eps * e0)) := by
    intro g hg
    have hd : 0 < 2 * Real.pi * g * rho * eps * e0 := by positivity
    simp only [getDielectricLossTangent, hr, he]
    rw [if_neg hd.ne']
  have hd : 0 < 2 * Real.pi * f * rho * eps * e0 := by positivity
  have hscale : ∀ c : ℝ, 0 < c → m.getDielectricLossTangent Real.pi e0 (c * f) =
      some (1 / (2 * Real.pi * f * rho * eps * e0) / c) := by
    intro c hc
    rw [key (c * f) (by positivity)]
    congr 1
    field_simp
    ring
  exact ⟨key f hf, by positivity, hscale 2 (by norm_num), hscale⟩

/-- Witness for C22: the catalog material brick (resistivity 3000, relative permittivity
4.5) at 2.4 GHz with `e0 = 8.854187817e-12`. -/
theorem dielectricLossTangent_spec_witness :
    (brick : Material ℝ).getDielectricLossTangent Real.pi 8.854187817e-12 2.4e9 =
      some (1 / (2 * Real.pi * 2.4e9 * 3E+3 * 4.5 * 8.854187817e-12)) ∧
    (0 : ℝ) < 1 / (2 * Real.pi * 2.4e9 * 3E+3 * 4.5 * 8.854187817e-12) :=
  ⟨(dielectricLossTangent_spec brick 3E+3 4.5 2.4e9 8.854187817e-12 rfl rfl
      (by norm_num) (by norm_num) (by norm_num) (by norm_num)).1,
    (dielectricLossTangent_spec brick 3E+3 4.5 2.4e9 8.854187817e-12 rfl rfl
      (by norm_num) (by norm_num) (by norm_num) (by norm_num)).2.1⟩

end Material

/-! ## The edge normal of a polygon off the origin -/

namespace Polygon

section EdgeNormal

variable {K : Type} [LinearOrderedField K]

theorem getEdgeOutwardNormalVector_some (sqrt : K → K) (p : Polygon K) (n P1 P2 : Coord K)
    (hn : p.getNormalUnitVector sqrt = some n) :
    p.getEdgeOutwardNormalVector sqrt P1 P2 =
      some ((((P1.sub n).cross (P2.sub n))).sub
        (n.scale (((P1.sub n).cross (P2.sub n)).dot n))) := by
  simp only [getEdgeOutwardNormalVector, hn, Coord.cross]

/-- The value of `getEdgeOutwardNormalVector` for a unit normal `n` and two points at the
same offset `h` along `n`. -/
theorem edgeOutwardNormal_eq_scale (n P1 P2 : Coord K) (h : K) (hunit : n.dot n = 1)
    (h1 : n.dot P1 = h) (h2 : n.dot P2 = h) :
    (((P1.sub n).cross (P2.sub n))).sub (n.scale (((P1.sub n).cross (P2.sub n)).dot n)) =
      ((P2.sub P1).cross n).scale (1 - h) := by
  obtain ⟨nx, ny, nz⟩ := n
  obtain ⟨ax, ay, az⟩ := P1
  obtain ⟨bx, se, bz⟩ := P2
  simp only [Coord.dot] at hunit h1 h2
  simp only [Coord.sub, Coord.cross, Coord.scale, Coord.dot, Coord.mk.injEq]
  refine ⟨?_, ?_, ?_⟩
  · linear_combination (-(ay * bz - az * se)) * hunit + (ny * bz - nz * se) * h1 -
      (ny * az - nz * ay) * h2
  · linear_combination (-(az * bx - ax * bz)) * hunit + (nz * bx - nx * bz) * h1 -
      (nz * ax - nx * az) * h2
  · linear_combination (-(ax * se - ay * bx)) * hunit + (nx * se - ny * bx) * h1 -
      (nx * ay - ny * ax) * h2

theorem scale_one (v : Coord K) : v.scale 1 = v := by
  obtain ⟨x, y, z⟩ := v
  simp only [Coord.scale, mul_one]

theorem scale_zero (v : Coord K) : v.scale 0 = Coord.zero := by
  obtain ⟨x, y, z⟩ := v
  simp only [Coord.scale, mul_zero, Coord.zero]

theorem scale_eq_self_iff (v : Coord K) (c : K) (hv : v ≠ Coord.zero) (h : v.scale c = v) :
    c = 1 := by
  obtain ⟨x, y, z⟩ := v
  simp only [Coord.scale, Coord.mk.injEq] at h
  by_contra hc
  apply hv
  have hc1 : c - 1 ≠ 0 := sub_ne_zero.mpr hc
  have hx : x * (c - 1) = 0 := by linear_combination h.1
  have hy : y * (c - 1) = 0 := by linear_combination h.2.1
  have hz : z * (c - 1) = 0 := by linear_combination h.2.2
  simp only [Coord.zero, Coord.mk.injEq]
  exact ⟨(mul_eq_zero.mp hx).resolve_right hc1, (mul_eq_zero.mp hy).resolve_right hc1,
    (mul_eq_zero.mp hz).resolve_right hc1⟩

/-- C30, amended: for the unit vector `n = getNormalUnitVector()` and two edge points `P1`,
`P2` at the same signed offset `h = n . P1 = n . P2` along `n`, in every ordered field,
`getEdgeOutwardNormalVector(P1, P2) = (1 - h) * ((P2 - P1) x n)`. It is the edge vector
crossed with the plane normal when `h = 0`, and only then unless that cross product is
zero; it is the zero vector when `h = 1`; it is a negative multiple of the cross product
when `h > 1`. -/
theorem getEdgeOutwardNormalVector_offset (sqrt : K → K) (p : Polygon K) (n P1 P2 : Coord K)
    (h : K) (hn : p.getNormalUnitVector sqrt = some n) (hunit : n.dot n = 1)
    (h1 : n.dot P1 = h) (h2 : n.dot P2 = h) :
    p.getEdgeOutwardNormalVector sqrt P1 P2 = some (((P2.sub P1).cross n).scale (1 - h)) ∧
    (h = 0 → p.getEdgeOutwardNormalVector sqrt P1 P2 = some ((P2.sub P1).cross n)) ∧
    ((P2.sub P1).cross n ≠ Coord.zero →
      p.getEdgeOutwardNormalVector sqrt P1 P2 = some ((P2.sub P1).cross n) → h = 0) ∧
    (h = 1 → p.getEdgeOutwardNormalVector sqrt P1 P2 = some Coord.zero) ∧
    (1 < h → ∃ c, c < 0 ∧
      p.getEdgeOutwardNormalVector sqrt P1 P2 = some (((P2.sub P1).cross n).scale c)) := by
  have key : p.getEdgeOutwardNormalVector sqrt P1 P2 =
      some (((P2.sub P1).cross n).scale (1 - h)) := by
    rw [getEdgeOutwardNormalVector_some sqrt p n P1 P2 hn,
      edgeOutwardNormal_eq_scale n P1 P2 h hunit h1 h2]
  refine ⟨key, ?_, ?_, ?_, ?_⟩
  · intro h0
    rw [key, h0, sub_zero, scale_one]
  · intro hne heq
    rw [key] at heq
    have h3 := scale_eq_self_iff _ _ hne (Option.some.inj heq)
    linear_combination -h3
  · intro h0
    rw [key, h0, sub_self, scale_zero]
  · intro hgt
    exact ⟨1 - h, by linarith, key⟩

/-- Witness for C30, amended: the square in the plane `z = 1` over the real numbers, with
unit normal `(0,0,1)` and the edge from `(0,0,1)` to `(4,0,1)` at offset `h = 1`. -/
theorem getEdgeOutwardNormalVector_offset_witness :
    (raisedSquare : Polygon ℝ).getEdgeOutwardNormalVector Real.sqrt ⟨0, 0, 1⟩ ⟨4, 0, 1⟩ =
      some ((((⟨4, 0, 1⟩ : Coord ℝ).sub ⟨0, 0, 1⟩).cross ⟨0, 0, 1⟩).scale (1 - 1)) :=
  (getEdgeOutwardNormalVector_offset Real.sqrt raisedSquare ⟨0, 0, 1⟩ ⟨0, 0, 1⟩ ⟨4, 0, 1⟩ 1
    raisedSquare_normal (by simp [Coord.dot]) (by simp [Coord.dot]) (by simp [Coord.dot])).1

end EdgeNormal

end Polygon

/-! ## Soundness and completeness of the clipping -/

namespace Polygon

section Clipping

variable {K : Type} [LinearOrderedField K]

theorem dot_point_on_segment (nv p0 d P : Coord K) (t : K) :
    nv.dot ((p0.add (d.scale t)).sub P) = nv.dot d * t - nv.dot (P.sub p0) := by
  obtain ⟨nx, ny, nz⟩ := nv
  obtain ⟨ax, ay, az⟩ := p0
  obtain ⟨dx, dy, dz⟩ := d
  obtain ⟨bx, se, bz⟩ := P
  simp only [Coord.dot, Coord.add, Coord.sub, Coord.scale]
  ring

theorem param_ge_of_entering (N D t : K) (hD : D < 0) (h : D * t - N ≤ 0) : N / D ≤ t := by
  rw [div_le_iff_of_neg hD]
  linarith

theorem param_le_of_leaving (N D t : K) (hD : 0 < D) (h : D * t - N ≤ 0) : t ≤ N / D := by
  rw [le_div_iff₀ hD]
  linarith

/-- Within the final clip interval every point of the segment is in every half-space. -/
theorem inHalfSpaces_of_clipInv (sqrt : K → K) (p : Polygon K) (p0 d : Coord K)
    (st : ClipState K) (hinv : p.ClipInv sqrt p0 d p.points.length st) (t : K)
    (h1 : st.tE ≤ t) (h2 : t ≤ st.tL) : p.InHalfSpaces sqrt (p0.add (d.scale t)) := by
  obtain ⟨_, _, _, _, hEmax, _, hLmin, hpar⟩ := hinv
  intro i hi nv hn
  rw [dot_point_on_segment]
  rcases lt_trichotomy (nv.dot d) 0 with hD | hD | hD
  · have h3 := le_trans (hEmax i hi _ nv ⟨hn, hD, rfl⟩) h1
    rw [div_le_iff_of_neg hD] at h3
    linarith
  · have h3 := hpar i hi nv hn hD
    rw [hD]
    linarith
  · have h3 := le_trans h2 (hLmin i hi _ nv ⟨hn, hD, rfl⟩)
    rw [le_div_iff₀ hD] at h3
    linarith

/-- An iteration that returns false leaves no parameter in `[0,1]` whose point is in
every half-space. -/
theorem infeasible_of_clipEdge_false (sqrt : K → K) (p : Polygon K) (p0 d : Coord K)
    (i : Nat) (st : ClipState K) (hi : i < p.points.length)
    (hinv : p.ClipInv sqrt p0 d i st) (hf : (clipEdge sqrt p p0 d i st).1 = false)
    (t : K) (ht0 : 0 ≤ t) (ht1 : t ≤ 1) (hin : p.InHalfSpaces sqrt (p0.add (d.scale t))) :
    False := by
  obtain ⟨_, _, _, hE, _, hL, _, _⟩ := hinv
  have hlow : st.tE ≤ t := by
    by_cases h0 : st.tE = 0
    · rw [h0]
      exact ht0
    · obtain ⟨j, hj, ⟨hnj, hDj, htj⟩, _⟩ := hE h0
      have h3 := hin j (lt_trans hj hi) _ hnj
      rw [dot_point_on_segment] at h3
      rw [← htj]
      exact param_ge_of_entering _ _ t hDj h3
  have hhigh : t ≤ st.tL := by
    by_cases h1 : st.tL = 1
    · rw [h1]
      exact ht1
    · obtain ⟨j, hj, ⟨hnj, hDj, htj⟩, _⟩ := hL h1
      have h3 := hin j (lt_trans hj hi) _ hnj
      rw [dot_point_on_segment] at h3
      rw [← htj]
      exact param_le_of_leaving _ _ t hDj h3
  cases hn : p.edgeNormal sqrt i with
  | none =>
    rw [clipEdge_none sqrt p p0 d i st hn] at hf
    cases hf
  | some nv =>
    rw [clipEdge_some sqrt p p0 d i st nv hn] at hf
    have h3 := hin i hi nv hn
    rw [dot_point_on_segment] at h3
    rcases lt_trichotomy (nv.dot d) 0 with hD | hD | hD
    · by_cases ht : st.tE < nv.dot ((p.point i).sub p0) / nv.dot d
      · by_cases hl : st.tL < nv.dot ((p.point i).sub p0) / nv.dot d
        · have h4 := param_ge_of_entering _ _ t hD h3
          exact absurd (lt_of_le_of_lt hhigh hl) (not_lt.mpr h4)
        · rw [clipStep_enter_update nv _ _ st hD ht hl] at hf
          cases hf
      · rw [clipStep_enter_keep nv _ _ st hD ht] at hf
        cases hf
    · by_cases hN : nv.dot ((p.point i).sub p0) < 0
      · rw [hD] at h3
        linarith
      · rw [clipStep_parallel_keep nv _ _ st hD hN] at hf
        cases hf
    · by_cases ht : nv.dot ((p.point i).sub p0) / nv.dot d < st.tL
      · by_cases he : nv.dot ((p.point i).sub p0) / nv.dot d < st.tE
        · have h4 := param_le_of_leaving _ _ t hD h3
          exact absurd (lt_of_lt_of_le he hlow) (not_lt.mpr h4)
        · rw [clipStep_leave_update nv _ _ st hD ht he] at hf
          cases hf
      · rw [clipStep_leave_keep nv _ _ st hD ht] at hf
        cases hf

/-- A loop that returns false leaves no parameter in `[0,1]` whose point is in every
half-space. -/
theorem infeasible_of_clipLoop_false (sqrt : K → K) (p : Polygon K) (p0 d : Coord K)
    (count : Nat) :
    ∀ (i : Nat) (st : ClipState K), i + count = p.points.length →
      p.ClipInv sqrt p0 d i st → (clipLoop sqrt p p0 d count i st).1 = false →
      ∀ t : K, 0 ≤ t → t ≤ 1 → p.InHalfSpaces sqrt (p0.add (d.scale t)) → False := by
  induction count with
  | zero =>
    intro i st _ _ hf
    cases hf
  | succ count ih =>
    intro i st hlen hinv hf t ht0 ht1 hin
    rw [clipLoop] at hf
    have hstep := clipInv_clipEdge sqrt p p0 d i st hinv
    have hfalse := infeasible_of_clipEdge_false sqrt p p0 d i st (by omega) hinv
    cases hce : clipEdge sqrt p p0 d i st with
    | mk ok st1 =>
      rw [hce] at hf hstep hfalse
      cases ok with
      | false => exact hfalse rfl t ht0 ht1 hin
      | true => exact ih (i + 1) st1 (by omega) (hstep rfl) hf t ht0 ht1 hin

theorem clip_false_of_result (sqrt : K → K) (p : Polygon K) (seg : LineSegment K)
    (i1 i2 n1 n2 : Coord K)
    (h : (p.computeIntersection sqrt seg i1 i2 n1 n2).result = false) :
    (p.clip sqrt seg n1 n2).1 = false := by
  cases hc : p.clip sqrt seg n1 n2 with
  | mk ok st =>
    cases ok with
    | false => rfl
    | true =>
      simp only [computeIntersection, hc] at h
      cases h

/-- C26: clipping soundness. In every ordered field, if `computeIntersection` returns
true then every point `p0 + t * (p1 - p0)` with `tE <= t <= tL` is in every edge's
half-space: `N_i . (p0 + t * (p1 - p0) - points[i]) <= 0` for every edge `i`, with
`N_i = getEdgeOutwardNormalVector(points[i], points[(i+1) mod n])`. -/
theorem computeIntersection_sound (sqrt : K → K) (p : Polygon K) (seg : LineSegment K)
    (i1 i2 n1 n2 : Coord K)
    (h : (p.computeIntersection sqrt seg i1 i2 n1 n2).result = true) (t : K)
    (h1 : (p.clip sqrt seg n1 n2).2.tE ≤ t) (h2 : t ≤ (p.clip sqrt seg n1 n2).2.tL) :
    ∀ i, i < p.points.length → ∀ nv,
      p.getEdgeOutwardNormalVector sqrt (p.point i) (p.point ((i + 1) % p.points.length)) =
        some nv →
      nv.dot ((seg.point1.add ((seg.point2.sub seg.point1).scale t)).sub (p.point i)) ≤ 0 := by
  obtain ⟨_, hinv, _⟩ := clipInv_of_result sqrt p seg i1 i2 n1 n2 h
  exact inHalfSpaces_of_clipInv sqrt p _ _ _ hinv t h1 h2

/-- C27: clipping completeness. In every ordered field, if `computeIntersection` returns
false then no `t` in `[0,1]` has `p0 + t * (p1 - p0)` in all edge half-spaces; and an edge
with `D_i = 0` and `N_i < 0` (segment parallel to the edge and outside it) makes
`computeIntersection` return false. -/
theorem computeIntersection_complete (sqrt : K → K) (p : Polygon K) (seg : LineSegment K)
    (i1 i2 n1 n2 : Coord K) :
    ((p.computeIntersection sqrt seg i1 i2 n1 n2).result = false →
      ¬ ∃ t : K, 0 ≤ t ∧ t ≤ 1 ∧
        p.InHalfSpaces sqrt (seg.point1.add ((seg.point2.sub seg.point1).scale t))) ∧
    (∀ i, i < p.points.length → ∀ nv,
      p.getEdgeOutwardNormalVector sqrt (p.point i) (p.point ((i + 1) % p.points.length)) =
        some nv →
      nv.dot (seg.point2.sub seg.point1) = 0 → nv.dot ((p.point i).sub seg.point1) < 0 →
      (p.computeIntersection sqrt seg i1 i2 n1 n2).result = false) := by
  constructor
  · intro h
    rintro ⟨t, ht0, ht1, hin⟩
    have hf := clip_false_of_result sqrt p seg i1 i2 n1 n2 h
    unfold clip at hf
    exact infeasible_of_clipLoop_false sqrt p seg.point1 (seg.point2.sub seg.point1)
      p.points.length 0 _ (Nat.zero_add _) (clipInv_init sqrt p _ _ n1 n2) hf t ht0 ht1 hin
  · intro i hi nv hn hD hN
    cases hr : (p.computeIntersection sqrt seg i1 i2 n1 n2).result with
    | false => rfl
    | true =>
      obtain ⟨_, hinv, _⟩ := clipInv_of_result sqrt p seg i1 i2 n1 n2 hr
      have h3 := hinv.2.2.2.2.2.2.2 i hi nv hn hD
      exact absurd hN (not_lt.mpr h3)

theorem square_result_crossing :
    ((square : Polygon ℝ).computeIntersection Real.sqrt LineSegment.crossing
      Coord.zero Coord.zero Coord.zero Coord.zero).result = true := by
  simp only [computeIntersection, square_clip]

theorem square_result_outside :
    ((square : Polygon ℝ).computeIntersection Real.sqrt LineSegment.outside
      Coord.zero Coord.zero Coord.zero Coord.zero).result = false := by
  have hc : ((square : Polygon ℝ).clip Real.sqrt LineSegment.outside Coord.zero Coord.zero).1 =
      false := by
    simp only [clip, clipLoop, clipEdge, zero_add, Nat.reduceAdd, square_edge0, square_edge1,
      square_edge2, square_edge3, show (square : Polygon ℝ).points.length = 4 from rfl]
    simp only [point, square, LineSegment.outside, List.getD, Coord.sub, Coord.dot, clipStep]
    norm_num
  cases hcl : (square : Polygon ℝ).clip Real.sqrt LineSegment.outside Coord.zero Coord.zero with
  | mk ok st =>
    rw [hcl] at hc
    simp only at hc
    subst hc
    simp only [computeIntersection, hcl]

/-- Witness for C26: the square in the plane `z = 0` and the segment from `(2,2,0)` to
`(6,2,0)`, over the real numbers, at the parameter `t = 1/4` between `tE = 0` and
`tL = 1/2`, for edge 1 with normal `(4,0,0)`. -/
theorem computeIntersection_sound_witness :
    (⟨4, 0, 0⟩ : Coord ℝ).dot (((LineSegment.crossing : LineSegment ℝ).point1.add
        (((LineSegment.crossing : LineSegment ℝ).point2.sub
          (LineSegment.crossing : LineSegment ℝ).point1).scale (1 / 4))).sub
        ((square : Polygon ℝ).point 1)) ≤ 0 :=
  computeIntersection_sound Real.sqrt square LineSegment.crossing Coord.zero Coord.zero
    Coord.zero Coord.zero square_result_crossing (1 / 4)
    (by simp only [square_clip]; norm_num) (by simp only [square_clip]; norm_num)
    1 (by simp [square]) ⟨4, 0, 0⟩ square_edge1

/-- Witness for C27: the square in the plane `z = 0` and the segment from `(5,1,0)` to
`(6,3,0)`, over the real numbers: `computeIntersection` returns false and no point of the
segment is in all half-spaces. -/
theorem computeIntersection_complete_witness :
    ((square : Polygon ℝ).computeIntersection Real.sqrt LineSegment.outside
      Coord.zero Coord.zero Coord.zero Coord.zero).result = false ∧
    ¬ ∃ t : ℝ, 0 ≤ t ∧ t ≤ 1 ∧
      (square : Polygon ℝ).InHalfSpaces Real.sqrt
        ((LineSegment.outside : LineSegment ℝ).point1.add
          (((LineSegment.outside : LineSegment ℝ).point2.sub
            (LineSegment.outside : LineSegment ℝ).point1).scale t)) :=
  ⟨square_result_outside,
    (computeIntersection_complete Real.sqrt square LineSegment.outside Coord.zero Coord.zero
      Coord.zero Coord.zero).1 square_result_outside⟩

end Clipping

end Polygon

/-! ## What a lookup changes, and expiry of all VLANs -/

theorem mapErase_split {β : Type} (k : Nat) (v : β) (m : List (Nat × β))
    (h : mapFind k m = some v) :
    ∃ l1 l2, m = l1 ++ (k, v) :: l2 ∧ mapErase k m = l1 ++ l2 ∧ mapFind k l1 = none := by
  induction m with
  | nil => simp [mapFind] at h
  | cons x rest ih =>
    obtain ⟨k', v'⟩ := x
    by_cases hk : k' = k
    · subst hk
      simp only [mapFind, if_true, Option.some.injEq] at h
      subst h
      exact ⟨[], rest, rfl, by simp only [mapErase, if_true, List.nil_append], rfl⟩
    · simp only [mapFind, if_neg hk] at h
      obtain ⟨l1, l2, h1, h2, h3⟩ := ih h
      refine ⟨(k', v') :: l1, l2, ?_, ?_, ?_⟩
      · rw [h1, List.cons_append]
      · simp only [mapErase, if_neg hk, h2, List.cons_append]
      · simp only [mapFind, if_neg hk, h3]

theorem mapModify_absent {β : Type} (k : Nat) (f : β → β) (m : List (Nat × β))
    (h : mapFind k m = none) : mapModify k f m = m := by
  induction m with
  | nil => rfl
  | cons x rest ih =>
    obtain ⟨k', v'⟩ := x
    by_cases hk : k' = k
    · simp only [mapFind, if_pos hk] at h
      cases h
    · simp only [mapFind, if_neg hk] at h
      simp only [mapModify, if_neg hk, ih h]

theorem mapModify_eq_map {β : Type} (k : Nat) (f : β → β) (m : List (Nat × β))
    (hs : mapSorted m) :
    mapModify k f m = m.map (fun i => (i.1, if i.1 = k then f i.2 else i.2)) := by
  induction m with
  | nil => rfl
  | cons x rest ih =>
    obtain ⟨k', v'⟩ := x
    have hs2 := List.pairwise_cons.mp hs
    by_cases hk : k' = k
    · subst hk
      simp only [mapModify, if_true, List.map_cons, List.cons.injEq, true_and]
      symm
      calc rest.map (fun i => (i.1, if i.1 = k' then f i.2 else i.2))
          = rest.map id := by
            apply List.map_congr_left
            intro i hi
            have hlt : k' < i.1 := hs2.1 i hi
            have hne : ¬ i.1 = k' := by omega
            simp only [if_neg hne, id]
        _ = rest := List.map_id rest
    · simp only [mapModify, if_neg hk, List.map_cons, ih hs2.2]

theorem mapFind_of_mem {β : Type} (k : Nat) (v : β) (m : List (Nat × β)) (hs : mapSorted m)
    (h : (k, v) ∈ m) : mapFind k m = some v := by
  induction m with
  | nil => simp at h
  | cons x rest ih =>
    obtain ⟨k', v'⟩ := x
    have hs2 := List.pairwise_cons.mp hs
    rcases List.mem_cons.mp h with h | h
    · cases h
      simp only [mapFind, if_true]
    · have hlt : k' < k := hs2.1 (k, v) h
      have hne : ¬ k' = k := by omega
      simp only [mapFind, if_neg hne]
      exact ih hs2.2 h

namespace MACAddressTable

/-- C28: `getPortForAddress` changes the table only by removing the aged entry it looked
up. When it finds an entry with `insertionTime + agingTime <= now`, the table of `v`
becomes the former one with exactly that pair taken out (all others kept, in order), the
tables of the other VLANs and `agingTime` are as before; when it returns a port, or the
VLAN has no table, or the address has no entry, the whole state is unchanged. -/
theorem getPortForAddress_frame (s : MACAddressTable) (now : Int) (a : MACAddress) (v : Nat) :
    (∀ t e, s.getTableForVid v = some t → mapFind a t = some e →
      e.insertionTime + s.agingTime ≤ now →
      (∃ l1 l2, t = l1 ++ (a, e) :: l2 ∧ mapFind a l1 = none ∧
        (s.getPortForAddress now a v).2.getTableForVid v = some (l1 ++ l2)) ∧
      (∀ a0, a0 ≠ a → (s.getPortForAddress now a v).2.entry v a0 = s.entry v a0) ∧
      (∀ v0, v0 ≠ v →
        (s.getPortForAddress now a v).2.getTableForVid v0 = s.getTableForVid v0) ∧
      (s.getPortForAddress now a v).2.agingTime = s.agingTime) ∧
    (∀ t e, s.getTableForVid v = some t → mapFind a t = some e →
      now < e.insertionTime + s.agingTime → (s.getPortForAddress now a v).2 = s) ∧
    (s.getTableForVid v = none → (s.getPortForAddress now a v).2 = s) ∧
    (∀ t, s.getTableForVid v = some t → mapFind a t = none →
      (s.getPortForAddress now a v).2 = s) := by
  refine ⟨?_, ?_, ?_, ?_⟩
  · intro t e ht he hage
    rw [getPortForAddress_aged s now a v t e ht he hage]
    have ht2 := ht
    rw [getTableForVid_eq] at ht2
    refine ⟨?_, ?_, ?_, rfl⟩
    · obtain ⟨l1, l2, h1, h2, h3⟩ := mapErase_split a e t he
      refine ⟨l1, l2, h1, h3, ?_⟩
      rw [getTableForVid_eq]
      simp only [mapFind_mapModify_self, ht2, Option.map_some', h2]
    · intro a0 hne
      rw [entry_eq, entry_eq]
      simp only [mapFind_mapModify_self, ht2, Option.map_some', Option.some_bind]
      exact mapFind_mapErase_ne a a0 t hne
    · intro v0 hne
      rw [getTableForVid_eq, getTableForVid_eq]
      exact mapFind_mapModify_ne _ _ _ _ hne
  · intro t e ht he hfresh
    rw [getPortForAddress_fresh s now a v t e ht he hfresh]
  · intro ht
    rw [getPortForAddress_noTable s now a v ht]
  · intro t ht he
    rw [getPortForAddress_noEntry s now a v t ht he]

theorem removeAgedEntriesFromVlan_eq (s : MACAddressTable) (now : Int) (v : Nat) :
    s.removeAgedEntriesFromVlan now v =
      { s with vlanAddressTable :=
          mapModify v (removeAgedLoop s.agingTime now) s.vlanAddressTable } := by
  unfold removeAgedEntriesFromVlan
  cases ht : s.getTableForVid v with
  | none =>
    rw [getTableForVid_eq] at ht
    simp only [mapModify_absent v _ _ ht]
  | some t => rfl

theorem removeAgedLoop_idem (agingTime now : Int) (t : AddressTable) :
    removeAgedLoop agingTime now (removeAgedLoop agingTime now t) =
      removeAgedLoop agingTime now t := by
  rw [removeAgedLoop_eq_filter, removeAgedLoop_eq_filter, List.filter_filter]
  simp only [Bool.and_self]

/-- Running `removeAgedEntriesFromVlan` for the VLAN ids of `vs`, one after the other. -/
theorem foldl_removeAgedEntriesFromVlan (agingTime now : Int) (vs : List Nat) :
    ∀ l : List (Nat × AddressTable), mapSorted l →
      vs.foldl (fun (st : MACAddressTable) v => st.removeAgedEntriesFromVlan now v)
          (MACAddressTable.mk agingTime l) =
        MACAddressTable.mk agingTime (l.map (fun i =>
          (i.1, if i.1 ∈ vs then removeAgedLoop agingTime now i.2 else i.2))) := by
  induction vs with
  | nil =>
    intro l _
    simp only [List.foldl_nil, List.not_mem_nil, if_false, Prod.mk.eta, List.map_id']
  | cons v vs ih =>
    intro l hl
    rw [List.foldl_cons, removeAgedEntriesFromVlan_eq]
    simp only
    rw [ih _ (mapSorted_mapModify _ _ _ hl), mapModify_eq_map _ _ _ hl, List.map_map]
    congr 1
    apply List.map_congr_left
    intro i _
    simp only [Function.comp, List.mem_cons]
    by_cases h1 : i.1 = v
    · by_cases h2 : i.1 ∈ vs
      · rw [if_pos h1, if_pos h2, if_pos (Or.inl h1), removeAgedLoop_idem]
      · rw [if_pos h1, if_neg h2, if_pos (Or.inl h1)]
    · by_cases h2 : i.1 ∈ vs
      · rw [if_neg h1, if_pos h2, if_pos (Or.inr h2)]
      · rw [if_neg h1, if_neg h2, if_neg (not_or.mpr ⟨h1, h2⟩)]

/-- C29: for a well-formed state, `removeAgedEntriesFromAllVlans()` produces the same
state as calling `removeAgedEntriesFromVlan(v)` for the VLAN ids of any list `vs` that
names every VLAN with a table, in the order of the list; afterwards the table of every
VLAN holds exactly its former entries with `insertionTime + agingTime > now`. -/
theorem removeAgedEntriesFromAllVlans_refines (s : MACAddressTable) (now : Int)
    (hs : s.WF) (vs : List Nat) (hcover : ∀ v, (s.getTableForVid v).isSome = true → v ∈ vs) :
    vs.foldl (fun (st : MACAddressTable) v => st.removeAgedEntriesFromVlan now v) s =
      s.removeAgedEntriesFromAllVlans now ∧
    ∀ v t, s.getTableForVid v = some t →
      (s.removeAgedEntriesFromAllVlans now).getTableForVid v =
        some (t.filter (fun j => decide (now < j.2.insertionTime + s.agingTime))) := by
  constructor
  · have h := foldl_removeAgedEntriesFromVlan s.agingTime now vs s.vlanAddressTable hs.1
    rw [show MACAddressTable.mk s.agingTime s.vlanAddressTable = s from rfl] at h
    rw [h]
    unfold removeAgedEntriesFromAllVlans
    congr 1
    apply List.map_congr_left
    intro i hi
    have hmem : i.1 ∈ vs := by
      apply hcover
      rw [getTableForVid_eq, mapFind_of_mem i.1 i.2 _ hs.1 hi]
      rfl
    simp only [if_pos hmem]
  · intro v t ht
    rw [getTableForVid_eq] at ht ⊢
    have h := mapFind_mapValues v (fun _ t0 => removeAgedLoop s.agingTime now t0)
      s.vlanAddressTable
    unfold removeAgedEntriesFromAllVlans
    simp only at h ⊢
    rw [h, ht, Option.map_some', removeAgedLoop_eq_filter]

/-- Witness for C29: the state `twoVlans` at time 12, where the entry of VLAN 0 is aged
and the entry of VLAN 1 is not, with the VLANs taken in the order 1, 0. -/
theorem removeAgedEntriesFromAllVlans_refines_witness :
    [1, 0].foldl (fun (st : MACAddressTable) v => st.removeAgedEntriesFromVlan 12 v) twoVlans =
      twoVlans.removeAgedEntriesFromAllVlans 12 ∧
    (twoVlans.removeAgedEntriesFromAllVlans 12).entry 0 1 = none ∧
    (twoVlans.removeAgedEntriesFromAllVlans 12).entry 1 2 = some (AddressEntry.mk 1 2 5) :=
  ⟨(removeAgedEntriesFromAllVlans_refines twoVlans 12 (by decide) [1, 0] (by
      intro v hv
      have h : twoVlans = MACAddressTable.mk 10
          [(0, [(1, AddressEntry.mk 0 1 0)]), (1, [(2, AddressEntry.mk 1 2 5)])] := by decide
      rw [h, getTableForVid_eq] at hv
      simp only [mapFind] at hv
      by_cases h0 : 0 = v
      · subst h0; decide
      · by_cases h1 : 1 = v
        · subst h1; decide
        · simp [h0, h1] at hv)).1,
    by decide, by decide⟩

end MACAddressTable

/-! ## Radio medium -/

namespace RadioMedium

/-- C24: `isInterferingTransmission(tr, window)` is true if and only if
`min(tr.endTime + minInterferenceTime, window.endTime) - max(tr.startTime, window.startTime)
>= minInterferenceTime` and, for a reception window, `tr` is not the transmission of the
reception. The overlap condition says that each of the two ends is at least
`minInterferenceTime` after each of the two starts. -/
theorem isInterferingTransmission_iff (m : RadioMedium) (tr : Transmission)
    (listening : Listening) (reception : Reception) :
    (m.isInterferingTransmissionListening tr listening = true ↔
      min (tr.endTime + m.minInterferenceTime) listening.endTime -
        max tr.startTime listening.startTime ≥ m.minInterferenceTime) ∧
    (m.isInterferingTransmissionReception tr reception = true ↔
      min (tr.endTime + m.minInterferenceTime) reception.endTime -
        max tr.startTime reception.startTime ≥ m.minInterferenceTime ∧
      tr ≠ reception.transmission) ∧
    (m.isInterferingTransmissionListening tr listening = true ↔
      tr.startTime ≤ tr.endTime ∧ listening.startTime ≤ tr.endTime ∧
      tr.startTime + m.minInterferenceTime ≤ listening.endTime ∧
      listening.startTime + m.minInterferenceTime ≤ listening.endTime) := by
  refine ⟨?_, ?_, ?_⟩
  · simp only [isInterferingTransmissionListening, decide_eq_true_eq, ge_iff_le]
  · simp only [isInterferingTransmissionReception, Bool.and_eq_true, decide_eq_true_eq,
      ge_iff_le]
  · simp only [isInterferingTransmissionListening, decide_eq_true_eq]
    constructor
    · intro h
      have h1 := min_le_left (tr.endTime + m.minInterferenceTime) listening.endTime
      have h2 := min_le_right (tr.endTime + m.minInterferenceTime) listening.endTime
      have h3 := le_max_left tr.startTime listening.startTime
      have h4 := le_max_right tr.startTime listening.startTime
      refine ⟨?_, ?_, ?_, ?_⟩ <;> omega
    · rintro ⟨h1, h2, h3, h4⟩
      rcases min_choice (tr.endTime + m.minInterferenceTime) listening.endTime with h | h <;>
        rcases max_choice tr.startTime listening.startTime with h5 | h5 <;>
        rw [h, h5] <;> omega

theorem countNonInterfering_le (w now : Int) (ts : List Transmission) :
    countNonInterfering w now ts ≤ ts.length := by
  induction ts with
  | nil => exact Nat.le_refl 0
  | cons t rest ih =>
    unfold countNonInterfering
    split_ifs
    · simp only [List.length_cons]
      omega
    · exact Nat.zero_le _

theorem countNonInterfering_take (w now : Int) (ts : List Transmission) :
    ∀ t ∈ ts.take (countNonInterfering w now ts), t.endTime + w ≤ now := by
  induction ts with
  | nil =>
    intro t ht
    simp at ht
  | cons t0 rest ih =>
    intro t ht
    unfold countNonInterfering at ht
    split_ifs at ht with hc
    · rw [List.take_succ_cons] at ht
      rcases List.mem_cons.mp ht with h | h
      · rw [h]
        exact hc
      · exact ih t h
    · simp at ht

theorem countNonInterfering_next (w now : Int) (ts : List Transmission) (t : Transmission)
    (h : ts.get? (countNonInterfering w now ts) = some t) : ¬ t.endTime + w ≤ now := by
  induction ts with
  | nil => simp at h
  | cons t0 rest ih =>
    unfold countNonInterfering at h
    split_ifs at h with hc
    · rw [List.get?_cons_succ] at h
      exact ih h
    · simp only [List.get?_cons_zero, Option.some.injEq] at h
      rw [← h]
      exact hc

theorem countNonInterfering_largest (w now : Int) (ts : List Transmission) (k : Nat)
    (hk : k ≤ ts.length) (hall : ∀ t ∈ ts.take k, t.endTime + w ≤ now) :
    k ≤ countNonInterfering w now ts := by
  induction ts generalizing k with
  | nil =>
    simp only [List.length_nil, Nat.le_zero_eq] at hk
    rw [hk]
    exact Nat.zero_le _
  | cons t0 rest ih =>
    cases k with
    | zero => exact Nat.zero_le _
    | succ k =>
      rw [List.take_succ_cons] at hall
      have h0 := hall t0 (List.mem_cons_self _ _)
      unfold countNonInterfering
      rw [if_pos h0]
      have h1 := ih k (by simpa using hk) (fun t ht => hall t (List.mem_cons_of_mem _ ht))
      omega

/-- C25: `removeNonInterferingTransmissions` at time `now` removes exactly the largest
prefix of the transmissions in which every `t` has
`t.endTime + maxInterferenceWindow <= now`: with `c` the length of that prefix, the
transmissions and the cache lose their first `c` elements, `baseTransmissionId` grows by
`c`, and the transmissions after the prefix are all kept, in order. In the eviction
scenario (transmissions over `[0,1]` and `[2,3]`, window 0.5 s) the call at `now` = 2.0 s
purges the first transmission only, frees its cache row and advances
`baseTransmissionId` from 7 to 8. -/
theorem removeNonInterferingTransmissions_effect :
    (∀ (m : RadioMedium) (now : Int), ∃ c : Nat, c ≤ m.transmissions.length ∧
      (∀ t ∈ m.transmissions.take c, t.endTime + m.maxInterferenceWindow ≤ now) ∧
      (∀ k, k ≤ m.transmissions.length →
        (∀ t ∈ m.transmissions.take k, t.endTime + m.maxInterferenceWindow ≤ now) → k ≤ c) ∧
      (∀ t, m.transmissions.get? c = some t → ¬ t.endTime + m.maxInterferenceWindow ≤ now) ∧
      m.transmissions =
        m.transmissions.take c ++ (m.removeNonInterferingTransmissions now).transmissions ∧
      (m.removeNonInterferingTransmissions now).cache = m.cache.drop c ∧
      (m.removeNonInterferingTransmissions now).baseTransmissionId =
        m.baseTransmissionId + c) ∧
    evictionScenario.removeNonInterferingTransmissions 20 =
      { minInterferenceTime := 0
        maxInterferenceWindow := 5
        transmissions := [⟨8, 20, 30⟩]
        baseTransmissionId := 8
        cache := [⟨35, some 2, []⟩] } := by
  refine ⟨fun m now => ?_, by decide⟩
  exact ⟨countNonInterfering m.maxInterferenceWindow now m.transmissions,
    countNonInterfering_le _ _ _, countNonInterfering_take _ _ _,
    fun k hk hall => countNonInterfering_largest _ _ _ k hk hall,
    fun t ht => countNonInterfering_next _ _ _ t ht,
    (List.take_append_drop _ _).symm, rfl, rfl⟩

end RadioMedium

/-! ## Convolutional coder: the Viterbi decoder finds the path of least distance -/

namespace Trellis

open ConvolutionalCoder

theorem relax_length (t : Trellis) (prev : List (Option TrellisGraphNode))
    (y e : ShortBitVector) (col : List (Option TrellisGraphNode)) (su : Nat × ShortBitVector) :
    (relax t prev y e col su).length = col.length := by
  unfold relax
  split
  · rfl
  · split
    · simp only [List.length_set]
    · split_ifs
      · simp only [List.length_set]
      · rfl

theorem foldl_relax_length (t : Trellis) (prev : List (Option TrellisGraphNode))
    (y e : ShortBitVector) (L : List (Nat × ShortBitVector)) :
    ∀ col : List (Option TrellisGraphNode),
      (L.foldl (relax t prev y e) col).length = col.length := by
  induction L with
  | nil => intro col; rfl
  | cons p rest ih =>
    intro col
    rw [List.foldl_cons, ih, relax_length]

theorem computeBestPath_length (t : Trellis) (prev : List (Option TrellisGraphNode))
    (y e : ShortBitVector) : (computeBestPath t prev y e).length = t.numberOfStates := by
  unfold computeBestPath
  rw [foldl_relax_length, List.length_replicate]

end Trellis

namespace Trellis

open ConvolutionalCoder

end Trellis

/-! ## Convolutional coder: bits, symbols and the round trip -/

namespace ConvolutionalCoder

open Trellis

end ConvolutionalCoder

namespace Trellis

open ConvolutionalCoder

end Trellis

namespace ConvolutionalCoder

open Trellis

theorem toBits_length : ∀ (width value : Nat), (toBits width value).length = width := by
  intro width
  induction width with
  | zero => intro value; rfl
  | succ width ih =>
    intro value
    simp only [toBits, List.length_cons, ih]

theorem length_of_mem_decimalToInputSymbol (c : ConvolutionalCoder) (u : ShortBitVector)
    (hu : u ∈ c.trellis.decimalToInputSymbol) : u.length = c.codeRateParamaterK := by
  simp only [trellis, List.mem_map, List.mem_range] at hu
  obtain ⟨v, _, hv⟩ := hu
  rw [← hv, toBits_length]

end ConvolutionalCoder

/-! ## Convolutional coder: the round trip through puncturing -/

namespace ConvolutionalCoder

open Trellis

end ConvolutionalCoder

namespace ConvolutionalCoder

open Trellis

/-- The round trip cannot hold for every choice of the parameters: the coder whose two
generator polynomials are zero encodes the information bits `1` and `0` to the same bits,
and the round trip of `1` gives `0`. -/
theorem zeroCode_round_trip :
    zeroCode.encode [true] true = zeroCode.encode [false] true ∧
    zeroCode.decode (zeroCode.encode [true] true) "terminated" = Except.ok [false] := by
  have h : zeroCode.decode (zeroCode.encode [true] true) "terminated" = Except.ok [false] := by
    rfl
  exact ⟨by decide, h⟩

end ConvolutionalCoder

/-! ## Polygons at offset 1 along their normal -/

namespace Polygon

section OffsetOne

variable {K : Type} [LinearOrderedField K]

theorem point_mem (p : Polygon K) (i : Nat) (h : i < p.points.length) :
    p.point i ∈ p.points := by
  unfold point
  rw [List.getD_eq_getElem _ _ h]
  exact List.getElem_mem h

theorem zero_dot (v : Coord K) : (Coord.zero : Coord K).dot v = 0 := by
  simp only [Coord.dot, Coord.zero, zero_mul, add_zero]

theorem add_scale_zero (a d : Coord K) : a.add (d.scale 0) = a := by
  obtain ⟨x, y, z⟩ := a
  simp only [Coord.add, Coord.scale, mul_zero, add_zero]

theorem add_sub_scale_one (a b : Coord K) : a.add ((b.sub a).scale 1) = b := by
  obtain ⟨x, y, z⟩ := a
  obtain ⟨x1, y1, z1⟩ := b
  simp only [Coord.add, Coord.scale, Coord.sub, mul_one, add_sub_cancel]

/-- Every edge normal of a polygon whose points are at offset 1 along its unit normal is
the zero vector. -/
theorem edgeNormal_of_offset_one (sqrt : K → K) (p : Polygon K) (n : Coord K)
    (hn : p.getNormalUnitVector sqrt = some n) (hunit : n.dot n = 1)
    (hplane : ∀ q ∈ p.points, n.dot q = 1) (i : Nat) (hi : i < p.points.length) :
    p.edgeNormal sqrt i = some Coord.zero := by
  unfold edgeNormal
  rw [getEdgeOutwardNormalVector_some sqrt p n _ _ hn,
    edgeOutwardNormal_eq_scale n _ _ 1 hunit (hplane _ (point_mem p i hi))
      (hplane _ (point_mem p _ (Nat.mod_lt _ (by omega)))),
    sub_self, scale_zero]

/-- The loop of `computeIntersection` changes nothing and rejects nothing while every edge
normal is the zero vector. -/
theorem clipLoop_of_zero_normals (sqrt : K → K) (p : Polygon K) (p0 d : Coord K)
    (hzero : ∀ i, i < p.points.length → p.edgeNormal sqrt i = some Coord.zero)
    (count : Nat) :
    ∀ (i : Nat) (st : ClipState K), i + count ≤ p.points.length →
      clipLoop sqrt p p0 d count i st = (true, st) := by
  induction count with
  | zero =>
    intro i st _
    rfl
  | succ count ih =>
    intro i st hle
    have hstep : clipEdge sqrt p p0 d i st = (true, st) := by
      rw [clipEdge_some sqrt p p0 d i st _ (hzero i (by omega))]
      exact clipStep_parallel_keep _ _ _ st (zero_dot d)
        (by rw [zero_dot]; exact lt_irrefl 0)
    simp only [clipLoop, hstep]
    exact ih (i + 1) st (by omega)

/-- The result of `computeIntersection` when every edge normal is the zero vector. -/
theorem computeIntersection_of_zero_normals (sqrt : K → K) (p : Polygon K)
    (hzero : ∀ i, i < p.points.length → p.edgeNormal sqrt i = some Coord.zero)
    (seg : LineSegment K) (i1 i2 n1 n2 : Coord K) :
    p.computeIntersection sqrt seg i1 i2 n1 n2 =
      { result := true, intersection1 := seg.point1, intersection2 := seg.point2,
        normal1 := Coord.zero, normal2 := Coord.zero } := by
  have hclip : p.clip sqrt seg n1 n2 =
      (true, { tE := 0, tL := 1, normal1 := n1, normal2 := n2 }) := by
    unfold clip
    exact clipLoop_of_zero_normals sqrt p _ _ hzero _ 0 _ (by omega)
  simp only [computeIntersection, hclip, if_true, add_scale_zero, add_sub_scale_one]

end OffsetOne

/-- Over the real numbers the vector `getNormalUnitVector` returns has length 1. -/
theorem getNormalUnitVector_unit (p : Polygon ℝ) (n : Coord ℝ)
    (hn : p.getNormalUnitVector Real.sqrt = some n) : n.dot n = 1 := by
  simp only [getNormalUnitVector] at hn
  split_ifs at hn with h0
  have hn2 := Option.some.inj hn
  rw [← hn2]
  generalize hC : (⟨((p.point 1).sub (p.point 0)).y * ((p.point 2).sub (p.point 0)).z -
      ((p.point 1).sub (p.point 0)).z * ((p.point 2).sub (p.point 0)).y,
    ((p.point 1).sub (p.point 0)).z * ((p.point 2).sub (p.point 0)).x -
      ((p.point 1).sub (p.point 0)).x * ((p.point 2).sub (p.point 0)).z,
    ((p.point 1).sub (p.point 0)).x * ((p.point 2).sub (p.point 0)).y -
      ((p.point 1).sub (p.point 0)).y * ((p.point 2).sub (p.point 0)).x⟩ : Coord ℝ) = C at h0
  have hL : C.length Real.sqrt * C.length Real.sqrt = C.x * C.x + C.y * C.y + C.z * C.z := by
    unfold Coord.length
    exact Real.mul_self_sqrt
      (add_nonneg (add_nonneg (mul_self_nonneg _) (mul_self_nonneg _)) (mul_self_nonneg _))
  generalize C.length Real.sqrt = L at h0 hL
  simp only [Coord.dot, Coord.divide]
  field_simp
  linarith

/-- C31, amended: over the real numbers, for every polygon whose points all lie at signed
offset 1 along its unit normal `n` (`n . q = 1` for every point `q`), every segment and
whatever the reference arguments hold before the call, `computeIntersection` returns true
with `intersection1 = p0`, `intersection2 = p1` and both normals the zero vector. -/
theorem computeIntersection_offset_one (p : Polygon ℝ) (n : Coord ℝ)
    (hn : p.getNormalUnitVector Real.sqrt = some n) (hplane : ∀ q ∈ p.points, n.dot q = 1)
    (seg : LineSegment ℝ) (i1 i2 n1 n2 : Coord ℝ) :
    p.computeIntersection Real.sqrt seg i1 i2 n1 n2 =
      { result := true, intersection1 := seg.point1, intersection2 := seg.point2,
        normal1 := Coord.zero, normal2 := Coord.zero } :=
  computeIntersection_of_zero_normals Real.sqrt p
    (edgeNormal_of_offset_one Real.sqrt p n hn (getNormalUnitVector_unit p n hn) hplane)
    seg i1 i2 n1 n2

/-- Witness for C31, amended: the square `[(0,0,1),(4,0,1),(4,4,1),(0,4,1)]`, with unit
normal `(0,0,1)`, and the segment from `(100,100,100)` to `(200,300,400)`, far from it. -/
theorem computeIntersection_offset_one_witness :
    (raisedSquare : Polygon ℝ).computeIntersection Real.sqrt LineSegment.far
        ⟨7, 7, 7⟩ ⟨7, 7, 7⟩ ⟨7, 7, 7⟩ ⟨7, 7, 7⟩ =
      { result := true, intersection1 := ⟨100, 100, 100⟩, intersection2 := ⟨200, 300, 400⟩,
        normal1 := Coord.zero, normal2 := Coord.zero } :=
  computeIntersection_offset_one raisedSquare ⟨0, 0, 1⟩ raisedSquare_normal
    (by
      intro q hq
      simp only [raisedSquare, List.mem_cons, List.mem_singleton, List.not_mem_nil,
        or_false] at hq
      rcases hq with h | h | h | h <;> subst h <;> simp [Coord.dot])
    LineSegment.far _ _ _ _

end Polygon

/-! ## The size of a polygon -/

namespace Polygon

section ComputeSize

variable {K : Type} [LinearOrderedField K]

theorem computeSizeLoop_fst (c : Coord K → K)
    (hmin : ∀ a b : Coord K, c (a.min b) = min (c a) (c b)) (pts : List (Coord K)) :
    ∀ lo0 hi0 : Coord K, IsLeastOf c (lo0 :: pts) (c (computeSizeLoop lo0 hi0 pts).1) := by
  induction pts with
  | nil =>
    intro lo0 hi0
    refine ⟨⟨lo0, List.mem_cons_self _ _, rfl⟩, ?_⟩
    intro q hq
    rw [List.mem_singleton.mp hq]
    exact le_refl _
  | cons q rest ih =>
    intro lo0 hi0
    obtain ⟨⟨q1, hq1, hc1⟩, hbound⟩ := ih (lo0.min q) (hi0.max q)
    have hfirst := hbound (lo0.min q) (List.mem_cons_self _ _)
    rw [hmin] at hfirst
    refine ⟨?_, ?_⟩
    · rcases List.mem_cons.mp hq1 with h | h
      · rw [h, hmin] at hc1
        rcases le_total (c lo0) (c q) with hle | hle
        · rw [min_eq_left hle] at hc1
          exact ⟨lo0, List.mem_cons_self _ _, hc1⟩
        · rw [min_eq_right hle] at hc1
          exact ⟨q, List.mem_cons_of_mem _ (List.mem_cons_self _ _), hc1⟩
      · exact ⟨q1, List.mem_cons_of_mem _ (List.mem_cons_of_mem _ h), hc1⟩
    · intro q2 hq2
      rcases List.mem_cons.mp hq2 with h | h
      · rw [h]
        exact le_trans hfirst (min_le_left _ _)
      · rcases List.mem_cons.mp h with h | h
        · rw [h]
          exact le_trans hfirst (min_le_right _ _)
        · exact hbound q2 (List.mem_cons_of_mem _ h)

theorem computeSizeLoop_snd (c : Coord K → K)
    (hmax : ∀ a b : Coord K, c (a.max b) = max (c a) (c b)) (pts : List (Coord K)) :
    ∀ lo0 hi0 : Coord K, IsGreatestOf c (hi0 :: pts) (c (computeSizeLoop lo0 hi0 pts).2) := by
  induction pts with
  | nil =>
    intro lo0 hi0
    refine ⟨⟨hi0, List.mem_cons_self _ _, rfl⟩, ?_⟩
    intro q hq
    rw [List.mem_singleton.mp hq]
    exact le_refl _
  | cons q rest ih =>
    intro lo0 hi0
    obtain ⟨⟨q1, hq1, hc1⟩, hbound⟩ := ih (lo0.min q) (hi0.max q)
    have hfirst := hbound (hi0.max q) (List.mem_cons_self _ _)
    rw [hmax] at hfirst
    refine ⟨?_, ?_⟩
    · rcases List.mem_cons.mp hq1 with h | h
      · rw [h, hmax] at hc1
        rcases le_total (c hi0) (c q) with hle | hle
        · rw [max_eq_right hle] at hc1
          exact ⟨q, List.mem_cons_of_mem _ (List.mem_cons_self _ _), hc1⟩
        · rw [max_eq_left hle] at hc1
          exact ⟨hi0, List.mem_cons_self _ _, hc1⟩
      · exact ⟨q1, List.mem_cons_of_mem _ (List.mem_cons_of_mem _ h), hc1⟩
    · intro q2 hq2
      rcases List.mem_cons.mp hq2 with h | h
      · rw [h]
        exact le_trans (le_max_left _ _) hfirst
      · rcases List.mem_cons.mp h with h | h
        · rw [h]
          exact le_trans (le_max_right _ _) hfirst
        · exact hbound q2 (List.mem_cons_of_mem _ h)

/-- Each of the three coordinates commutes with `min`, `max` and the difference, and is 0
on the zero vector. -/
theorem coordinates_spec (c : Coord K → K) (hc : c ∈ (coordinates : List (Coord K → K))) :
    (∀ a b : Coord K, c (a.min b) = min (c a) (c b)) ∧
    (∀ a b : Coord K, c (a.max b) = max (c a) (c b)) ∧
    (∀ a b : Coord K, c (a.sub b) = c a - c b) ∧ c Coord.zero = 0 := by
  simp only [coordinates, List.mem_cons, List.mem_singleton, List.not_mem_nil, or_false] at hc
  rcases hc with h | h | h <;> subst h <;>
    exact ⟨fun _ _ => rfl, fun _ _ => rfl, fun _ _ => rfl, rfl⟩

/-- The least value among the points and the origin is the smaller of 0 and the least
value among the points. -/
theorem isLeastOf_cons_zero (c : Coord K → K) (hzero : c Coord.zero = 0)
    (pts : List (Coord K)) (lo lo0 : K) (h : IsLeastOf c pts lo)
    (h0 : IsLeastOf c (Coord.zero :: pts) lo0) : lo0 = min lo 0 := by
  obtain ⟨⟨q, hq, hcq⟩, hb⟩ := h
  obtain ⟨⟨q0, hq0, hcq0⟩, hb0⟩ := h0
  apply le_antisymm
  · apply le_min
    · rw [← hcq]
      exact hb0 q (List.mem_cons_of_mem _ hq)
    · rw [← hzero]
      exact hb0 _ (List.mem_cons_self _ _)
  · rcases List.mem_cons.mp hq0 with h1 | h1
    · rw [← hcq0, h1, hzero]
      exact min_le_right _ _
    · rw [← hcq0]
      exact le_trans (min_le_left _ _) (hb q0 h1)

/-- The greatest value among the points and the origin is the larger of 0 and the greatest
value among the points. -/
theorem isGreatestOf_cons_zero (c : Coord K → K) (hzero : c Coord.zero = 0)
    (pts : List (Coord K)) (hi hi0 : K) (h : IsGreatestOf c pts hi)
    (h0 : IsGreatestOf c (Coord.zero :: pts) hi0) : hi0 = max hi 0 := by
  obtain ⟨⟨q, hq, hcq⟩, hb⟩ := h
  obtain ⟨⟨q0, hq0, hcq0⟩, hb0⟩ := h0
  apply le_antisymm
  · rcases List.mem_cons.mp hq0 with h1 | h1
    · rw [← hcq0, h1, hzero]
      exact le_max_right _ _
    · rw [← hcq0]
      exact le_trans (hb q0 h1) (le_max_left _ _)
  · apply max_le
    · rw [← hcq]
      exact hb0 q (List.mem_cons_of_mem _ hq)
    · rw [← hzero]
      exact hb0 _ (List.mem_cons_self _ _)

theorem computeSize_coordinate (p : Polygon K) (c : Coord K → K)
    (hc : c ∈ (coordinates : List (Coord K → K))) :
    IsLeastOf c (Coord.zero :: p.points)
      (c (computeSizeLoop Coord.zero Coord.zero p.points).1) ∧
    IsGreatestOf c (Coord.zero :: p.points)
      (c (computeSizeLoop Coord.zero Coord.zero p.points).2) ∧
    c p.computeSize = c (computeSizeLoop Coord.zero Coord.zero p.points).2 -
      c (computeSizeLoop Coord.zero Coord.zero p.points).1 := by
  obtain ⟨hmin, hmax, hsub, _⟩ := coordinates_spec c hc
  exact ⟨computeSizeLoop_fst c hmin p.points _ _, computeSizeLoop_snd c hmax p.points _ _,
    hsub _ _⟩

theorem shiftedSquare_size : (shiftedSquare : Polygon K).computeSize = ⟨14, 4, 0⟩ := by
  simp only [computeSize, computeSizeLoop, shiftedSquare, Coord.min, Coord.max, Coord.zero,
    Coord.sub]
  norm_num

/-- C32: in every ordered field, in each coordinate, `computeSize()` is `max - min` where
`min` and `max` are the least and the greatest value among the points of the polygon
together with the zero vector. With `lo` and `hi` the least and greatest value among the
points alone, it is `max(hi, 0) - min(lo, 0)`: it is the extent `hi - lo` of the points'
own bounding box exactly when `lo <= 0 <= hi`, and larger otherwise. For the square
`[(10,0,0),(14,0,0),(14,4,0),(10,4,0)]`, with `x` from 10 to 14, the size is `(14,4,0)`. -/
theorem computeSize_spec :
    (∀ (p : Polygon K), ∀ c ∈ (coordinates : List (Coord K → K)),
      ∃ lo0 hi0, IsLeastOf c (Coord.zero :: p.points) lo0 ∧
        IsGreatestOf c (Coord.zero :: p.points) hi0 ∧ c p.computeSize = hi0 - lo0) ∧
    (∀ (p : Polygon K), ∀ c ∈ (coordinates : List (Coord K → K)), ∀ lo hi,
      IsLeastOf c p.points lo → IsGreatestOf c p.points hi →
        c p.computeSize = max hi 0 - min lo 0 ∧
        (c p.computeSize = hi - lo ↔ lo ≤ 0 ∧ 0 ≤ hi) ∧
        (¬ (lo ≤ 0 ∧ 0 ≤ hi) → hi - lo < c p.computeSize)) ∧
    ((shiftedSquare : Polygon K).computeSize = ⟨14, 4, 0⟩ ∧
      IsLeastOf Coord.x (shiftedSquare : Polygon K).points 10 ∧
      IsGreatestOf Coord.x (shiftedSquare : Polygon K).points 14) := by
  refine ⟨?_, ?_, shiftedSquare_size, ?_, ?_⟩
  · intro p c hc
    exact ⟨_, _, computeSize_coordinate p c hc⟩
  · intro p c hc lo hi hlo hhi
    obtain ⟨h1, h2, h3⟩ := computeSize_coordinate p c hc
    have hzero := (coordinates_spec c hc).2.2.2
    have e1 := isLeastOf_cons_zero c hzero p.points lo _ hlo h1
    have e2 := isGreatestOf_cons_zero c hzero p.points hi _ hhi h2
    have hsize : c p.computeSize = max hi 0 - min lo 0 := by rw [h3, e1, e2]
    have hle : lo ≤ hi := by
      obtain ⟨⟨q, hq, hcq⟩, _⟩ := hlo
      rw [← hcq]
      exact hhi.2 q hq
    rw [hsize]
    refine ⟨rfl, ?_, ?_⟩
    · rcases le_total lo 0 with ha | ha <;> rcases le_total hi 0 with hb | hb
      · rw [max_eq_right hb, min_eq_left ha]
        constructor
        · intro h
          exact ⟨ha, by linarith⟩
        · intro h
          linarith [h.2]
      · rw [max_eq_left hb, min_eq_left ha]
        exact ⟨fun _ => ⟨ha, hb⟩, fun _ => rfl⟩
      · rw [max_eq_right hb, min_eq_right ha]
        constructor
        · intro h
          exact ⟨by linarith, by linarith⟩
        · intro h
          linarith [h.1, h.2]
      · rw [max_eq_left hb, min_eq_right ha]
        constructor
        · intro h
          exact ⟨by linarith, hb⟩
        · intro h
          linarith [h.1]
    · intro hnot
      rcases le_total lo 0 with ha | ha <;> rcases le_total hi 0 with hb | hb
      · rw [max_eq_right hb, min_eq_left ha]
        have : hi ≠ 0 := fun h0 => hnot ⟨ha, h0.ge⟩
        have : hi < 0 := lt_of_le_of_ne hb this
        linarith
      · exact absurd ⟨ha, hb⟩ hnot
      · rw [max_eq_right hb, min_eq_right ha]
        have : lo ≠ 0 := fun h0 => hnot ⟨h0.le, by linarith⟩
        have : 0 < lo := lt_of_le_of_ne ha (Ne.symm this)
        linarith
      · rw [max_eq_left hb, min_eq_right ha]
        have : lo ≠ 0 := fun h0 => hnot ⟨h0.le, hb⟩
        have : 0 < lo := lt_of_le_of_ne ha (Ne.symm this)
        linarith
  · refine ⟨⟨⟨10, 0, 0⟩, by simp [shiftedSquare], rfl⟩, ?_⟩
    intro q hq
    simp only [shiftedSquare, List.mem_cons, List.mem_singleton, List.not_mem_nil,
      or_false] at hq
    rcases hq with h | h | h | h <;> subst h <;> norm_num
  · refine ⟨⟨⟨14, 0, 0⟩, by simp [shiftedSquare], rfl⟩, ?_⟩
    intro q hq
    simp only [shiftedSquare, List.mem_cons, List.mem_singleton, List.not_mem_nil,
      or_false] at hq
    rcases hq with h | h | h | h <;> subst h <;> norm_num

end ComputeSize

end Polygon

/-! ## Lookup after expiry -/

namespace MACAddressTable

/-- Lookup in a table after the erase loop: the entry found before, unless it is aged. -/
theorem mapFind_removeAgedLoop (agingTime now : Int) (a : MACAddress) (t : AddressTable)
    (hs : mapSorted t) :
    mapFind a (removeAgedLoop agingTime now t) =
      (mapFind a t).bind
        (fun e => if e.insertionTime + agingTime ≤ now then none else some e) := by
  induction t with
  | nil => rfl
  | cons cur rest ih =>
    obtain ⟨k, e⟩ := cur
    have hs2 := List.pairwise_cons.mp hs
    by_cases hk : k = a
    · subst hk
      have hrest : mapFind k rest = none :=
        mapFind_eq_none_of_lt _ _ (fun y hy => hs2.1 y hy)
      by_cases hage : e.insertionTime + agingTime ≤ now
      · simp only [removeAgedLoop, if_pos hage, mapFind, if_true, Option.some_bind]
        rw [ih hs2.2, hrest]
        rfl
      · simp only [removeAgedLoop, if_neg hage, mapFind, if_true, Option.some_bind]
    · by_cases hage : e.insertionTime + agingTime ≤ now
      · simp only [removeAgedLoop, if_pos hage, mapFind, if_neg hk]
        exact ih hs2.2
      · simp only [removeAgedLoop, if_neg hage, mapFind, if_neg hk]
        exact ih hs2.2

/-- The value `getPortForAddress` returns, from the entry it finds. -/
theorem getPortForAddress_fst_eq (s : MACAddressTable) (now : Int) (a : MACAddress) (v : Nat) :
    (s.getPortForAddress now a v).1 =
      match s.entry v a with
      | none => -1
      | some e => if e.insertionTime + s.agingTime ≤ now then -1 else e.portno := by
  cases he : s.entry v a with
  | some e => exact getPortForAddress_fst s now a v e he
  | none =>
    unfold entry at he
    cases ht : s.getTableForVid v with
    | none => rw [getPortForAddress_noTable s now a v ht]
    | some t =>
      rw [ht] at he
      rw [getPortForAddress_noEntry s now a v t ht he]

/-- The value `getPortForAddress` returns in a state whose table of `v` went through the
erase loop with the same `agingTime` and `now`. -/
theorem getPortForAddress_fst_of_expired (s s1 : MACAddressTable) (now : Int)
    (a : MACAddress) (v : Nat) (hs : s.WF) (hage : s1.agingTime = s.agingTime)
    (ht : mapFind v s1.vlanAddressTable =
      (mapFind v s.vlanAddressTable).map (removeAgedLoop s.agingTime now)) :
    (s1.getPortForAddress now a v).1 = (s.getPortForAddress now a v).1 := by
  rw [getPortForAddress_fst_eq, getPortForAddress_fst_eq, entry_eq, entry_eq, ht, hage]
  cases h : mapFind v s.vlanAddressTable with
  | none => rfl
  | some t =>
    have hsorted : mapSorted t := hs.2.1 (v, t) (mapFind_mem v t _ h)
    simp only [Option.map_some', Option.some_bind]
    rw [mapFind_removeAgedLoop s.agingTime now a t hsorted]
    cases he : mapFind a t with
    | none => rfl
    | some e =>
      simp only [Option.some_bind]
      by_cases hc : e.insertionTime + s.agingTime ≤ now
      · simp only [if_pos hc]
      · simp only [if_neg hc]

/-- C33: lookup is consistent with expiry. In a well-formed state (every map has distinct
keys, as in every state of the program), at any time `now`, `getPortForAddress(a, v)`
returns the same value in the state as it is, in the state after
`removeAgedEntriesFromAllVlans()` and in the state after `removeAgedEntriesFromVlan(v)`,
both called at the same time `now`. -/
theorem getPortForAddress_after_expiry (s : MACAddressTable) (now : Int) (a : MACAddress)
    (v : Nat) (hs : s.WF) :
    ((s.removeAgedEntriesFromAllVlans now).getPortForAddress now a v).1 =
      (s.getPortForAddress now a v).1 ∧
    ((s.removeAgedEntriesFromVlan now v).getPortForAddress now a v).1 =
      (s.getPortForAddress now a v).1 := by
  constructor
  · apply getPortForAddress_fst_of_expired s (s.removeAgedEntriesFromAllVlans now) now a v hs rfl
    exact mapFind_mapValues v (fun _ t0 => removeAgedLoop s.agingTime now t0) s.vlanAddressTable
  · apply getPortForAddress_fst_of_expired s (s.removeAgedEntriesFromVlan now v) now a v hs
    · rw [removeAgedEntriesFromVlan_eq]
    · rw [removeAgedEntriesFromVlan_eq]
      exact mapFind_mapModify_self v _ _

/-- Witness for C33: the state `twoVlans` at time 12, where the entry of address 1 in
VLAN 0 is aged: the lookup returns `-1` before and after either expiry call. -/
theorem getPortForAddress_after_expiry_witness :
    (twoVlans.getPortForAddress 12 1 0).1 = -1 ∧
    ((twoVlans.removeAgedEntriesFromAllVlans 12).getPortForAddress 12 1 0).1 =
      (twoVlans.getPortForAddress 12 1 0).1 ∧
    ((twoVlans.removeAgedEntriesFromVlan 12 0).getPortForAddress 12 1 0).1 =
      (twoVlans.getPortForAddress 12 1 0).1 :=
  ⟨by decide, getPortForAddress_after_expiry twoVlans 12 1 0 (by decide)⟩

end MACAddressTable

/-! ## The catalog materials: refractive index and propagation speed -/

namespace Material

theorem speedOfLight_pos : (0 : ℝ) < SPEED_OF_LIGHT := by
  unfold SPEED_OF_LIGHT
  norm_num

/-- A material whose product of relative permittivity and permeability exceeds 1 has a
refractive index above 1 and a propagation speed below the speed of light. -/
theorem index_speed_of_one_lt (m : Material ℝ) (e u : ℝ)
    (he : m.relativePermittivity = some e) (hu : m.relativePermeability = some u)
    (h : 1 < e * u) :
    ∃ n v, m.getRefractiveIndex Real.sqrt = some n ∧ m.getPropagationSpeed Real.sqrt = some v ∧
      1 < n ∧ v < SPEED_OF_LIGHT := by
  have hn : m.getRefractiveIndex Real.sqrt = some (Real.sqrt (e * u)) := by
    simp only [getRefractiveIndex, he, hu]
    rw [if_neg (by linarith)]
  have h1 : 1 < Real.sqrt (e * u) := by
    rw [Real.lt_sqrt (by norm_num)]
    simpa using h
  have hne : Real.sqrt (e * u) ≠ 0 := by linarith
  have hv : m.getPropagationSpeed Real.sqrt = some (SPEED_OF_LIGHT / Real.sqrt (e * u)) := by
    simp only [getPropagationSpeed, hn]
    rw [if_neg hne]
  exact ⟨_, _, hn, hv, h1, div_lt_self speedOfLight_pos h1⟩

theorem vacuum_index_speed :
    (vacuum : Material ℝ).getRefractiveIndex Real.sqrt = some 1 ∧
    (vacuum : Material ℝ).getPropagationSpeed Real.sqrt = some SPEED_OF_LIGHT := by
  have hn : (vacuum : Material ℝ).getRefractiveIndex Real.sqrt = some 1 := by
    simp only [getRefractiveIndex, vacuum, mul_one, Real.sqrt_one]
    rw [if_neg (by norm_num)]
  refine ⟨hn, ?_⟩
  simp only [getPropagationSpeed, hn]
  rw [if_neg one_ne_zero, div_one]

/-- C34: over the real numbers, each of the catalog materials vacuum, air, wood, brick,
concrete and glass has a refractive index `n >= 1` and a propagation speed `v <= c`; for
vacuum `n = 1` and `v = c` exactly; for the other five `n > 1` and `v < c`. -/
theorem catalog_index_and_speed :
    (∀ m ∈ [(vacuum : Material ℝ), air, wood, brick, concrete, glass],
      ∃ n v, m.getRefractiveIndex Real.sqrt = some n ∧
        m.getPropagationSpeed Real.sqrt = some v ∧ 1 ≤ n ∧ v ≤ SPEED_OF_LIGHT) ∧
    ((vacuum : Material ℝ).getRefractiveIndex Real.sqrt = some 1 ∧
      (vacuum : Material ℝ).getPropagationSpeed Real.sqrt = some SPEED_OF_LIGHT) ∧
    (∀ m ∈ [(air : Material ℝ), wood, brick, concrete, glass],
      ∃ n v, m.getRefractiveIndex Real.sqrt = some n ∧
        m.getPropagationSpeed Real.sqrt = some v ∧ 1 < n ∧ v < SPEED_OF_LIGHT) := by
  have hstrict : ∀ m ∈ [(air : Material ℝ), wood, brick, concrete, glass],
      ∃ n v, m.getRefractiveIndex Real.sqrt = some n ∧
        m.getPropagationSpeed Real.sqrt = some v ∧ 1 < n ∧ v < SPEED_OF_LIGHT := by
    intro m hm
    simp only [List.mem_cons, List.mem_singleton, List.not_mem_nil, or_false] at hm
    rcases hm with h | h | h | h | h
    · rw [h]
      exact index_speed_of_one_lt air 1.00058986 1.00000037 rfl rfl (by norm_num)
    · rw [h]
      exact index_speed_of_one_lt wood 5 1.00000043 rfl rfl (by norm_num)
    · rw [h]
      exact index_speed_of_one_lt brick 4.5 1 rfl rfl (by norm_num)
    · rw [h]
      exact index_speed_of_one_lt concrete 4.5 1 rfl rfl (by norm_num)
    · rw [h]
      exact index_speed_of_one_lt glass 7 1 rfl rfl (by norm_num)
  refine ⟨?_, vacuum_index_speed, hstrict⟩
  intro m hm
  rcases List.mem_cons.mp hm with h | h
  · rw [h]
    exact ⟨1, SPEED_OF_LIGHT, vacuum_index_speed.1, vacuum_index_speed.2, le_refl _, le_refl _⟩
  · obtain ⟨n, v, h1, h2, h3, h4⟩ := hstrict m h
    exact ⟨n, v, h1, h2, h3.le, h4.le⟩

end Material

/-! ## The geometry in `double` arithmetic -/

namespace Polygon

/-- C17 as stated fails: in `double` arithmetic, for the triangle `[(0,0,0),(1,0,0),(0,1,1)]`,
whose first three points are not collinear (the cross product of its edge vectors is
`(0,-1,1)`), `getNormalUnitVector()` returns `(0, -a, a)` with
`a = 0.7071067811865475 = 1592262918131443 / 2^51`; its `length()` is `1 - 2^-53`, not 1,
and the exact sum of the squares of its coordinates is not 1 either. For the triangle
`[(0,0,0),(1e200,0,0),(1e200,1e200,0)]`, not collinear either, it returns `(0, 0, NaN)`. -/
theorem getNormalUnitVector_binary64 :
    ((tiltedTriangle.point 1).sub (tiltedTriangle.point 0)).cross
        ((tiltedTriangle.point 2).sub (tiltedTriangle.point 0)) =
      ⟨.finite 0, .finite (-1), .finite 1⟩ ∧
    tiltedTriangle.getNormalUnitVector Binary64.sqrt =
      some ⟨.finite 0, .finite (-(1592262918131443 / 2251799813685248)),
        .finite (1592262918131443 / 2251799813685248)⟩ ∧
    (⟨.finite 0, .finite (-(1592262918131443 / 2251799813685248)),
        .finite (1592262918131443 / 2251799813685248)⟩ : Coord Binary64).length Binary64.sqrt =
      .finite (9007199254740991 / 9007199254740992) ∧
    (.finite (9007199254740991 / 9007199254740992) : Binary64) ≠ 1 ∧
    (0 : ℚ) * 0 + (-(1592262918131443 / 2251799813685248)) *
        (-(1592262918131443 / 2251799813685248)) +
      (1592262918131443 / 2251799813685248) * (1592262918131443 / 2251799813685248) ≠ 1 ∧
    hugeTriangle.getNormalUnitVector Binary64.sqrt = some ⟨.finite 0, .finite 0, .nan⟩ := by
  decide!

/-- C30 as stated fails: in `double` arithmetic, for the triangle
`[(-3,0,3),(-1,-1,3),(-3,3,0)]`, `n = getNormalUnitVector()` is
`(0.3333333333333333, 0.6666666666666666, 0.6666666666666666)` with `n . n = 1`, and its
first two points `P1`, `P2` have `n . P1 = n . P2 = 1`; `getEdgeOutwardNormalVector(P1, P2)`
is `(0, 2^-49, 0)`, while `(1 - 1) * ((P2 - P1) x n)` is the zero vector. -/
theorem getEdgeOutwardNormalVector_binary64 :
    offsetTriangle.getNormalUnitVector Binary64.sqrt =
      some ⟨.finite (6004799503160661 / 18014398509481984),
        .finite (6004799503160661 / 9007199254740992),
        .finite (6004799503160661 / 9007199254740992)⟩ ∧
    (⟨.finite (6004799503160661 / 18014398509481984),
        .finite (6004799503160661 / 9007199254740992),
        .finite (6004799503160661 / 9007199254740992)⟩ : Coord Binary64).dot
      ⟨.finite (6004799503160661 / 18014398509481984),
        .finite (6004799503160661 / 9007199254740992),
        .finite (6004799503160661 / 9007199254740992)⟩ = 1 ∧
    (⟨.finite (6004799503160661 / 18014398509481984),
        .finite (6004799503160661 / 9007199254740992),
        .finite (6004799503160661 / 9007199254740992)⟩ : Coord Binary64).dot
      (offsetTriangle.point 0) = 1 ∧
    (⟨.finite (6004799503160661 / 18014398509481984),
        .finite (6004799503160661 / 9007199254740992),
        .finite (6004799503160661 / 9007199254740992)⟩ : Coord Binary64).dot
      (offsetTriangle.point 1) = 1 ∧
    offsetTriangle.getEdgeOutwardNormalVector Binary64.sqrt (offsetTriangle.point 0)
        (offsetTriangle.point 1) =
      some ⟨.finite 0, .finite (1 / 562949953421312), .finite 0⟩ ∧
    (((offsetTriangle.point 1).sub (offsetTriangle.point 0)).cross
        ⟨.finite (6004799503160661 / 18014398509481984),
          .finite (6004799503160661 / 9007199254740992),
          .finite (6004799503160661 / 9007199254740992)⟩).scale (1 - 1) = Coord.zero ∧
    (⟨.finite 0, .finite (1 / 562949953421312), .finite 0⟩ : Coord Binary64) ≠ Coord.zero := by
  decide!

/-- C31 as stated fails: in `double` arithmetic, every point `q` of the triangle
`[(-3,0,3),(-1,-1,3),(-3,3,0)]` has `n . q = 1` for `n = getNormalUnitVector()`, which has
`n . n = 1`, and for the segment from `(100,100,100)` to `(200,300,400)`
`computeIntersection` returns false. -/
theorem computeIntersection_binary64 :
    (∃ n, offsetTriangle.getNormalUnitVector Binary64.sqrt = some n ∧ n.dot n = 1 ∧
      ∀ q ∈ offsetTriangle.points, n.dot q = 1) ∧
    (offsetTriangle.computeIntersection Binary64.sqrt LineSegment.farBinary64
      Coord.zero Coord.zero Coord.zero Coord.zero).result = false := by
  refine ⟨⟨⟨.finite (6004799503160661 / 18014398509481984),
    .finite (6004799503160661 / 9007199254740992),
    .finite (6004799503160661 / 9007199254740992)⟩, by decide!, by decide!, by decide!⟩,
    by decide!⟩

end Polygon

end Inet
